import Mathlib

/-!
# Verification of `include/vlc_input.h`

A shallow embedding of the inline helpers of `vlc_input.h` (seekpoints, titles,
attachments, `input_GetVout`) over an explicit heap with allocation accounting,
and of the audio slot of the resource pool that the header only declares,
followed by the properties proved about them.

## Memory model

* A pointer is `Option Nat`: `none` is `NULL`, `some a` is the base address of a
  heap object.
* The heap is an association list from addresses to objects.  `malloc`,
  `strdup` and `vlc_alloc` are allocation requests; the `k`-th request made on a
  memory succeeds iff the oracle `o k` is `true`, so quantifying over `o`
  quantifies over every pattern of allocation success and failure.
* Undefined behaviour (reading or writing through `NULL` or a dangling pointer,
  reading past the end of a buffer, freeing a pointer that is not live) makes the
  embedded function return `none`.
-/

namespace VlcInput

/-! ## Heap -/

/-- A C pointer: `none` is `NULL`. -/
abbrev Ptr := Option Nat

/-- The record `struct seekpoint_t`. -/
structure seekpoint_t where
  i_time_offset : Int
  psz_name : Ptr
deriving DecidableEq, Repr

/-- The record `struct input_title_t`. -/
structure input_title_t where
  psz_name : Ptr
  i_length : Int
  i_flags : Nat
  i_seekpoint : Int
  seekpoint : Ptr
deriving DecidableEq, Repr

/-- The record `struct input_attachment_t`. -/
structure input_attachment_t where
  psz_name : Ptr
  psz_mime : Ptr
  psz_description : Ptr
  i_data : Nat
  p_data : Ptr
deriving DecidableEq, Repr

/-- Heap objects: NUL-terminated strings (the bytes before the terminator), raw
byte buffers, arrays of pointers, and the three records of the header. -/
inductive Obj where
  | str (s : List Nat)
  | bytes (b : List Nat)
  | ptrs (cells : List Ptr)
  | seekpoint (r : seekpoint_t)
  | title (r : input_title_t)
  | attachment (r : input_attachment_t)
deriving DecidableEq, Repr

/-- The memory: the live allocations, most recent first, and the number of
allocation requests served so far (the index into the oracle). -/
structure Mem where
  objs : List (Nat × Obj)
  reqs : Nat
deriving DecidableEq, Repr

/-- An address above every live address. -/
def fresh : List (Nat × Obj) → Nat
  | [] => 1
  | (a, _) :: l => max (a + 1) (fresh l)

/-- The object stored at an address, if the address is live. -/
def lookup (a : Nat) : List (Nat × Obj) → Option Obj
  | [] => none
  | (b, v) :: l => if a = b then some v else lookup a l

/-- Overwrite the object stored at a live address. -/
def store (a : Nat) (v : Obj) : List (Nat × Obj) → List (Nat × Obj)
  | [] => []
  | (b, w) :: l => if a = b then (b, v) :: l else (b, w) :: store a v l

/-- Remove the allocation at an address. -/
def remove (a : Nat) : List (Nat × Obj) → List (Nat × Obj)
  | [] => []
  | (b, w) :: l => if a = b then l else (b, w) :: remove a l

/-- An allocation request `malloc(...)` for an object of shape `init` (whose
contents stand for the indeterminate initial bytes).  The oracle decides whether
the request succeeds; a successful request returns a fresh address. -/
def malloc (o : Nat → Bool) (init : Obj) (m : Mem) : Ptr × Mem :=
  if o m.reqs then
    (some (fresh m.objs), { objs := (fresh m.objs, init) :: m.objs, reqs := m.reqs + 1 })
  else
    (none, { objs := m.objs, reqs := m.reqs + 1 })

/-- The call `free(p)`: a no-op on `NULL`, undefined on a pointer that is not live. -/
def free (p : Ptr) (m : Mem) : Option Mem :=
  match p with
  | none => some m
  | some a =>
    match lookup a m.objs with
    | none => none
    | some _ => some { objs := remove a m.objs, reqs := m.reqs }

/-- Read-modify-write of the object at `a`; undefined if `a` is not live or the
object has the wrong shape (`f` returns `none`). -/
def modify (a : Nat) (f : Obj → Option Obj) (m : Mem) : Option Mem :=
  match lookup a m.objs with
  | none => none
  | some v =>
    match f v with
    | none => none
    | some w => some { objs := store a w m.objs, reqs := m.reqs }

/-- Read the C string at `p`. -/
def readStr (m : Mem) (p : Ptr) : Option (List Nat) :=
  match p with
  | none => none
  | some a =>
    match lookup a m.objs with
    | some (Obj.str s) => some s
    | _ => none

/-- Read the byte buffer at `p`. -/
def readBytes (m : Mem) (p : Ptr) : Option (List Nat) :=
  match p with
  | none => none
  | some a =>
    match lookup a m.objs with
    | some (Obj.bytes b) => some b
    | _ => none

/-- Read the pointer array at `p`. -/
def readPtrs (m : Mem) (p : Ptr) : Option (List Ptr) :=
  match p with
  | none => none
  | some a =>
    match lookup a m.objs with
    | some (Obj.ptrs c) => some c
    | _ => none

/-- Read the seekpoint record at `p`. -/
def readSeekpoint (m : Mem) (p : Ptr) : Option seekpoint_t :=
  match p with
  | none => none
  | some a =>
    match lookup a m.objs with
    | some (Obj.seekpoint r) => some r
    | _ => none

/-- Read the title record at `p`. -/
def readTitle (m : Mem) (p : Ptr) : Option input_title_t :=
  match p with
  | none => none
  | some a =>
    match lookup a m.objs with
    | some (Obj.title r) => some r
    | _ => none

/-- Read the attachment record at `p`. -/
def readAttachment (m : Mem) (p : Ptr) : Option input_attachment_t :=
  match p with
  | none => none
  | some a =>
    match lookup a m.objs with
    | some (Obj.attachment r) => some r
    | _ => none

/-- Assignment to fields of the seekpoint record at `a`. -/
def setSeekpoint (a : Nat) (f : seekpoint_t → seekpoint_t) (m : Mem) : Option Mem :=
  modify a (fun v => match v with
    | Obj.seekpoint r => some (Obj.seekpoint (f r))
    | _ => none) m

/-- Assignment to fields of the title record at `a`. -/
def setTitle (a : Nat) (f : input_title_t → input_title_t) (m : Mem) : Option Mem :=
  modify a (fun v => match v with
    | Obj.title r => some (Obj.title (f r))
    | _ => none) m

/-- Assignment to fields of the attachment record at `a`. -/
def setAttachment (a : Nat) (f : input_attachment_t → input_attachment_t) (m : Mem) :
    Option Mem :=
  modify a (fun v => match v with
    | Obj.attachment r => some (Obj.attachment (f r))
    | _ => none) m

/-- Assignment `arr[i] = p` to a cell of the pointer array at `a`; undefined
outside the array. -/
def setCell (a : Nat) (i : Nat) (p : Ptr) (m : Mem) : Option Mem :=
  modify a (fun v => match v with
    | Obj.ptrs c => if i < c.length then some (Obj.ptrs (c.set i p)) else none
    | _ => none) m

/-- The call `strdup(s)` on a string whose contents are `s`. -/
def strdup (o : Nat → Bool) (s : List Nat) (m : Mem) : Ptr × Mem :=
  malloc o (Obj.str s) m

/-- The call `memcpy(dst, src, n)` between two byte buffers. -/
def memcpy (dst src : Ptr) (n : Nat) (m : Mem) : Option Mem :=
  match readBytes m src, dst with
  | some bs, some d =>
    if n ≤ bs.length then
      modify d (fun v => match v with
        | Obj.bytes bd => if n ≤ bd.length then some (Obj.bytes (bs.take n ++ bd.drop n)) else none
        | _ => none) m
    else none
  | _, _ => none

/-! ## Seek points -/

/-- Embedding of `vlc_seekpoint_New`. -/
def vlc_seekpoint_New (o : Nat → Bool) (m : Mem) : Option (Ptr × Mem) :=
  match malloc o (Obj.seekpoint ⟨0, none⟩) m with
  | (none, m1) => some (none, m1)
  | (some point, m1) => do
    let m2 ← setSeekpoint point (fun r => { r with i_time_offset := -1 }) m1
    let m3 ← setSeekpoint point (fun r => { r with psz_name := none }) m2
    pure (some point, m3)

/-- Embedding of `vlc_seekpoint_Delete`. -/
def vlc_seekpoint_Delete (point : Ptr) (m : Mem) : Option Mem :=
  match point with
  | none => some m
  | some _ => do
    let r ← readSeekpoint m point
    let m1 ← free r.psz_name m
    free point m1

/-- Embedding of `vlc_seekpoint_Duplicate`.  The source is dereferenced only
when the record allocation succeeded. -/
def vlc_seekpoint_Duplicate (o : Nat → Bool) (src : Ptr) (m : Mem) : Option (Ptr × Mem) := do
  let (point, m1) ← vlc_seekpoint_New o m
  match point with
  | none => pure (none, m1)
  | some p =>
    let s ← readSeekpoint m1 src
    let m3 ← match s.psz_name with
      | none => some m1
      | some _ => do
        let name ← readStr m1 s.psz_name
        let (q, m2) := strdup o name m1
        setSeekpoint p (fun r => { r with psz_name := q }) m2
    let s2 ← readSeekpoint m3 src
    let m4 ← setSeekpoint p (fun r => { r with i_time_offset := s2.i_time_offset }) m3
    pure (some p, m4)

/-! ## Titles -/

/-- Embedding of `vlc_input_title_New`. -/
def vlc_input_title_New (o : Nat → Bool) (m : Mem) : Option (Ptr × Mem) :=
  match malloc o (Obj.title ⟨none, 0, 0, 0, none⟩) m with
  | (none, m1) => some (none, m1)
  | (some t, m1) => do
    let m2 ← setTitle t (fun r => { r with psz_name := none }) m1
    let m3 ← setTitle t (fun r => { r with i_flags := 0 }) m2
    let m4 ← setTitle t (fun r => { r with i_length := 0 }) m3
    let m5 ← setTitle t (fun r => { r with i_seekpoint := 0 }) m4
    let m6 ← setTitle t (fun r => { r with seekpoint := none }) m5
    pure (some t, m6)

/-- The loop of `vlc_input_title_Delete`: `k` iterations starting at index `i`,
each running `vlc_seekpoint_Delete( t->seekpoint[i] )`. -/
def title_delete_loop (t : Nat) : Nat → Nat → Mem → Option Mem
  | 0, _, m => some m
  | k + 1, i, m => do
    let tr ← readTitle m (some t)
    let cells ← readPtrs m tr.seekpoint
    let c ← cells.get? i
    let m1 ← vlc_seekpoint_Delete c m
    title_delete_loop t k (i + 1) m1

/-- Embedding of `vlc_input_title_Delete`.  The loop runs for
`i = 0 .. t->i_seekpoint - 1`, that is `t->i_seekpoint` times when that is
positive and not at all otherwise. -/
def vlc_input_title_Delete (t : Ptr) (m : Mem) : Option Mem :=
  match t with
  | none => some m
  | some a => do
    let tr ← readTitle m t
    let m1 ← free tr.psz_name m
    let tr1 ← readTitle m1 t
    let m2 ← title_delete_loop a tr1.i_seekpoint.toNat 0 m1
    let tr2 ← readTitle m2 t
    let m3 ← free tr2.seekpoint m2
    free t m3

/-- The call `vlc_alloc(count, sizeof(seekpoint_t*))`: an allocation request for
an array of `count` pointer cells.  A size overflow is one of the ways the
request can fail, so it is covered by the oracle. -/
def vlc_alloc (o : Nat → Bool) (count : Nat) (m : Mem) : Ptr × Mem :=
  malloc o (Obj.ptrs (List.replicate count none)) m

/-- The loop of `vlc_input_title_Duplicate`: `k` iterations starting at index
`i`, each running `dup->seekpoint[i] = vlc_seekpoint_Duplicate( t->seekpoint[i] )`. -/
def title_dup_loop (o : Nat → Bool) (t : Ptr) (dup : Nat) : Nat → Nat → Mem → Option Mem
  | 0, _, m => some m
  | k + 1, i, m => do
    let tr ← readTitle m t
    let cells ← readPtrs m tr.seekpoint
    let src ← cells.get? i
    let (p, m1) ← vlc_seekpoint_Duplicate o src m
    let dr ← readTitle m1 (some dup)
    let arr ← dr.seekpoint
    let m2 ← setCell arr i p m1
    title_dup_loop o t dup k (i + 1) m2

/-- Embedding of `vlc_input_title_Duplicate`.  The loop bound `t->i_seekpoint`
is not written by the loop body, so the loop runs `t->i_seekpoint` times. -/
def vlc_input_title_Duplicate (o : Nat → Bool) (t : Ptr) (m : Mem) : Option (Ptr × Mem) := do
  let (dup, m1) ← vlc_input_title_New o m
  match dup with
  | none => pure (none, m1)
  | some d =>
    let tr ← readTitle m1 t
    let m2 ← match tr.psz_name with
      | none => some m1
      | some _ => do
        let name ← readStr m1 tr.psz_name
        let (q, m) := strdup o name m1
        setTitle d (fun r => { r with psz_name := q }) m
    let tr2 ← readTitle m2 t
    let m3 ← setTitle d (fun r => { r with i_flags := tr2.i_flags }) m2
    let tr3 ← readTitle m3 t
    let m4 ← setTitle d (fun r => { r with i_length := tr3.i_length }) m3
    let tr4 ← readTitle m4 t
    if 0 < tr4.i_seekpoint then
      let (arr, m5) := vlc_alloc o tr4.i_seekpoint.toNat m4
      let m6 ← setTitle d (fun r => { r with seekpoint := arr }) m5
      match arr with
      | none => pure (some d, m6)
      | some _ =>
        let m7 ← title_dup_loop o t d tr4.i_seekpoint.toNat 0 m6
        let tr7 ← readTitle m7 t
        let m8 ← setTitle d (fun r => { r with i_seekpoint := tr7.i_seekpoint }) m7
        pure (some d, m8)
    else
      pure (some d, m4)

/-! ## Attachments -/

/-- Embedding of `vlc_input_attachment_Delete`. -/
def vlc_input_attachment_Delete (a : Ptr) (m : Mem) : Option Mem :=
  match a with
  | none => some m
  | some _ => do
    let r ← readAttachment m a
    let m1 ← free r.p_data m
    let r1 ← readAttachment m1 a
    let m2 ← free r1.psz_description m1
    let r2 ← readAttachment m2 a
    let m3 ← free r2.psz_mime m2
    let r3 ← readAttachment m3 a
    let m4 ← free r3.psz_name m3
    free a m4

/-- The string read by `strdup( psz ? psz : "" )`. -/
def strArg (m : Mem) (psz : Ptr) : Option (List Nat) :=
  match psz with
  | none => some []
  | some _ => readStr m psz

/-- Embedding of `vlc_input_attachment_New`. -/
def vlc_input_attachment_New (o : Nat → Bool)
    (psz_name psz_mime psz_description p_data : Ptr) (i_data : Nat) (m : Mem) :
    Option (Ptr × Mem) :=
  match malloc o (Obj.attachment ⟨none, none, none, 0, none⟩) m with
  | (none, m1) => some (none, m1)
  | (some a, m1) => do
    let s1 ← strArg m1 psz_name
    let (n, m2) := strdup o s1 m1
    let m3 ← setAttachment a (fun r => { r with psz_name := n }) m2
    let s2 ← strArg m3 psz_mime
    let (mi, m4) := strdup o s2 m3
    let m5 ← setAttachment a (fun r => { r with psz_mime := mi }) m4
    let s3 ← strArg m5 psz_description
    let (de, m6) := strdup o s3 m5
    let m7 ← setAttachment a (fun r => { r with psz_description := de }) m6
    let m8 ← setAttachment a (fun r => { r with i_data := i_data }) m7
    let (pd, m9) := malloc o (Obj.bytes (List.replicate i_data 0)) m8
    let m10 ← setAttachment a (fun r => { r with p_data := pd }) m9
    let r10 ← readAttachment m10 (some a)
    let m11 ← if 0 < i_data ∧ r10.p_data ≠ none then memcpy r10.p_data p_data i_data m10
      else some m10
    let r ← readAttachment m11 (some a)
    if r.psz_name = none ∨ r.psz_mime = none ∨ r.psz_description = none
        ∨ (0 < i_data ∧ r.p_data = none) then do
      let m12 ← vlc_input_attachment_Delete (some a) m11
      pure (none, m12)
    else
      pure (some a, m11)

/-- Embedding of `vlc_input_attachment_Duplicate`. -/
def vlc_input_attachment_Duplicate (o : Nat → Bool) (a : Ptr) (m : Mem) :
    Option (Ptr × Mem) := do
  let r ← readAttachment m a
  vlc_input_attachment_New o r.psz_name r.psz_mime r.psz_description r.p_data r.i_data m

/-- A store `((unsigned char *)p)[i] = b` into the byte buffer at `p`. -/
def writeByte (p : Ptr) (i b : Nat) (m : Mem) : Option Mem :=
  match p with
  | none => none
  | some a =>
    modify a (fun v => match v with
      | Obj.bytes bs => if i < bs.length then some (Obj.bytes (bs.set i b)) else none
      | _ => none) m

/-! ## Abstract values of heap records -/

/-- The value of a seekpoint: its time offset and its optional name. -/
structure SeekpointVal where
  time_offset : Int
  name : Option (List Nat)
deriving DecidableEq, Repr

/-- The value of a title. -/
structure TitleVal where
  name : Option (List Nat)
  length : Int
  flags : Nat
  seekpoints : List SeekpointVal
deriving DecidableEq, Repr

/-- The value of an attachment. -/
structure AttachmentVal where
  name : List Nat
  mime : List Nat
  description : List Nat
  payload : List Nat
deriving DecidableEq, Repr

/-- The string at an optional-name pointer: `NULL` is the unset name. -/
def optStrAt (m : Mem) (p : Ptr) : Option (Option (List Nat)) :=
  match p with
  | none => some none
  | some _ => (readStr m p).map some

/-- The value of the seekpoint at `p`; `none` when `p` is not a well-formed
seekpoint of the memory. -/
def seekpointAt (m : Mem) (p : Ptr) : Option SeekpointVal := do
  let r ← readSeekpoint m p
  let n ← optStrAt m r.psz_name
  pure ⟨r.i_time_offset, n⟩

/-- The values of the seekpoints a list of cells points to; `none` when a cell
is `NULL` or not a well-formed seekpoint. -/
def seekpointsAt (m : Mem) : List Ptr → Option (List SeekpointVal)
  | [] => some []
  | c :: cs => do
    let v ← seekpointAt m c
    let vs ← seekpointsAt m cs
    pure (v :: vs)

/-- The value of the title at `p`; `none` when `p` is not a well-formed title:
`i_seekpoint >= 0` and, when it is positive, `seekpoint[]` holds at least
`i_seekpoint` cells of which the first `i_seekpoint` are non-null seekpoints. -/
def titleAt (m : Mem) (p : Ptr) : Option TitleVal := do
  let r ← readTitle m p
  let n ← optStrAt m r.psz_name
  if r.i_seekpoint < 0 then none
  else if r.i_seekpoint = 0 then pure ⟨n, r.i_length, r.i_flags, []⟩
  else
    let cells ← readPtrs m r.seekpoint
    if cells.length < r.i_seekpoint.toNat then none
    else
      let vs ← seekpointsAt m (cells.take r.i_seekpoint.toNat)
      pure ⟨n, r.i_length, r.i_flags, vs⟩

/-- The payload of an attachment record: its first `i_data` bytes. -/
def payloadAt (m : Mem) (r : input_attachment_t) : Option (List Nat) :=
  if r.i_data = 0 then some []
  else
    match readBytes m r.p_data with
    | none => none
    | some b => if r.i_data ≤ b.length then some (b.take r.i_data) else none

/-- The value of the attachment at `p`; `none` when `p` is not a valid
attachment: non-null name, mime and description strings and a payload of
`i_data` bytes. -/
def attachmentAt (m : Mem) (p : Ptr) : Option AttachmentVal := do
  let r ← readAttachment m p
  let n ← readStr m r.psz_name
  let mi ← readStr m r.psz_mime
  let de ← readStr m r.psz_description
  let b ← payloadAt m r
  pure ⟨n, mi, de, b⟩

/-! ## `input_GetVout` -/

/-- The loop of `input_GetVout`: `k` iterations starting at index `i`, each
running `vlc_object_release( pp_vout[i] )`; the releases are appended to the
trace `acc`. -/
def release_loop (pp_vout : List Nat) : Nat → Nat → List Nat → Option (List Nat)
  | 0, _, acc => some acc
  | k + 1, i, acc =>
    match pp_vout.get? i with
    | none => none
    | some v => release_loop pp_vout k (i + 1) (acc ++ [v])

/-- Embedding of `input_GetVout`.  The out-parameters of
`input_Control( p_input, INPUT_GET_VOUTS, &pp_vout, &i_vout )` are the
arguments `status`, `pp_vout` and `i_vout`; the result is the returned output
and the trace of `vlc_object_release` calls, in order.  The array itself, which
`free( pp_vout )` returns to the allocator, carries no reference and is not
modelled. -/
def input_GetVout (status : Int) (pp_vout : List Nat) (i_vout : Nat) :
    Option (Option Nat × List Nat) :=
  if status ≠ 0 then some (none, [])
  else do
    let released ← release_loop pp_vout (i_vout - 1) 1 []
    let p_vout ← if 1 ≤ i_vout then (pp_vout.get? 0).map some else some none
    pure (p_vout, released)

/-! ## Resource pool (audio slot)

`input_resource_GetAout`, `input_resource_PutAout`, `input_resource_ResetAout`
and `input_resource_Terminate` are only declared in the header (`VLC_API`);
their bodies are not part of it.  The slot is modelled from the specification of
the pool (state machine `Absent → Held(n>0) ⇄ Idle(n=0) → Destroyed`): a
sequence of operations is a list, a terminate that has to wait for outstanding
holds completes at the put that releases the last of them, and a Destroyed slot
holds no resource, so that a later hold constructs a new one unless a terminate
has begun. -/

/-- The phases of a resource slot. -/
inductive Phase where
  | Absent
  | Held
  | Idle
  | Destroyed
deriving DecidableEq, Repr

/-- One resource slot: its phase, its reference count, whether a reset was
deferred (the resource is stale), whether a terminate has begun, and how many
devices were constructed for the slot so far. -/
structure Slot where
  phase : Phase
  refcount : Int
  stale : Bool
  draining : Bool
  created : Nat
deriving DecidableEq, Repr

/-- The empty slot of a new pool. -/
def Slot.init : Slot := ⟨Phase.Absent, 0, false, false, 0⟩

/-- Modelled from the spec: the body of `input_resource_GetAout` (the `hold` of
the pool) is missing.  A hold returns the Idle resource if there is one and
otherwise constructs a new one, which fails when the device cannot be created
(`deviceOk = false`); it increments the reference count.  No new hold is
accepted once a terminate has begun.  The result says whether a handle was
returned. -/
def input_resource_GetAout (deviceOk : Bool) (s : Slot) : Bool × Slot :=
  if s.draining then (false, s)
  else
    match s.phase with
    | Phase.Held => (true, { s with refcount := s.refcount + 1 })
    | Phase.Idle => (true, { s with phase := Phase.Held, refcount := s.refcount + 1 })
    | _ =>
      if deviceOk then
        (true, { s with phase := Phase.Held, refcount := 1, stale := false,
                        created := s.created + 1 })
      else (false, s)

/-- Modelled from the spec: the body of `input_resource_PutAout` (the `put` of
the pool) is missing.  A put consumes a handle, so it is possible only while the
slot is Held (`none` otherwise); it decrements the reference count, and on
reaching zero the resource becomes Idle, unless a reset was deferred or a
terminate is draining the slot, in which case it is destroyed. -/
def input_resource_PutAout (s : Slot) : Option Slot :=
  if s.phase = Phase.Held ∧ 0 < s.refcount then
    if s.refcount - 1 = 0 then
      if s.stale ∨ s.draining then
        some { s with phase := Phase.Destroyed, refcount := 0, stale := false }
      else
        some { s with phase := Phase.Idle, refcount := 0 }
    else
      some { s with refcount := s.refcount - 1 }
  else none

/-- Modelled from the spec: the body of `input_resource_ResetAout` (the `reset`
of the pool) is missing.  An Idle slot is destroyed immediately; on a Held slot
the reset is deferred, the resource being marked stale. -/
def input_resource_ResetAout (s : Slot) : Slot :=
  match s.phase with
  | Phase.Idle => { s with phase := Phase.Destroyed }
  | Phase.Held => { s with stale := true }
  | _ => s

/-- Modelled from the spec: the body of `input_resource_Terminate` is missing.
Terminate stops accepting holds and destroys the slot once the outstanding
holds have reached zero: at once when there is none, and otherwise at the put
that releases the last one. -/
def input_resource_Terminate (s : Slot) : Slot :=
  if s.phase = Phase.Held then { s with draining := true }
  else { s with phase := Phase.Destroyed, draining := true }

/-- The operations on a slot. -/
inductive PoolOp where
  | hold (deviceOk : Bool)
  | put
  | reset
  | terminate
deriving DecidableEq, Repr

/-- One operation on a slot; `none` when the operation is a put without a
handle. -/
def poolStep (s : Slot) : PoolOp → Option Slot
  | PoolOp.hold ok => some (input_resource_GetAout ok s).2
  | PoolOp.put => input_resource_PutAout s
  | PoolOp.reset => some (input_resource_ResetAout s)
  | PoolOp.terminate => some (input_resource_Terminate s)

/-- A sequence of operations on a slot, from left to right. -/
def poolRun (s : Slot) : List PoolOp → Option Slot
  | [] => some s
  | op :: ops =>
    match poolStep s op with
    | none => none
    | some s1 => poolRun s1 ops

/-- The sequence contains a put that follows a reset and brings the reference
count to zero. -/
def PutAfterReset (ops : List PoolOp) : Prop :=
  ∃ pre mid post s1, ops = pre ++ PoolOp.reset :: (mid ++ PoolOp.put :: post) ∧
    poolRun Slot.init (pre ++ PoolOp.reset :: (mid ++ [PoolOp.put])) = some s1 ∧
    s1.refcount = 0

/-- The sequence contains a reset issued while the slot was Idle. -/
def ResetWhileIdle (ops : List PoolOp) : Prop :=
  ∃ pre post s0, ops = pre ++ PoolOp.reset :: post ∧
    poolRun Slot.init pre = some s0 ∧ s0.phase = Phase.Idle

/-- What can have destroyed a slot: a terminate, a reset issued while the slot
was Idle, or a put that follows a reset and brings the count to zero. -/
def DestroyCause (ops : List PoolOp) : Prop :=
  PoolOp.terminate ∈ ops ∨ ResetWhileIdle ops ∨ PutAfterReset ops

/-- The invariant of a slot reached by the sequence `ops`. -/
def SlotInv (ops : List PoolOp) (s : Slot) : Prop :=
  0 ≤ s.refcount ∧ (s.phase = Phase.Held ↔ 0 < s.refcount) ∧
  (s.stale = true → PoolOp.reset ∈ ops) ∧
  (s.draining = true → PoolOp.terminate ∈ ops) ∧
  (s.phase = Phase.Destroyed → DestroyCause ops)

/-! ## Framing -/

/-- Every object of `l` is found unchanged in `l2`. -/
def Extends (l l2 : List (Nat × Obj)) : Prop :=
  ∀ a w, lookup a l = some w → lookup a l2 = some w

/-- Every object of `l`, except possibly the one at `x`, is found unchanged in `l2`. -/
def ExtendsExcept (x : Nat) (l l2 : List (Nat × Obj)) : Prop :=
  ∀ a w, a ≠ x → lookup a l = some w → lookup a l2 = some w

/-- Push an allocation in front of a list of allocations when the pointer is
non-null. -/
def pushOpt (p : Ptr) (x : Obj) (l : List (Nat × Obj)) : List (Nat × Obj) :=
  match p with
  | none => l
  | some q => (q, x) :: l

/-- The live allocations while an attachment is under construction: the
allocations `top` made for its fields, the record itself at `a`, and the
allocations `base` that were live before. -/
def shape (base : List (Nat × Obj)) (a : Nat) (top : List (Nat × Obj))
    (R : input_attachment_t) : List (Nat × Obj) :=
  top ++ (a, Obj.attachment R) :: base

/-- The addresses of `top` are strictly decreasing and all above `a`. -/
def Desc (a : Nat) : List (Nat × Obj) → Prop
  | [] => True
  | (b, _) :: top => a < b ∧ (∀ e ∈ top, e.1 < b) ∧ Desc a top

/-- The cell `c` of a duplicated title is a possibly partial copy of the
seekpoint value `v`: it is `NULL`, or a seekpoint with the time offset of `v`
whose name is the name of `v` or unset. -/
def PartialCopy (m : Mem) (c : Ptr) (v : SeekpointVal) : Prop :=
  c = none ∨ ∃ n, seekpointAt m c = some ⟨v.time_offset, n⟩ ∧ (n = v.name ∨ n = none)

/-- The live allocations while a title is being duplicated: the allocations
`top` made for the copy, the new record itself at `d`, and the allocations
`base` that were live before. -/
def tshape (base : List (Nat × Obj)) (d : Nat) (top : List (Nat × Obj))
    (R : input_title_t) : List (Nat × Obj) :=
  top ++ (d, Obj.title R) :: base

/-- The seekpoints of the title record `tr` that `vlc_input_title_Duplicate`
reads have the values `vs`: when `i_seekpoint > 0` the first `i_seekpoint` cells
of `seekpoint[]` are well-formed seekpoints with these values, and otherwise
nothing is read and `vs` is empty. -/
def SourceSeekpoints (m : Mem) (tr : input_title_t) (vs : List SeekpointVal) : Prop :=
  if 0 < tr.i_seekpoint then
    ∃ tcells, readPtrs m tr.seekpoint = some tcells ∧
      tr.i_seekpoint.toNat ≤ tcells.length ∧
      seekpointsAt m (tcells.take tr.i_seekpoint.toNat) = some vs
  else vs = []

/-- The part of `vlc_input_title_Duplicate` that follows the copy of the name:
the statements from `dup->i_flags = t->i_flags` to `return dup`, on the new
record `d`.  It is the tail of the embedding above, named so that it can be
reasoned about on its own (`vlc_input_title_Duplicate_unfold`). -/
def title_dup_tail (o : Nat → Bool) (t : Ptr) (d : Nat) (m2 : Mem) : Option (Ptr × Mem) := do
  let tr2 ← readTitle m2 t
  let m3 ← setTitle d (fun r => { r with i_flags := tr2.i_flags }) m2
  let tr3 ← readTitle m3 t
  let m4 ← setTitle d (fun r => { r with i_length := tr3.i_length }) m3
  let tr4 ← readTitle m4 t
  if 0 < tr4.i_seekpoint then
    let (arr, m5) := vlc_alloc o tr4.i_seekpoint.toNat m4
    let m6 ← setTitle d (fun r => { r with seekpoint := arr }) m5
    match arr with
    | none => pure (some d, m6)
    | some _ =>
      let m7 ← title_dup_loop o t d tr4.i_seekpoint.toNat 0 m6
      let tr7 ← readTitle m7 t
      let m8 ← setTitle d (fun r => { r with i_seekpoint := tr7.i_seekpoint }) m7
      pure (some d, m8)
  else
    pure (some d, m4)

/-- The record `Rd` of a title returned by `vlc_input_title_Duplicate` in the
memory `m1`, for a source record `tr` whose name is `nm` and whose seekpoints
are `vs`, duplicated from the memory `m` under the oracle `o`: same length and
flags; a name that is the source name or unset, in a buffer that was not live
before; and a seekpoint list that is either dropped (count 0, no array: the
source count is not positive or the array allocation failed) or an array, not
live before, of as many cells as the source count, each a possibly partial copy
that was not live before.  When every allocation succeeds the name and every
seekpoint are exact copies. -/
def DupRecord (o : Nat → Bool) (m m1 : Mem) (tr : input_title_t)
    (nm : Option (List Nat)) (vs : List SeekpointVal) (Rd : input_title_t) : Prop :=
  Rd.i_length = tr.i_length ∧ Rd.i_flags = tr.i_flags ∧
  (∃ n2, optStrAt m1 Rd.psz_name = some n2 ∧ (n2 = nm ∨ n2 = none)) ∧
  (∀ q, Rd.psz_name = some q → lookup q m.objs = none) ∧
  ((Rd.i_seekpoint = 0 ∧ Rd.seekpoint = none ∧
      (¬ 0 < tr.i_seekpoint ∨
        o (m.reqs + (if tr.psz_name = none then 1 else 2)) = false)) ∨
    (0 < tr.i_seekpoint ∧ Rd.i_seekpoint = tr.i_seekpoint ∧
      ∃ arr cells, Rd.seekpoint = some arr ∧ lookup arr m.objs = none ∧
        lookup arr m1.objs = some (Obj.ptrs cells) ∧
        cells.length = tr.i_seekpoint.toNat ∧
        List.Forall₂ (PartialCopy m1) cells vs ∧
        (∀ c ∈ cells, ∀ p, c = some p → lookup p m.objs = none) ∧
        ((∀ n, o n = true) → seekpointsAt m1 cells = some vs))) ∧
  ((∀ n, o n = true) → optStrAt m1 Rd.psz_name = some nm)

/-! ## Example memories -/

/-- A memory holding the seekpoint `(time 5, name "a")` at address 1, its name at
address 2. -/
def exSeekMem : Mem :=
  { objs := [(2, Obj.str [97]), (1, Obj.seekpoint ⟨5, some 2⟩)], reqs := 0 }

/-- The oracle under which only the first allocation request succeeds. -/
def onlyFirst : Nat → Bool := fun k => decide (k = 0)

/-- The oracle under which every allocation request succeeds. -/
def allOk : Nat → Bool := fun _ => true

/-- A memory holding, at address 1, the attachment with name "n", mime "m",
description "d" and the three payload bytes 1, 2, 3. -/
def exAttMem : Mem :=
  { objs := [(5, Obj.bytes [1, 2, 3]), (4, Obj.str [100]), (3, Obj.str [109]),
      (2, Obj.str [110]), (1, Obj.attachment ⟨some 2, some 3, some 4, 3, some 5⟩)],
    reqs := 0 }

/-- The memory `exAttMem` after a successful duplication of its attachment: the
duplicate is at address 6. -/
def exAttDupMem : Mem :=
  { objs := [(10, Obj.bytes [1, 2, 3]), (9, Obj.str [100]), (8, Obj.str [109]),
      (7, Obj.str [110]), (6, Obj.attachment ⟨some 7, some 8, some 9, 3, some 10⟩),
      (5, Obj.bytes [1, 2, 3]), (4, Obj.str [100]), (3, Obj.str [109]),
      (2, Obj.str [110]), (1, Obj.attachment ⟨some 2, some 3, some 4, 3, some 5⟩)],
    reqs := 5 }

/-- The value of the example attachment. -/
def exAttVal : AttachmentVal := ⟨[110], [109], [100], [1, 2, 3]⟩

/-- A memory holding, at address 1, the title named "t" of length 100 with the
menu flag and one seekpoint `(time 5, name "a")`. -/
def exTitleMem : Mem :=
  { objs := [(5, Obj.str [97]), (4, Obj.seekpoint ⟨5, some 5⟩), (3, Obj.ptrs [some 4]),
      (2, Obj.str [116]), (1, Obj.title ⟨some 2, 100, 1, 1, some 3⟩)],
    reqs := 0 }

/-- The value of the example title. -/
def exTitleVal : TitleVal := ⟨some [116], 100, 1, [⟨5, some [97]⟩]⟩

/-- The oracle under which only the first three allocation requests succeed. -/
def firstThree : Nat → Bool := fun k => decide (k < 3)

/-- The memory `exTitleMem` after its title was duplicated while only the
record allocation succeeded: the copy, at address 6, has no name and no
seekpoints. -/
def exTitleDupMem1 : Mem :=
  { objs := (6, Obj.title ⟨none, 100, 1, 0, none⟩) :: exTitleMem.objs, reqs := 3 }

/-- The memory `exTitleMem` after its title was duplicated while only the
first three allocations succeeded: the copy, at address 6, has one seekpoint
cell, which is `NULL`. -/
def exTitleDupMem3 : Mem :=
  { objs := (8, Obj.ptrs [none]) :: (7, Obj.str [116]) ::
      (6, Obj.title ⟨some 7, 100, 1, 1, some 8⟩) :: exTitleMem.objs,
    reqs := 4 }

/-- A memory holding, at address 1, a title named "t" whose seekpoint count is
-3 and whose `seekpoint` field is a dangling pointer. -/
def exTitleNegMem : Mem :=
  { objs := [(2, Obj.str [116]), (1, Obj.title ⟨some 2, 100, 1, -3, some 99⟩)], reqs := 0 }

/-- The audio slot after one successful get on a new pool: Held by one holder,
one output constructed. -/
def exHeldSlot : Slot := ⟨Phase.Held, 1, false, false, 1⟩

/-! ## Allocation accounting -/

/-- The allocations of `l` at addresses below `f`, in the order of `l`. -/
def below (f : Nat) (l : List (Nat × Obj)) : List (Nat × Obj) :=
  l.filter (fun e => decide (e.1 < f))

/-- The cell `c` owns `n` allocations of the memory `m`, all at addresses from
`lo` up to but not including `hi`: none when it is `NULL`, and otherwise the
live seekpoint record it points to and, when the name of that record is set, the
live allocation of the name. -/
def OwnedCell (m : Mem) (lo : Nat) (c : Ptr) (hi : Nat) (n : Nat) : Prop :=
  match c with
  | none => n = 0
  | some p =>
    lo ≤ p ∧ p < hi ∧ ∃ r, lookup p m.objs = some (Obj.seekpoint r) ∧
      (∀ q, r.psz_name = some q → p < q ∧ q < hi ∧ lookup q m.objs ≠ none) ∧
      n = (if r.psz_name = none then 1 else 2)

/-- The cells `cs` own `n` allocations of the memory `m` in all, those of each
cell at addresses above those of the cells before it, from `lo` on. -/
def Owned (m : Mem) : Nat → List Ptr → Nat → Prop
  | _, [], n => n = 0
  | lo, c :: cs, n =>
    ∃ hi n1 n2, lo ≤ hi ∧ OwnedCell m lo c hi n1 ∧ n = n1 + n2 ∧ Owned m hi cs n2

/-! ## Heap lemmas -/

theorem lookup_lt_fresh {a : Nat} {l : List (Nat × Obj)} {v : Obj}
    (h : lookup a l = some v) : a < fresh l := by
  induction l with
  | nil => simp [lookup] at h
  | cons e l ih =>
    obtain ⟨b, w⟩ := e
    simp only [lookup] at h
    simp only [fresh]
    by_cases hab : a = b
    · subst hab; omega
    · simp only [hab, if_false] at h
      have := ih h
      omega

theorem lookup_fresh (l : List (Nat × Obj)) : lookup (fresh l) l = none := by
  cases h : lookup (fresh l) l with
  | none => rfl
  | some v => exact absurd (lookup_lt_fresh h) (lt_irrefl _)

theorem ne_fresh_of_lookup {a : Nat} {l : List (Nat × Obj)} {v : Obj}
    (h : lookup a l = some v) : a ≠ fresh l :=
  Nat.ne_of_lt (lookup_lt_fresh h)

theorem lookup_cons (a b : Nat) (v : Obj) (l : List (Nat × Obj)) :
    lookup a ((b, v) :: l) = if a = b then some v else lookup a l := rfl

theorem lookup_store (a b : Nat) (v : Obj) (l : List (Nat × Obj)) :
    lookup b (store a v l) =
      if b = a then (lookup a l).map (fun _ => v) else lookup b l := by
  induction l with
  | nil => simp [store, lookup]
  | cons e l ih =>
    obtain ⟨c, w⟩ := e
    by_cases hac : a = c
    · subst hac
      by_cases hba : b = a
      · simp [store, lookup, hba]
      · simp [store, lookup, hba]
    · by_cases hba : b = a
      · subst hba
        simp [store, lookup, hac, ih]
      · simp [store, lookup, hac, hba, ih]

theorem fresh_store (a : Nat) (v : Obj) (l : List (Nat × Obj)) :
    fresh (store a v l) = fresh l := by
  induction l with
  | nil => rfl
  | cons e l ih =>
    obtain ⟨c, w⟩ := e
    by_cases hac : a = c
    · simp [store, fresh, hac]
    · simp [store, fresh, hac, ih]

theorem store_head (a : Nat) (v w : Obj) (l : List (Nat × Obj)) :
    store a v ((a, w) :: l) = (a, v) :: l := by
  simp [store]

theorem remove_head (a : Nat) (w : Obj) (l : List (Nat × Obj)) :
    remove a ((a, w) :: l) = l := by
  simp [remove]

/-! ## Seek points: closed forms -/

theorem vlc_seekpoint_New_eq (o : Nat → Bool) (m : Mem) :
    vlc_seekpoint_New o m =
      some (if o m.reqs then
          (some (fresh m.objs),
            { objs := (fresh m.objs, Obj.seekpoint ⟨-1, none⟩) :: m.objs, reqs := m.reqs + 1 })
        else (none, { objs := m.objs, reqs := m.reqs + 1 })) := by
  cases h : o m.reqs <;>
    simp [vlc_seekpoint_New, malloc, h, setSeekpoint, modify, lookup, store]

/-- C8: `vlc_seekpoint_New` always returns; it returns NULL exactly when the
record allocation fails, and a seekpoint it returns has time offset exactly
`-1` and no name. -/
theorem vlc_seekpoint_New_default (o : Nat → Bool) (m : Mem) :
    ∃ r m1, vlc_seekpoint_New o m = some (r, m1) ∧
      (r = none ↔ o m.reqs = false) ∧
      (∀ p, r = some p →
        readSeekpoint m1 r = some { i_time_offset := -1, psz_name := none } ∧
        seekpointAt m1 r = some { time_offset := -1, name := none }) := by
  rw [vlc_seekpoint_New_eq]
  cases h : o m.reqs
  · exact ⟨_, _, rfl, by simp, by simp⟩
  · refine ⟨_, _, rfl, by simp, ?_⟩
    intro p _
    simp [readSeekpoint, seekpointAt, optStrAt, lookup]

theorem fresh_cons_fresh (v : Obj) (l : List (Nat × Obj)) :
    fresh ((fresh l, v) :: l) = fresh l + 1 := by
  simp [fresh]

theorem seekpointAt_some {m : Mem} {src : Ptr} {v : SeekpointVal}
    (h : seekpointAt m src = some v) :
    ∃ a s, src = some a ∧ lookup a m.objs = some (Obj.seekpoint s) ∧
      s.i_time_offset = v.time_offset ∧ optStrAt m s.psz_name = some v.name := by
  cases src with
  | none => simp [seekpointAt, readSeekpoint] at h
  | some a =>
    simp only [seekpointAt, readSeekpoint] at h
    cases hl : lookup a m.objs with
    | none => simp [hl] at h
    | some ob =>
      cases ob <;> simp [hl] at h
      rename_i s
      cases hn : optStrAt m s.psz_name with
      | none => simp [hn] at h
      | some n =>
        simp [hn] at h
        subst h
        exact ⟨a, s, rfl, hl, rfl, hn⟩

theorem optStrAt_some {m : Mem} {p : Ptr} {n : List Nat}
    (h : optStrAt m p = some (some n)) :
    ∃ q, p = some q ∧ lookup q m.objs = some (Obj.str n) := by
  cases p with
  | none => simp [optStrAt] at h
  | some q =>
    simp only [optStrAt, readStr] at h
    cases hl : lookup q m.objs with
    | none => simp [hl] at h
    | some ob =>
      cases ob <;> simp [hl] at h
      subst h
      exact ⟨q, rfl, hl⟩

theorem optStrAt_none {m : Mem} {p : Ptr} (h : optStrAt m p = some none) : p = none := by
  cases p with
  | none => rfl
  | some q =>
    simp only [optStrAt, readStr] at h
    cases hl : lookup q m.objs with
    | none => simp [hl] at h
    | some ob => cases ob <;> simp [hl] at h

/-- Closed form of `vlc_seekpoint_Duplicate` on a well-formed source. -/
theorem vlc_seekpoint_Duplicate_eq (o : Nat → Bool) (m : Mem) (src : Ptr) (v : SeekpointVal)
    (h : seekpointAt m src = some v) :
    vlc_seekpoint_Duplicate o src m =
      some (if o m.reqs then
          match v.name with
          | none =>
            (some (fresh m.objs),
              { objs := (fresh m.objs, Obj.seekpoint ⟨v.time_offset, none⟩) :: m.objs,
                reqs := m.reqs + 1 })
          | some n =>
            if o (m.reqs + 1) then
              (some (fresh m.objs),
                { objs := (fresh m.objs + 1, Obj.str n) ::
                    (fresh m.objs, Obj.seekpoint ⟨v.time_offset, some (fresh m.objs + 1)⟩) ::
                    m.objs,
                  reqs := m.reqs + 2 })
            else
              (some (fresh m.objs),
                { objs := (fresh m.objs, Obj.seekpoint ⟨v.time_offset, none⟩) :: m.objs,
                  reqs := m.reqs + 2 })
        else (none, { objs := m.objs, reqs := m.reqs + 1 })) := by
  obtain ⟨a, s, rfl, hl, ht, hn⟩ := seekpointAt_some h
  have hne : a ≠ fresh m.objs := ne_fresh_of_lookup hl
  simp only [vlc_seekpoint_Duplicate, vlc_seekpoint_New_eq]
  cases ho : o m.reqs
  · simp
  · cases hvn : v.name with
    | none =>
      rw [hvn] at hn
      have hp := optStrAt_none hn
      simp [readSeekpoint, lookup, hne, hl, hp, setSeekpoint, modify, store, ht]
    | some n =>
      rw [hvn] at hn
      obtain ⟨q, hq, hlq⟩ := optStrAt_some hn
      have hqne : q ≠ fresh m.objs := ne_fresh_of_lookup hlq
      have hne1 : a ≠ fresh m.objs + 1 := Nat.ne_of_lt (Nat.lt_succ_of_lt (lookup_lt_fresh hl))
      cases ho2 : o (m.reqs + 1) <;>
        simp [readSeekpoint, lookup, hne, hne1, hl, hq, hqne, hlq, setSeekpoint, modify, store,
          ht, readStr, strdup, malloc, ho2, fresh]

/-! ## Framing lemmas -/

theorem Extends.refl (l : List (Nat × Obj)) : Extends l l := fun _ _ h => h

theorem Extends.trans {l1 l2 l3 : List (Nat × Obj)} (h1 : Extends l1 l2) (h2 : Extends l2 l3) :
    Extends l1 l3 := fun a w h => h2 a w (h1 a w h)

theorem extends_cons {l : List (Nat × Obj)} {b : Nat} (x : Obj) (hb : lookup b l = none) :
    Extends l ((b, x) :: l) := by
  intro a w h
  have hab : a ≠ b := by
    intro e
    rw [e, hb] at h
    exact Option.noConfusion h
  simp [lookup, hab, h]

theorem extends_cons_fresh (l : List (Nat × Obj)) (x : Obj) :
    Extends l ((fresh l, x) :: l) :=
  extends_cons x (lookup_fresh l)

theorem readStr_mono {m m2 : Mem} (hext : Extends m.objs m2.objs) {p : Ptr} {n : List Nat}
    (h : readStr m p = some n) : readStr m2 p = some n := by
  cases p with
  | none => simp [readStr] at h
  | some q =>
    simp only [readStr] at h ⊢
    cases hl : lookup q m.objs with
    | none => simp [hl] at h
    | some ob =>
      rw [hext q ob hl]
      rw [hl] at h
      exact h

theorem optStrAt_mono {m m2 : Mem} (hext : Extends m.objs m2.objs) {p : Ptr}
    {n : Option (List Nat)} (h : optStrAt m p = some n) : optStrAt m2 p = some n := by
  cases p with
  | none => simpa [optStrAt] using h
  | some q =>
    simp only [optStrAt] at h ⊢
    cases hr : readStr m (some q) with
    | none => simp [hr] at h
    | some s =>
      rw [readStr_mono hext hr]
      rw [hr] at h
      exact h

theorem seekpointAt_mono {m m2 : Mem} (hext : Extends m.objs m2.objs) {p : Ptr}
    {v : SeekpointVal} (h : seekpointAt m p = some v) : seekpointAt m2 p = some v := by
  obtain ⟨a, s, rfl, hl, ht, hn⟩ := seekpointAt_some h
  simp [seekpointAt, readSeekpoint, hext a _ hl, optStrAt_mono hext hn, ht]

/-! ## C5: `vlc_seekpoint_Duplicate` -/

/-- C5, as stated, fails: with the record allocation succeeding and the name
copy failing, duplicating the seekpoint `(time 5, name "a")` returns a non-null
seekpoint that has lost the name. -/
theorem vlc_seekpoint_Duplicate_loses_name :
    seekpointAt exSeekMem (some 1) = some { time_offset := 5, name := some [97] } ∧
    ∃ p m1, vlc_seekpoint_Duplicate onlyFirst (some 1) exSeekMem = some (some p, m1) ∧
      seekpointAt m1 (some p) = some { time_offset := 5, name := none } := by
  exact ⟨by decide, 3,
    { objs := [(3, Obj.seekpoint ⟨5, none⟩), (2, Obj.str [97]), (1, Obj.seekpoint ⟨5, some 2⟩)],
      reqs := 2 },
    by decide, by decide⟩

/-- C5, amended: on a well-formed seekpoint `vlc_seekpoint_Duplicate` always
returns; it returns NULL exactly when the record allocation fails; otherwise it
returns a fresh seekpoint with the same time offset, whose name is the source
name when the name copy succeeds (or the source has no name) and is unset when
the name copy fails.  The source is left unchanged. -/
theorem vlc_seekpoint_Duplicate_result (o : Nat → Bool) (m : Mem) (src : Ptr)
    (v : SeekpointVal) (h : seekpointAt m src = some v) :
    ∃ r m1, vlc_seekpoint_Duplicate o src m = some (r, m1) ∧
      (r = none ↔ o m.reqs = false) ∧
      (∀ p, r = some p →
        lookup p m.objs = none ∧
        seekpointAt m1 r =
          some { time_offset := v.time_offset,
                 name := if v.name = none ∨ o (m.reqs + 1) = true then v.name else none }) ∧
      seekpointAt m1 src = some v := by
  rw [vlc_seekpoint_Duplicate_eq o m src v h]
  cases ho : o m.reqs
  · refine ⟨_, _, rfl, by simp, by simp, ?_⟩
    exact seekpointAt_mono (Extends.refl _) h
  · cases hvn : v.name with
    | none =>
      refine ⟨_, _, rfl, by simp, ?_, ?_⟩
      · intro p hp
        simp only [if_true, Option.some.injEq] at hp
        subst hp
        exact ⟨lookup_fresh _, by simp [seekpointAt, readSeekpoint, lookup, optStrAt]⟩
      · exact seekpointAt_mono (extends_cons_fresh _ _) h
    | some n =>
      cases ho2 : o (m.reqs + 1)
      · refine ⟨_, _, rfl, by simp, ?_, ?_⟩
        · intro p hp
          simp only [if_true, Bool.false_eq_true, if_false, Option.some.injEq] at hp
          subst hp
          exact ⟨lookup_fresh _, by simp [seekpointAt, readSeekpoint, lookup, optStrAt]⟩
        · exact seekpointAt_mono (extends_cons_fresh _ _) h
      · refine ⟨_, _, rfl, by simp, ?_, ?_⟩
        · intro p hp
          simp only [if_true, Option.some.injEq] at hp
          subst hp
          exact ⟨lookup_fresh _, by
            simp [seekpointAt, readSeekpoint, lookup, optStrAt, readStr]⟩
        · have hf := lookup_fresh
            ((fresh m.objs, Obj.seekpoint ⟨v.time_offset, some (fresh m.objs + 1)⟩) :: m.objs)
          rw [fresh_cons_fresh] at hf
          exact seekpointAt_mono
            (Extends.trans
              (extends_cons_fresh m.objs
                (Obj.seekpoint ⟨v.time_offset, some (fresh m.objs + 1)⟩))
              (extends_cons (Obj.str n) hf)) h

/-- Witness for C5 amended: the seekpoint `(time 5, name "a")` duplicated while
only the record allocation succeeds. -/
theorem vlc_seekpoint_Duplicate_result_witness :
    seekpointAt exSeekMem (some 1) = some { time_offset := 5, name := some [97] } ∧
    ∃ r m1, vlc_seekpoint_Duplicate onlyFirst (some 1) exSeekMem = some (r, m1) ∧
      (r = none ↔ onlyFirst exSeekMem.reqs = false) ∧
      (∀ p, r = some p →
        lookup p exSeekMem.objs = none ∧
        seekpointAt m1 r =
          some { time_offset := 5,
                 name := if (some [97] : Option (List Nat)) = none ∨
                   onlyFirst (exSeekMem.reqs + 1) = true then some [97] else none }) ∧
      seekpointAt m1 (some 1) = some { time_offset := 5, name := some [97] } :=
  ⟨by decide,
    vlc_seekpoint_Duplicate_result onlyFirst exSeekMem (some 1)
      { time_offset := 5, name := some [97] } (by decide)⟩

/-! ## Attachments under construction -/

theorem mem_lt_fresh {l : List (Nat × Obj)} {e : Nat × Obj} (h : e ∈ l) : e.1 < fresh l := by
  induction l with
  | nil => simp at h
  | cons x l ih =>
    obtain ⟨b, w⟩ := x
    simp only [fresh]
    rcases List.mem_cons.1 h with rfl | h
    · simp
    · have := ih h
      omega

theorem lookup_none_of_le {l : List (Nat × Obj)} {q : Nat} (h : fresh l ≤ q) :
    lookup q l = none := by
  cases hl : lookup q l with
  | none => rfl
  | some v => exact absurd (lookup_lt_fresh hl) (by omega)

theorem Desc.gt {a : Nat} {top : List (Nat × Obj)} (h : Desc a top) :
    ∀ e ∈ top, a < e.1 := by
  induction top with
  | nil => simp
  | cons x top ih =>
    obtain ⟨b, w⟩ := x
    intro e he
    rcases List.mem_cons.1 he with rfl | he
    · exact h.1
    · exact ih h.2.2 e he

theorem Desc.tail {a : Nat} {p : Ptr} {x : Obj} {top : List (Nat × Obj)}
    (h : Desc a (pushOpt p x top)) : Desc a top := by
  cases p with
  | none => exact h
  | some q => exact h.2.2

theorem lookup_shape_self {base : List (Nat × Obj)} {a : Nat} {top : List (Nat × Obj)}
    (R : input_attachment_t) (h : Desc a top) :
    lookup a (shape base a top R) = some (Obj.attachment R) := by
  induction top with
  | nil => simp [shape, lookup]
  | cons x top ih =>
    obtain ⟨b, w⟩ := x
    have hab : a ≠ b := Nat.ne_of_lt h.1
    have := ih h.2.2
    simp only [shape] at this ⊢
    simp [lookup, hab, this]

theorem store_shape {base : List (Nat × Obj)} {a : Nat} {top : List (Nat × Obj)}
    (R : input_attachment_t) (v : Obj) (h : Desc a top) :
    store a v (shape base a top R) = top ++ (a, v) :: base := by
  induction top with
  | nil => simp [shape, store]
  | cons x top ih =>
    obtain ⟨b, w⟩ := x
    have hab : a ≠ b := Nat.ne_of_lt h.1
    have := ih h.2.2
    simp only [shape] at this ⊢
    simp [store, hab, this]

theorem lookup_shape_lt {base : List (Nat × Obj)} {a q : Nat} {top : List (Nat × Obj)}
    (R : input_attachment_t) (h : Desc a top) (hq : q < a) :
    lookup q (shape base a top R) = lookup q base := by
  induction top with
  | nil =>
    have : q ≠ a := Nat.ne_of_lt hq
    simp [shape, lookup, this]
  | cons x top ih =>
    obtain ⟨b, w⟩ := x
    have hqb : q ≠ b := by have := h.1; omega
    have := ih h.2.2
    simp only [shape] at this ⊢
    simp [lookup, hqb, this]

theorem extends_shape (base : List (Nat × Obj)) {top : List (Nat × Obj)}
    (R : input_attachment_t) (h : Desc (fresh base) top) :
    Extends base (shape base (fresh base) top R) := by
  intro q w hq
  rw [lookup_shape_lt R h (lookup_lt_fresh hq)]
  exact hq

theorem malloc_shape (o : Nat → Bool) (base : List (Nat × Obj)) (a : Nat)
    (top : List (Nat × Obj)) (R : input_attachment_t) (k : Nat) (x : Obj) (hd : Desc a top) :
    ∃ p, malloc o x { objs := shape base a top R, reqs := k } =
        (p, { objs := shape base a (pushOpt p x top) R, reqs := k + 1 }) ∧
      (p = none ↔ o k = false) ∧ Desc a (pushOpt p x top) := by
  cases h : o k
  · exact ⟨none, by simp [malloc, h, pushOpt], by simp, hd⟩
  · refine ⟨some (fresh (shape base a top R)), by simp [malloc, h, pushOpt, shape], by simp, ?_⟩
    refine ⟨?_, ?_, hd⟩
    · exact mem_lt_fresh (e := (a, Obj.attachment R)) (by simp [shape])
    · intro e he
      exact mem_lt_fresh (by simp [shape, he])

theorem setAttachment_shape {base : List (Nat × Obj)} {a : Nat} {top : List (Nat × Obj)}
    (R : input_attachment_t) (g : input_attachment_t → input_attachment_t) (k : Nat)
    (h : Desc a top) :
    setAttachment a g { objs := shape base a top R, reqs := k } =
      some { objs := shape base a top (g R), reqs := k } := by
  simp only [setAttachment, modify, lookup_shape_self R h, store_shape R _ h]
  rfl

theorem readAttachment_shape {base : List (Nat × Obj)} {a : Nat} {top : List (Nat × Obj)}
    (R : input_attachment_t) (k : Nat) (h : Desc a top) :
    readAttachment { objs := shape base a top R, reqs := k } (some a) = some R := by
  simp [readAttachment, lookup_shape_self R h]

theorem strArg_mono {m m2 : Mem} (hext : Extends m.objs m2.objs) {p : Ptr} {s : List Nat}
    (h : strArg m p = some s) : strArg m2 p = some s := by
  cases p with
  | none => simpa [strArg] using h
  | some q =>
    simp only [strArg] at h ⊢
    exact readStr_mono hext h

theorem readBytes_mono {m m2 : Mem} (hext : Extends m.objs m2.objs) {p : Ptr} {n : List Nat}
    (h : readBytes m p = some n) : readBytes m2 p = some n := by
  cases p with
  | none => simp [readBytes] at h
  | some q =>
    simp only [readBytes] at h ⊢
    cases hl : lookup q m.objs with
    | none => simp [hl] at h
    | some ob =>
      rw [hext q ob hl]
      rw [hl] at h
      exact h

theorem free_pushOpt (base : List (Nat × Obj)) (a : Nat) (top : List (Nat × Obj))
    (R : input_attachment_t) (k : Nat) (p : Ptr) (x : Obj) :
    free p { objs := shape base a (pushOpt p x top) R, reqs := k } =
      some { objs := shape base a top R, reqs := k } := by
  cases p with
  | none => simp [free, pushOpt]
  | some q => simp [free, pushOpt, shape, lookup, remove]

/-- Deleting an attachment under construction frees every allocation made for it. -/
theorem vlc_input_attachment_Delete_shape (base : List (Nat × Obj)) (a : Nat) (k i : Nat)
    (n mi de pd : Ptr) (x1 x2 x3 x4 : Obj)
    (hd : Desc a (pushOpt pd x4 (pushOpt de x3 (pushOpt mi x2 (pushOpt n x1 []))))) :
    vlc_input_attachment_Delete (some a)
        { objs := shape base a (pushOpt pd x4 (pushOpt de x3 (pushOpt mi x2 (pushOpt n x1 []))))
            ⟨n, mi, de, i, pd⟩,
          reqs := k } =
      some { objs := base, reqs := k } := by
  have hd3 := hd.tail
  have hd2 := hd3.tail
  have hd1 := hd2.tail
  have hd0 := hd1.tail
  simp only [vlc_input_attachment_Delete, readAttachment_shape _ _ hd, Option.bind_eq_bind,
    Option.some_bind, free_pushOpt, readAttachment_shape _ _ hd3, readAttachment_shape _ _ hd2,
    readAttachment_shape _ _ hd1]
  simp [free, shape, lookup, remove]


theorem Desc.swap {a : Nat} {p : Ptr} {x : Obj} {top : List (Nat × Obj)} (y : Obj)
    (h : Desc a (pushOpt p x top)) : Desc a (pushOpt p y top) := by
  cases p with
  | none => exact h
  | some q => exact h

theorem strArg_shape {m : Mem} {p : Ptr} {s : List Nat} (h : strArg m p = some s)
    {top : List (Nat × Obj)} (hd : Desc (fresh m.objs) top) (R : input_attachment_t) (k : Nat) :
    strArg { objs := shape m.objs (fresh m.objs) top R, reqs := k } p = some s :=
  strArg_mono (m := m) (extends_shape m.objs R hd) h

theorem payloadAt_some {m : Mem} {r : input_attachment_t} {pl : List Nat}
    (h : payloadAt m r = some pl) :
    (r.i_data = 0 ∧ pl = []) ∨
      (0 < r.i_data ∧ ∃ b, readBytes m r.p_data = some b ∧ r.i_data ≤ b.length ∧
        pl = b.take r.i_data) := by
  simp only [payloadAt] at h
  by_cases h0 : r.i_data = 0
  · left
    simp [h0] at h
    exact ⟨h0, h⟩
  · right
    simp only [h0, if_false] at h
    cases hb : readBytes m r.p_data with
    | none => simp [hb] at h
    | some b =>
      simp only [hb] at h
      by_cases hle : r.i_data ≤ b.length
      · simp [hle] at h
        exact ⟨Nat.pos_of_ne_zero h0, b, rfl, hle, h.symm⟩
      · simp [hle] at h

theorem memcpy_shape {m : Mem} {src : Ptr} {b : List Nat} (hb : readBytes m src = some b)
    {n : Nat} (hle : n ≤ b.length) {q : Nat} {top : List (Nat × Obj)}
    (hd : Desc (fresh m.objs) ((q, Obj.bytes (List.replicate n 0)) :: top))
    (R : input_attachment_t) (k : Nat) :
    memcpy (some q) src n
        { objs := shape m.objs (fresh m.objs) ((q, Obj.bytes (List.replicate n 0)) :: top) R,
          reqs := k } =
      some { objs := shape m.objs (fresh m.objs) ((q, Obj.bytes (b.take n)) :: top) R,
             reqs := k } := by
  have hr := @readBytes_mono m
    { objs := shape m.objs (fresh m.objs) ((q, Obj.bytes (List.replicate n 0)) :: top) R,
      reqs := k }
    (extends_shape m.objs R hd) src b hb
  simp only [memcpy, hr]
  simp [modify, shape, lookup, store, hle]

/-- Closed form of `vlc_input_attachment_New` once the record allocation has
succeeded. -/
theorem vlc_input_attachment_New_eq (o : Nat → Bool) (m : Mem)
    (psz_name psz_mime psz_description p_data : Ptr) (i_data : Nat)
    (sn sm sd pl : List Nat)
    (hn : strArg m psz_name = some sn) (hm : strArg m psz_mime = some sm)
    (hd : strArg m psz_description = some sd)
    (hp : payloadAt m ⟨psz_name, psz_mime, psz_description, i_data, p_data⟩ = some pl)
    (h0 : o m.reqs = true) :
    ∃ n mi de pd : Ptr,
      (n = none ↔ o (m.reqs + 1) = false) ∧ (mi = none ↔ o (m.reqs + 2) = false) ∧
      (de = none ↔ o (m.reqs + 3) = false) ∧ (pd = none ↔ o (m.reqs + 4) = false) ∧
      Desc (fresh m.objs) (pushOpt pd (Obj.bytes pl) (pushOpt de (Obj.str sd)
        (pushOpt mi (Obj.str sm) (pushOpt n (Obj.str sn) [])))) ∧
      vlc_input_attachment_New o psz_name psz_mime psz_description p_data i_data m =
        some (if n = none ∨ mi = none ∨ de = none ∨ (0 < i_data ∧ pd = none) then
            (none, { objs := m.objs, reqs := m.reqs + 5 })
          else
            (some (fresh m.objs),
              { objs := shape m.objs (fresh m.objs)
                  (pushOpt pd (Obj.bytes pl) (pushOpt de (Obj.str sd)
                    (pushOpt mi (Obj.str sm) (pushOpt n (Obj.str sn) []))))
                  ⟨n, mi, de, i_data, pd⟩,
                reqs := m.reqs + 5 })) := by
  have hmalloc : malloc o (Obj.attachment ⟨none, none, none, 0, none⟩) m =
      (some (fresh m.objs),
        { objs := shape m.objs (fresh m.objs) [] ⟨none, none, none, 0, none⟩,
          reqs := m.reqs + 1 }) := by
    simp [malloc, h0, shape]
  have d0 : Desc (fresh m.objs) [] := trivial
  obtain ⟨n, e1, hn1, d1⟩ := malloc_shape o m.objs (fresh m.objs) []
    ⟨none, none, none, 0, none⟩ (m.reqs + 1) (Obj.str sn) d0
  obtain ⟨mi, e2, hn2, d2⟩ := malloc_shape o m.objs (fresh m.objs) (pushOpt n (Obj.str sn) [])
    ⟨n, none, none, 0, none⟩ (m.reqs + 1 + 1) (Obj.str sm) d1
  obtain ⟨de, e3, hn3, d3⟩ := malloc_shape o m.objs (fresh m.objs)
    (pushOpt mi (Obj.str sm) (pushOpt n (Obj.str sn) []))
    ⟨n, mi, none, 0, none⟩ (m.reqs + 1 + 1 + 1) (Obj.str sd) d2
  obtain ⟨pd, e4, hn4, d4⟩ := malloc_shape o m.objs (fresh m.objs)
    (pushOpt de (Obj.str sd) (pushOpt mi (Obj.str sm) (pushOpt n (Obj.str sn) [])))
    ⟨n, mi, de, i_data, none⟩ (m.reqs + 1 + 1 + 1 + 1) (Obj.bytes (List.replicate i_data 0)) d3
  have s1 := strArg_shape hn d0 ⟨none, none, none, 0, none⟩ (m.reqs + 1)
  have s2 := strArg_shape hm d1 ⟨n, none, none, 0, none⟩ (m.reqs + 1 + 1)
  have s3 := strArg_shape hd d2 ⟨n, mi, none, 0, none⟩ (m.reqs + 1 + 1 + 1)
  have d5 := d4.swap (Obj.bytes pl)
  refine ⟨n, mi, de, pd, hn1, hn2, hn3, hn4, d5, ?_⟩
  · simp only [vlc_input_attachment_New, hmalloc, s1, Option.bind_eq_bind, Option.some_bind,
      strdup, e1, setAttachment_shape _ _ _ d1, s2, e2, setAttachment_shape _ _ _ d2, s3, e3,
      setAttachment_shape _ _ _ d3, e4, setAttachment_shape _ _ _ d4,
      readAttachment_shape _ _ d4]
    have hreq : m.reqs + 1 + 1 + 1 + 1 + 1 = m.reqs + 5 := rfl
    rcases payloadAt_some hp with ⟨hi, hpl⟩ | ⟨hi, b, hb, hle, hpl⟩
    · simp only at hi
      subst hi
      subst hpl
      have hdel := vlc_input_attachment_Delete_shape m.objs (fresh m.objs)
        (m.reqs + 1 + 1 + 1 + 1 + 1) 0 n mi de pd (Obj.str sn) (Obj.str sm)
        (Obj.str sd) (Obj.bytes []) d5
      by_cases hf : n = none ∨ mi = none ∨ de = none
      · simp [hf, hdel]
      · simp [hf]
    · simp only at hi hb hle hpl
      cases pd with
      | none =>
        simp [hi, vlc_input_attachment_Delete_shape _ _ _ _ _ _ _ _ _ _ _ _ d4]
      | some q =>
        have hm := memcpy_shape hb hle (q := q) d4
          ⟨n, mi, de, i_data, some q⟩ (m.reqs + 1 + 1 + 1 + 1 + 1)
        simp only [pushOpt] at hm d5 ⊢
        rw [← hpl] at hm
        simp only [hi, true_and, ne_eq, not_false_eq_true, reduceCtorEq, if_true, hm,
          Option.some_bind, readAttachment_shape _ _ d5, and_false, or_false]
        by_cases hf : n = none ∨ mi = none ∨ de = none
        · have hdel := vlc_input_attachment_Delete_shape m.objs (fresh m.objs)
            (m.reqs + 1 + 1 + 1 + 1 + 1) i_data n mi de (some q) (Obj.str sn) (Obj.str sm)
            (Obj.str sd) (Obj.bytes pl) d5
          simp only [pushOpt] at hdel
          simp [hf, hdel]
        · simp [hf]


theorem attachmentAt_some {m : Mem} {a : Ptr} {v : AttachmentVal}
    (h : attachmentAt m a = some v) :
    ∃ R, readAttachment m a = some R ∧ readStr m R.psz_name = some v.name ∧
      readStr m R.psz_mime = some v.mime ∧
      readStr m R.psz_description = some v.description ∧
      payloadAt m R = some v.payload := by
  simp only [attachmentAt] at h
  cases hR : readAttachment m a with
  | none => simp [hR] at h
  | some R =>
    cases h1 : readStr m R.psz_name with
    | none => simp [hR, h1] at h
    | some s1 =>
      cases h2 : readStr m R.psz_mime with
      | none => simp [hR, h1, h2] at h
      | some s2 =>
        cases h3 : readStr m R.psz_description with
        | none => simp [hR, h1, h2, h3] at h
        | some s3 =>
          cases h4 : payloadAt m R with
          | none => simp [hR, h1, h2, h3, h4] at h
          | some s4 =>
            simp [hR, h1, h2, h3, h4] at h
            subst h
            exact ⟨R, rfl, h1, h2, h3, h4⟩

theorem attachmentAt_of {m : Mem} {a : Ptr} {R : input_attachment_t} {s1 s2 s3 s4 : List Nat}
    (hR : readAttachment m a = some R) (h1 : readStr m R.psz_name = some s1)
    (h2 : readStr m R.psz_mime = some s2) (h3 : readStr m R.psz_description = some s3)
    (h4 : payloadAt m R = some s4) :
    attachmentAt m a = some ⟨s1, s2, s3, s4⟩ := by
  simp [attachmentAt, hR, h1, h2, h3, h4]

theorem readAttachment_mono {m m2 : Mem} (hext : Extends m.objs m2.objs) {p : Ptr}
    {R : input_attachment_t} (h : readAttachment m p = some R) :
    readAttachment m2 p = some R := by
  cases p with
  | none => simp [readAttachment] at h
  | some q =>
    simp only [readAttachment] at h ⊢
    cases hl : lookup q m.objs with
    | none => simp [hl] at h
    | some ob =>
      rw [hext q ob hl]
      rw [hl] at h
      exact h

theorem payloadAt_mono {m m2 : Mem} (hext : Extends m.objs m2.objs) {R : input_attachment_t}
    {pl : List Nat} (h : payloadAt m R = some pl) : payloadAt m2 R = some pl := by
  rcases payloadAt_some h with ⟨h0, rfl⟩ | ⟨h0, b, hb, hle, rfl⟩
  · simp [payloadAt, h0]
  · have : R.i_data ≠ 0 := by omega
    simp [payloadAt, this, readBytes_mono hext hb, hle]

theorem attachmentAt_mono {m m2 : Mem} (hext : Extends m.objs m2.objs) {a : Ptr}
    {v : AttachmentVal} (h : attachmentAt m a = some v) : attachmentAt m2 a = some v := by
  obtain ⟨R, hR, h1, h2, h3, h4⟩ := attachmentAt_some h
  exact attachmentAt_of (readAttachment_mono hext hR) (readStr_mono hext h1)
    (readStr_mono hext h2) (readStr_mono hext h3) (payloadAt_mono hext h4)

theorem payloadAt_length {m : Mem} {R : input_attachment_t} {pl : List Nat}
    (h : payloadAt m R = some pl) : pl.length = R.i_data := by
  rcases payloadAt_some h with ⟨h0, rfl⟩ | ⟨_, b, _, hle, rfl⟩
  · simp [h0]
  · simp [hle]

/-- The value of a fully constructed attachment. -/
theorem attachmentAt_shape (base : List (Nat × Obj)) (a k i qn qm qd : Nat) (pd : Ptr)
    (sn sm sd pl : List Nat)
    (hd : Desc a (pushOpt pd (Obj.bytes pl)
      [(qd, Obj.str sd), (qm, Obj.str sm), (qn, Obj.str sn)]))
    (hpd : 0 < i → pd ≠ none) (hlen : pl.length = i) :
    attachmentAt
        { objs := shape base a (pushOpt pd (Obj.bytes pl)
            [(qd, Obj.str sd), (qm, Obj.str sm), (qn, Obj.str sn)])
            ⟨some qn, some qm, some qd, i, pd⟩,
          reqs := k } (some a) = some ⟨sn, sm, sd, pl⟩ := by
  have hR := @readAttachment_shape base a _ ⟨some qn, some qm, some qd, i, pd⟩ k hd
  cases pd with
  | none =>
    simp only [pushOpt, Desc, List.mem_cons, List.mem_singleton, forall_eq_or_imp, forall_eq,
      List.not_mem_nil, false_implies, implies_true, and_true] at hd
    obtain ⟨h1, ⟨h2, h3⟩, h4, h5, h6⟩ := hd
    have hi : i = 0 := by
      by_contra hne
      exact hpd (Nat.pos_of_ne_zero hne) rfl
    subst hi
    have e1 : qn ≠ qd := by omega
    have e2 : qn ≠ qm := by omega
    have e3 : qm ≠ qd := by omega
    refine attachmentAt_of hR ?_ ?_ ?_ ?_
    · simp [readStr, shape, lookup, pushOpt, e1, e2, e3]
    · simp [readStr, shape, lookup, pushOpt, e1, e2, e3]
    · simp [readStr, shape, lookup, pushOpt, e1, e2, e3]
    · simp only [payloadAt, if_true]
      rw [List.length_eq_zero.1 hlen]
  | some q =>
    simp only [pushOpt, Desc, List.mem_cons, List.mem_singleton, forall_eq_or_imp, forall_eq,
      List.not_mem_nil, false_implies, implies_true, and_true] at hd
    obtain ⟨h0, ⟨g1, g2, g3⟩, h1, ⟨h2, h3⟩, h4, h5, h6⟩ := hd
    have e1 : qn ≠ qd := by omega
    have e2 : qn ≠ qm := by omega
    have e3 : qm ≠ qd := by omega
    have e4 : qn ≠ q := by omega
    have e5 : qm ≠ q := by omega
    have e6 : qd ≠ q := by omega
    refine attachmentAt_of hR ?_ ?_ ?_ ?_
    · simp [readStr, shape, lookup, pushOpt, e1, e2, e3, e4, e5, e6]
    · simp [readStr, shape, lookup, pushOpt, e1, e2, e3, e4, e5, e6]
    · simp [readStr, shape, lookup, pushOpt, e1, e2, e3, e4, e5, e6]
    · by_cases hi : i = 0
      · subst hi
        simp only [payloadAt, if_true]
        rw [List.length_eq_zero.1 hlen]
      · simp [payloadAt, hi, readBytes, shape, lookup, pushOpt, hlen]


/-- The two outcomes of `vlc_input_attachment_New` on readable arguments: NULL
with the memory restored, or a fully constructed attachment. -/
theorem vlc_input_attachment_New_cases (o : Nat → Bool) (m : Mem)
    (psz_name psz_mime psz_description p_data : Ptr) (i_data : Nat)
    (sn sm sd pl : List Nat)
    (hn : strArg m psz_name = some sn) (hm : strArg m psz_mime = some sm)
    (hd : strArg m psz_description = some sd)
    (hp : payloadAt m ⟨psz_name, psz_mime, psz_description, i_data, p_data⟩ = some pl) :
    ∃ r m1, vlc_input_attachment_New o psz_name psz_mime psz_description p_data i_data m =
        some (r, m1) ∧
      (r = none ↔ (o m.reqs = false ∨ o (m.reqs + 1) = false ∨ o (m.reqs + 2) = false ∨
        o (m.reqs + 3) = false ∨ (0 < i_data ∧ o (m.reqs + 4) = false))) ∧
      (r = none → m1.objs = m.objs) ∧
      (∀ a, r = some a → a = fresh m.objs ∧ ∃ qn qm qd pd,
        (0 < i_data → pd ≠ none) ∧
        Desc (fresh m.objs) (pushOpt pd (Obj.bytes pl)
          [(qd, Obj.str sd), (qm, Obj.str sm), (qn, Obj.str sn)]) ∧
        m1 = { objs := shape m.objs (fresh m.objs) (pushOpt pd (Obj.bytes pl)
                  [(qd, Obj.str sd), (qm, Obj.str sm), (qn, Obj.str sn)])
                  ⟨some qn, some qm, some qd, i_data, pd⟩,
               reqs := m.reqs + 5 }) := by
  cases h0 : o m.reqs
  · refine ⟨none, { objs := m.objs, reqs := m.reqs + 1 }, ?_, by simp, by simp, by simp⟩
    simp [vlc_input_attachment_New, malloc, h0]
  · obtain ⟨n, mi, de, pd, hn1, hn2, hn3, hn4, hdesc, heq⟩ :=
      vlc_input_attachment_New_eq o m psz_name psz_mime psz_description p_data i_data
        sn sm sd pl hn hm hd hp h0
    rw [heq]
    by_cases hf : n = none ∨ mi = none ∨ de = none ∨ (0 < i_data ∧ pd = none)
    · refine ⟨none, _, by rw [if_pos hf], ?_, by simp, by simp⟩
      rw [← hn1, ← hn2, ← hn3, ← hn4]
      simp [hf]
    · refine ⟨some (fresh m.objs), _, by rw [if_neg hf], ?_, by simp, ?_⟩
      · rw [← hn1, ← hn2, ← hn3, ← hn4]
        simp [hf]
      · intro a ha
        simp only [Option.some.injEq] at ha
        subst ha
        simp only [not_or, not_and] at hf
        obtain ⟨f1, f2, f3, f4⟩ := hf
        obtain ⟨qn, rfl⟩ := Option.ne_none_iff_exists'.1 f1
        obtain ⟨qm, rfl⟩ := Option.ne_none_iff_exists'.1 f2
        obtain ⟨qd, rfl⟩ := Option.ne_none_iff_exists'.1 f3
        exact ⟨rfl, qn, qm, qd, pd, f4, hdesc, rfl⟩

/-- C2: on readable arguments `vlc_input_attachment_New` always returns; it
returns NULL exactly when the record allocation, the name copy, the mime copy,
the description copy or (when `i_data > 0`) the payload allocation fails; and an
attachment it returns has non-null name, mime and description holding the
argument strings, `i_data` as given, and a payload that is exactly the `i_data`
input bytes. -/
theorem vlc_input_attachment_New_atomic (o : Nat → Bool) (m : Mem)
    (psz_name psz_mime psz_description p_data : Ptr) (i_data : Nat)
    (sn sm sd pl : List Nat)
    (hn : strArg m psz_name = some sn) (hm : strArg m psz_mime = some sm)
    (hd : strArg m psz_description = some sd)
    (hp : payloadAt m ⟨psz_name, psz_mime, psz_description, i_data, p_data⟩ = some pl) :
    ∃ r m1, vlc_input_attachment_New o psz_name psz_mime psz_description p_data i_data m =
        some (r, m1) ∧
      (r = none ↔ (o m.reqs = false ∨ o (m.reqs + 1) = false ∨ o (m.reqs + 2) = false ∨
        o (m.reqs + 3) = false ∨ (0 < i_data ∧ o (m.reqs + 4) = false))) ∧
      (∀ a, r = some a → ∃ R,
        readAttachment m1 r = some R ∧ R.psz_name ≠ none ∧ R.psz_mime ≠ none ∧
        R.psz_description ≠ none ∧ R.i_data = i_data ∧ (0 < i_data → R.p_data ≠ none) ∧
        pl.length = i_data ∧
        attachmentAt m1 r = some ⟨sn, sm, sd, pl⟩) := by
  obtain ⟨r, m1, heq, hiff, _, hsome⟩ :=
    vlc_input_attachment_New_cases o m psz_name psz_mime psz_description p_data i_data
      sn sm sd pl hn hm hd hp
  refine ⟨r, m1, heq, hiff, ?_⟩
  intro a ha
  obtain ⟨rfl, qn, qm, qd, pd, hpd, hdesc, rfl⟩ := hsome a ha
  subst ha
  have hlen := payloadAt_length hp
  exact ⟨_, readAttachment_shape _ _ hdesc, by simp, by simp, by simp, rfl, hpd, hlen,
    attachmentAt_shape _ _ _ _ _ _ _ _ _ _ _ _ hdesc hpd hlen⟩

/-- C3: on readable arguments, whenever `vlc_input_attachment_New` fails
(returns NULL) the live allocations after the call are exactly the live
allocations before it: nothing allocated for the instance remains live. -/
theorem vlc_input_attachment_New_no_leak (o : Nat → Bool) (m : Mem)
    (psz_name psz_mime psz_description p_data : Ptr) (i_data : Nat)
    (sn sm sd pl : List Nat)
    (hn : strArg m psz_name = some sn) (hm : strArg m psz_mime = some sm)
    (hd : strArg m psz_description = some sd)
    (hp : payloadAt m ⟨psz_name, psz_mime, psz_description, i_data, p_data⟩ = some pl) :
    ∃ r m1, vlc_input_attachment_New o psz_name psz_mime psz_description p_data i_data m =
        some (r, m1) ∧
      (r = none → m1.objs = m.objs) := by
  obtain ⟨r, m1, heq, _, hnone, _⟩ :=
    vlc_input_attachment_New_cases o m psz_name psz_mime psz_description p_data i_data
      sn sm sd pl hn hm hd hp
  exact ⟨r, m1, heq, hnone⟩


/-- Witness for C2: the arguments of the example attachment, with only the
record allocation succeeding. -/
theorem vlc_input_attachment_New_atomic_witness :
    (strArg exAttMem (some 2) = some [110] ∧ strArg exAttMem (some 3) = some [109] ∧
      strArg exAttMem (some 4) = some [100] ∧
      payloadAt exAttMem ⟨some 2, some 3, some 4, 3, some 5⟩ = some [1, 2, 3]) ∧
    ∃ r m1, vlc_input_attachment_New onlyFirst (some 2) (some 3) (some 4) (some 5) 3 exAttMem =
        some (r, m1) ∧
      (r = none ↔ (onlyFirst exAttMem.reqs = false ∨ onlyFirst (exAttMem.reqs + 1) = false ∨
        onlyFirst (exAttMem.reqs + 2) = false ∨ onlyFirst (exAttMem.reqs + 3) = false ∨
        (0 < 3 ∧ onlyFirst (exAttMem.reqs + 4) = false))) ∧
      (∀ a, r = some a → ∃ R,
        readAttachment m1 r = some R ∧ R.psz_name ≠ none ∧ R.psz_mime ≠ none ∧
        R.psz_description ≠ none ∧ R.i_data = 3 ∧ (0 < 3 → R.p_data ≠ none) ∧
        [1, 2, 3].length = 3 ∧
        attachmentAt m1 r = some ⟨[110], [109], [100], [1, 2, 3]⟩) :=
  ⟨⟨by decide, by decide, by decide, by decide⟩,
    vlc_input_attachment_New_atomic onlyFirst exAttMem (some 2) (some 3) (some 4) (some 5) 3
      [110] [109] [100] [1, 2, 3] (by decide) (by decide) (by decide) (by decide)⟩

/-- Witness for C3: the arguments of the example attachment, with only the
record allocation succeeding. -/
theorem vlc_input_attachment_New_no_leak_witness :
    (strArg exAttMem (some 2) = some [110] ∧ strArg exAttMem (some 3) = some [109] ∧
      strArg exAttMem (some 4) = some [100] ∧
      payloadAt exAttMem ⟨some 2, some 3, some 4, 3, some 5⟩ = some [1, 2, 3]) ∧
    ∃ r m1, vlc_input_attachment_New onlyFirst (some 2) (some 3) (some 4) (some 5) 3 exAttMem =
        some (r, m1) ∧
      (r = none → m1.objs = exAttMem.objs) :=
  ⟨⟨by decide, by decide, by decide, by decide⟩,
    vlc_input_attachment_New_no_leak onlyFirst exAttMem (some 2) (some 3) (some 4) (some 5) 3
      [110] [109] [100] [1, 2, 3] (by decide) (by decide) (by decide) (by decide)⟩

theorem strArg_of_readStr {m : Mem} {p : Ptr} {s : List Nat} (h : readStr m p = some s) :
    strArg m p = some s := by
  cases p with
  | none => simp [readStr] at h
  | some q => simpa [strArg] using h

/-- C1: for every valid attachment, when every allocation succeeds,
`vlc_input_attachment_Duplicate` returns a non-null attachment that is
value-equal to the source: same name, mime, description, `i_data` and payload
bytes.  The source keeps its value. -/
theorem vlc_input_attachment_Duplicate_equal (o : Nat → Bool) (m : Mem) (a : Ptr)
    (v : AttachmentVal) (hall : ∀ k, o k = true) (hv : attachmentAt m a = some v) :
    ∃ d m1 R Rd, vlc_input_attachment_Duplicate o a m = some (some d, m1) ∧
      readAttachment m a = some R ∧ readAttachment m1 (some d) = some Rd ∧
      Rd.i_data = R.i_data ∧ v.payload.length = R.i_data ∧
      attachmentAt m1 (some d) = some v ∧ attachmentAt m1 a = some v := by
  obtain ⟨R, hR, h1, h2, h3, h4⟩ := attachmentAt_some hv
  obtain ⟨r, m1, heq, hiff, _, hsome⟩ :=
    vlc_input_attachment_New_cases o m R.psz_name R.psz_mime R.psz_description R.p_data
      R.i_data v.name v.mime v.description v.payload
      (strArg_of_readStr h1) (strArg_of_readStr h2) (strArg_of_readStr h3) h4
  have hr : r ≠ none := by
    intro hnone
    have := hiff.1 hnone
    simp [hall] at this
  obtain ⟨d, rfl⟩ := Option.ne_none_iff_exists'.1 hr
  obtain ⟨rfl, qn, qm, qd, pd, hpd, hdesc, rfl⟩ := hsome d rfl
  have hlen := payloadAt_length h4
  have hval := attachmentAt_shape m.objs (fresh m.objs) (m.reqs + 5) R.i_data qn qm qd pd
    v.name v.mime v.description v.payload hdesc hpd hlen
  have hdup : vlc_input_attachment_Duplicate o a m =
      some (some (fresh m.objs),
        { objs := shape m.objs (fresh m.objs) (pushOpt pd (Obj.bytes v.payload)
            [(qd, Obj.str v.description), (qm, Obj.str v.mime), (qn, Obj.str v.name)])
            ⟨some qn, some qm, some qd, R.i_data, pd⟩,
          reqs := m.reqs + 5 }) := by
    simp only [vlc_input_attachment_Duplicate, hR, Option.bind_eq_bind, Option.some_bind]
    exact heq
  exact ⟨fresh m.objs, _, R, ⟨some qn, some qm, some qd, R.i_data, pd⟩, hdup, hR,
    readAttachment_shape _ _ hdesc, rfl, hlen, hval,
    attachmentAt_mono (m := m) (extends_shape m.objs _ hdesc) hv⟩

/-- Witness for C1: the example attachment, duplicated while every allocation
succeeds. -/
theorem vlc_input_attachment_Duplicate_equal_witness :
    attachmentAt exAttMem (some 1) = some ⟨[110], [109], [100], [1, 2, 3]⟩ ∧
    ∃ d m1 R Rd, vlc_input_attachment_Duplicate allOk (some 1) exAttMem = some (some d, m1) ∧
      readAttachment exAttMem (some 1) = some R ∧ readAttachment m1 (some d) = some Rd ∧
      Rd.i_data = R.i_data ∧ [1, 2, 3].length = R.i_data ∧
      attachmentAt m1 (some d) = some ⟨[110], [109], [100], [1, 2, 3]⟩ ∧
      attachmentAt m1 (some 1) = some ⟨[110], [109], [100], [1, 2, 3]⟩ :=
  ⟨by decide,
    vlc_input_attachment_Duplicate_equal allOk exAttMem (some 1)
      ⟨[110], [109], [100], [1, 2, 3]⟩ (fun _ => rfl) (by decide)⟩


/-! ## C7: independence of a duplicated attachment -/

theorem lookup_store_of_ne {q pa : Nat} (h : q ≠ pa) (v : Obj) (l : List (Nat × Obj)) :
    lookup q (store pa v l) = lookup q l := by
  rw [lookup_store]
  simp [h]

theorem lookup_store_self {pa : Nat} {w : Obj} (v : Obj) {l : List (Nat × Obj)}
    (h : lookup pa l = some w) : lookup pa (store pa v l) = some v := by
  rw [lookup_store]
  simp [h]

theorem store_shape_lt {base : List (Nat × Obj)} {a q : Nat} {top : List (Nat × Obj)}
    (R : input_attachment_t) (v : Obj) (h : Desc a top) (hq : q < a) :
    store q v (shape base a top R) = shape (store q v base) a top R := by
  induction top with
  | nil =>
    have : q ≠ a := Nat.ne_of_lt hq
    simp [shape, store, this]
  | cons x top ih =>
    obtain ⟨b, w⟩ := x
    have hqb : q ≠ b := by have := h.1; omega
    have := ih h.2.2
    simp only [shape] at this ⊢
    simp [store, hqb, this]

theorem readStr_store_bytes {m : Mem} {p : Ptr} {s : List Nat} (h : readStr m p = some s)
    {pa : Nat} {b0 : List Nat} (hb0 : lookup pa m.objs = some (Obj.bytes b0)) (x : Obj)
    (k : Nat) : readStr { objs := store pa x m.objs, reqs := k } p = some s := by
  cases p with
  | none => simp [readStr] at h
  | some q =>
    simp only [readStr] at h ⊢
    have hne : q ≠ pa := by
      intro e
      subst e
      simp [hb0] at h
    rw [lookup_store_of_ne hne]
    exact h

/-- Overwriting a payload byte of an attachment changes that byte of its value
and nothing else. -/
theorem attachmentAt_store_payload {m : Mem} {a : Ptr} {v : AttachmentVal}
    (hv : attachmentAt m a = some v) {R : input_attachment_t}
    (hR : readAttachment m a = some R) {pa : Nat} {b0 : List Nat}
    (hpa : R.p_data = some pa) (hb0 : lookup pa m.objs = some (Obj.bytes b0))
    (i b k : Nat) (hi : 0 < R.i_data) :
    attachmentAt { objs := store pa (Obj.bytes (b0.set i b)) m.objs, reqs := k } a =
      some ⟨v.name, v.mime, v.description, v.payload.set i b⟩ := by
  obtain ⟨R2, hR2, h1, h2, h3, h4⟩ := attachmentAt_some hv
  rw [hR] at hR2
  simp only [Option.some.injEq] at hR2
  subst hR2
  refine attachmentAt_of ?_ (readStr_store_bytes h1 hb0 _ k) (readStr_store_bytes h2 hb0 _ k)
    (readStr_store_bytes h3 hb0 _ k) ?_
  · cases a with
    | none => simp [readAttachment] at hR
    | some q =>
      simp only [readAttachment] at hR ⊢
      have hne : q ≠ pa := by
        intro e
        subst e
        simp [hb0] at hR
      rw [lookup_store_of_ne hne]
      exact hR
  · rcases payloadAt_some h4 with ⟨h0, _⟩ | ⟨_, bb, hbb, hle, hpl⟩
    · omega
    · have hbb2 : bb = b0 := by
        simp [readBytes, hpa, hb0] at hbb
        exact hbb.symm
      subst hbb2
      have hne : R.i_data ≠ 0 := by omega
      simp [payloadAt, hne, readBytes, hpa, lookup_store_self _ hb0, hle, hpl, List.set_take]

theorem writeByte_head (base : List (Nat × Obj)) (a q : Nat) (pl : List Nat)
    (top : List (Nat × Obj)) (R : input_attachment_t) (k i b : Nat) (hi : i < pl.length) :
    writeByte (some q) i b { objs := shape base a ((q, Obj.bytes pl) :: top) R, reqs := k } =
      some { objs := shape base a ((q, Obj.bytes (pl.set i b)) :: top) R, reqs := k } := by
  simp [writeByte, modify, shape, lookup, store, hi]

theorem writeByte_base {base : List (Nat × Obj)} {a pa : Nat} {b0 : List Nat}
    {top : List (Nat × Obj)} (R : input_attachment_t) (k i b : Nat)
    (hd : Desc a top) (hpa : pa < a) (hb0 : lookup pa base = some (Obj.bytes b0))
    (hi : i < b0.length) :
    writeByte (some pa) i b { objs := shape base a top R, reqs := k } =
      some { objs := shape (store pa (Obj.bytes (b0.set i b)) base) a top R, reqs := k } := by
  simp [writeByte, modify, lookup_shape_lt R hd hpa, hb0, hi, store_shape_lt R _ hd hpa]


theorem readBytes_some {m : Mem} {p : Ptr} {b : List Nat} (h : readBytes m p = some b) :
    ∃ q, p = some q ∧ lookup q m.objs = some (Obj.bytes b) := by
  cases p with
  | none => simp [readBytes] at h
  | some q =>
    simp only [readBytes] at h
    cases hl : lookup q m.objs with
    | none => simp [hl] at h
    | some ob =>
      cases ob <;> simp [hl] at h
      subst h
      exact ⟨q, rfl, hl⟩

theorem readStr_some {m : Mem} {p : Ptr} {s : List Nat} (h : readStr m p = some s) :
    ∃ q, p = some q ∧ lookup q m.objs = some (Obj.str s) := by
  cases p with
  | none => simp [readStr] at h
  | some q =>
    simp only [readStr] at h
    cases hl : lookup q m.objs with
    | none => simp [hl] at h
    | some ob =>
      cases ob <;> simp [hl] at h
      subst h
      exact ⟨q, rfl, hl⟩

/-- C7: for an attachment with a non-empty payload and a successful duplicate
`d`, the record, the payload buffer and the three string buffers of `d` are
allocations that were not live before the call, hence distinct from those of the
source; overwriting any payload byte of `d` changes that byte of `d` and leaves
the value of the source unchanged, and overwriting any payload byte of the
source changes that byte of the source and leaves the value of `d` unchanged. -/
theorem vlc_input_attachment_Duplicate_independent (o : Nat → Bool) (m : Mem) (a : Ptr)
    (v : AttachmentVal) (d : Nat) (m1 : Mem)
    (hv : attachmentAt m a = some v) (hpos : 0 < v.payload.length)
    (hdup : vlc_input_attachment_Duplicate o a m = some (some d, m1)) :
    ∃ R Rd pa pdd qn qm qd,
      readAttachment m1 a = some R ∧ readAttachment m1 (some d) = some Rd ∧
      R.p_data = some pa ∧ Rd.p_data = some pdd ∧ Rd.psz_name = some qn ∧
      Rd.psz_mime = some qm ∧ Rd.psz_description = some qd ∧
      (lookup d m.objs = none ∧ lookup pdd m.objs = none ∧ lookup qn m.objs = none ∧
        lookup qm m.objs = none ∧ lookup qd m.objs = none) ∧
      (a ≠ some d ∧ Rd.p_data ≠ R.p_data ∧ Rd.psz_name ≠ R.psz_name ∧
        Rd.psz_mime ≠ R.psz_mime ∧ Rd.psz_description ≠ R.psz_description) ∧
      attachmentAt m1 a = some v ∧ attachmentAt m1 (some d) = some v ∧
      ∀ i b, i < v.payload.length →
        (∃ m2, writeByte Rd.p_data i b m1 = some m2 ∧ attachmentAt m2 a = some v ∧
          attachmentAt m2 (some d) =
            some ⟨v.name, v.mime, v.description, v.payload.set i b⟩) ∧
        (∃ m3, writeByte R.p_data i b m1 = some m3 ∧ attachmentAt m3 (some d) = some v ∧
          attachmentAt m3 a = some ⟨v.name, v.mime, v.description, v.payload.set i b⟩) := by
  obtain ⟨R, hR, h1, h2, h3, h4⟩ := attachmentAt_some hv
  have hlen := payloadAt_length h4
  have hidata : 0 < R.i_data := by omega
  obtain ⟨b0, hb0, hle, hpl⟩ : ∃ b0, readBytes m R.p_data = some b0 ∧ R.i_data ≤ b0.length ∧
      v.payload = b0.take R.i_data := by
    rcases payloadAt_some h4 with ⟨h0, _⟩ | ⟨_, b0, hb, hle, hpl⟩
    · omega
    · exact ⟨b0, hb, hle, hpl⟩
  obtain ⟨pa, hpa, hlpa⟩ := readBytes_some hb0
  obtain ⟨sn, hsn, hlsn⟩ := readStr_some h1
  obtain ⟨sm, hsm, hlsm⟩ := readStr_some h2
  obtain ⟨sd, hsd, hlsd⟩ := readStr_some h3
  obtain ⟨r, m1b, heq, _, _, hsome⟩ :=
    vlc_input_attachment_New_cases o m R.psz_name R.psz_mime R.psz_description R.p_data
      R.i_data v.name v.mime v.description v.payload
      (strArg_of_readStr h1) (strArg_of_readStr h2) (strArg_of_readStr h3) h4
  simp only [vlc_input_attachment_Duplicate, hR, Option.bind_eq_bind, Option.some_bind] at hdup
  rw [heq] at hdup
  simp only [Option.some.injEq, Prod.mk.injEq] at hdup
  obtain ⟨hr, hm1⟩ := hdup
  subst hr
  subst hm1
  obtain ⟨rfl, qn, qm, qd, pd, hpd, hdesc, rfl⟩ := hsome d rfl
  obtain ⟨pdd, rfl⟩ := Option.ne_none_iff_exists'.1 (hpd hidata)
  have hdesc2 := hdesc
  simp only [pushOpt, Desc, List.mem_cons, List.mem_singleton, forall_eq_or_imp, forall_eq,
    List.not_mem_nil, false_implies, implies_true, and_true] at hdesc2
  obtain ⟨g0, ⟨g1, g2, g3⟩, g4, ⟨g5, g6⟩, g7, g8, g9⟩ := hdesc2
  have hext := extends_shape m.objs
    ⟨some qn, some qm, some qd, R.i_data, some pdd⟩ hdesc
  have hRa : ∃ qa, a = some qa ∧ lookup qa m.objs = some (Obj.attachment R) := by
    cases a with
    | none => simp [readAttachment] at hR
    | some qa =>
      simp only [readAttachment] at hR
      cases hl : lookup qa m.objs with
      | none => simp [hl] at hR
      | some ob =>
        cases ob <;> simp [hl] at hR
        subst hR
        exact ⟨qa, rfl, hl⟩
  obtain ⟨qa, rfl, hlqa⟩ := hRa
  have l0 := lookup_lt_fresh hlqa
  have l1 := lookup_lt_fresh hlpa
  have l2 := lookup_lt_fresh hlsn
  have l3 := lookup_lt_fresh hlsm
  have l4 := lookup_lt_fresh hlsd
  refine ⟨R, ⟨some qn, some qm, some qd, R.i_data, some pdd⟩, pa, pdd, qn, qm, qd,
    readAttachment_mono (m := m) hext hR, readAttachment_shape _ _ hdesc, hpa, rfl, rfl, rfl,
    rfl, ?_, ?_, attachmentAt_mono (m := m) hext hv,
    attachmentAt_shape _ _ _ _ _ _ _ _ _ _ _ _ hdesc hpd hlen, ?_⟩
  · exact ⟨lookup_fresh _, lookup_none_of_le (by omega), lookup_none_of_le (by omega),
      lookup_none_of_le (by omega), lookup_none_of_le (by omega)⟩
  · rw [hpa, hsn, hsm, hsd]
    simp only [ne_eq, Option.some.injEq]
    exact ⟨by omega, by omega, by omega, by omega, by omega⟩
  · intro i b hi
    constructor
    · refine ⟨_, writeByte_head _ _ _ _ _ _ _ _ _ hi, ?_, ?_⟩
      · exact attachmentAt_mono (m := m)
          (@extends_shape m.objs
            ((pdd, Obj.bytes (v.payload.set i b)) ::
              [(qd, Obj.str v.description), (qm, Obj.str v.mime), (qn, Obj.str v.name)])
            ⟨some qn, some qm, some qd, R.i_data, some pdd⟩ hdesc) hv
      · exact attachmentAt_shape m.objs (fresh m.objs) (m.reqs + 5) R.i_data qn qm qd
          (some pdd) v.name v.mime v.description (v.payload.set i b) hdesc hpd
          (by simp [hlen])
    · have hib : i < b0.length := by omega
      have hfs : fresh (store pa (Obj.bytes (b0.set i b)) m.objs) = fresh m.objs :=
        fresh_store _ _ _
      have hdesc3 : Desc (fresh (store pa (Obj.bytes (b0.set i b)) m.objs))
          (pushOpt (some pdd) (Obj.bytes v.payload)
            [(qd, Obj.str v.description), (qm, Obj.str v.mime), (qn, Obj.str v.name)]) := by
        rw [hfs]
        exact hdesc
      have hext3 := extends_shape (store pa (Obj.bytes (b0.set i b)) m.objs)
        ⟨some qn, some qm, some qd, R.i_data, some pdd⟩ hdesc3
      rw [hfs] at hext3
      have hw := writeByte_base ⟨some qn, some qm, some qd, R.i_data, some pdd⟩ (m.reqs + 5)
        i b hdesc l1 hlpa hib
      rw [← hpa] at hw
      refine ⟨_, hw, ?_, ?_⟩
      · exact attachmentAt_shape _ (fresh m.objs) (m.reqs + 5) R.i_data qn qm qd
          (some pdd) v.name v.mime v.description v.payload hdesc hpd hlen
      · exact attachmentAt_mono
          (m := { objs := store pa (Obj.bytes (b0.set i b)) m.objs, reqs := m.reqs + 5 })
          hext3
          (attachmentAt_store_payload hv hR hpa hlpa i b (m.reqs + 5) hidata)


/-- Witness for C7: the example attachment and its duplicate. -/
theorem vlc_input_attachment_Duplicate_independent_witness :
    (attachmentAt exAttMem (some 1) = some exAttVal ∧ 0 < exAttVal.payload.length ∧
      vlc_input_attachment_Duplicate allOk (some 1) exAttMem = some (some 6, exAttDupMem)) ∧
    ∃ R Rd pa pdd qn qm qd,
      readAttachment exAttDupMem (some 1) = some R ∧
      readAttachment exAttDupMem (some 6) = some Rd ∧
      R.p_data = some pa ∧ Rd.p_data = some pdd ∧ Rd.psz_name = some qn ∧
      Rd.psz_mime = some qm ∧ Rd.psz_description = some qd ∧
      (lookup 6 exAttMem.objs = none ∧ lookup pdd exAttMem.objs = none ∧
        lookup qn exAttMem.objs = none ∧ lookup qm exAttMem.objs = none ∧
        lookup qd exAttMem.objs = none) ∧
      ((some 1 : Ptr) ≠ some 6 ∧ Rd.p_data ≠ R.p_data ∧ Rd.psz_name ≠ R.psz_name ∧
        Rd.psz_mime ≠ R.psz_mime ∧ Rd.psz_description ≠ R.psz_description) ∧
      attachmentAt exAttDupMem (some 1) = some exAttVal ∧
      attachmentAt exAttDupMem (some 6) = some exAttVal ∧
      ∀ i b, i < exAttVal.payload.length →
        (∃ m2, writeByte Rd.p_data i b exAttDupMem = some m2 ∧
          attachmentAt m2 (some 1) = some exAttVal ∧
          attachmentAt m2 (some 6) =
            some ⟨exAttVal.name, exAttVal.mime, exAttVal.description,
              exAttVal.payload.set i b⟩) ∧
        (∃ m3, writeByte R.p_data i b exAttDupMem = some m3 ∧
          attachmentAt m3 (some 6) = some exAttVal ∧
          attachmentAt m3 (some 1) =
            some ⟨exAttVal.name, exAttVal.mime, exAttVal.description,
              exAttVal.payload.set i b⟩) :=
  ⟨⟨by decide, by decide, by decide⟩,
    vlc_input_attachment_Duplicate_independent allOk exAttMem (some 1) exAttVal 6 exAttDupMem
      (by decide) (by decide) (by decide)⟩


/-! ## C9: `input_GetVout` -/

theorem release_loop_eq (pp_vout : List Nat) (k i : Nat) (acc : List Nat)
    (h : i + k ≤ pp_vout.length) :
    release_loop pp_vout k i acc = some (acc ++ (pp_vout.drop i).take k) := by
  induction k generalizing i acc with
  | zero => simp [release_loop]
  | succ k ih =>
    have hi : i < pp_vout.length := by omega
    have hget : pp_vout.get? i = some pp_vout[i] := by
      simp [List.getElem?_eq_getElem hi]
    simp only [release_loop, hget]
    rw [ih (i + 1) (acc ++ [pp_vout[i]]) (by omega)]
    have hd : pp_vout.drop i = pp_vout[i] :: pp_vout.drop (i + 1) :=
      List.drop_eq_getElem_cons hi
    rw [hd, List.take_succ_cons, List.append_assoc]
    rfl

/-- C9: with `INPUT_GET_VOUTS` returning a status and an array of `i_vout` video
outputs, `input_GetVout` returns NULL and releases nothing when the status is
non-zero; otherwise it releases, once each and in order, exactly the outputs at
indices `1 .. i_vout - 1`, never the one at index 0, and returns the output at
index 0 when there is one and NULL when there is none; so the references handed
over are exactly the returned one plus the released ones. -/
theorem input_GetVout_refs (status : Int) (pp_vout : List Nat) (i_vout : Nat)
    (h : i_vout = pp_vout.length) :
    (status ≠ 0 → input_GetVout status pp_vout i_vout = some (none, [])) ∧
    (status = 0 →
      ∃ p_vout released, input_GetVout status pp_vout i_vout = some (p_vout, released) ∧
        released = pp_vout.drop 1 ∧ p_vout = pp_vout.head? ∧
        (1 ≤ i_vout → p_vout = pp_vout.get? 0 ∧ p_vout ≠ none) ∧
        (i_vout = 0 → p_vout = none ∧ released = []) ∧
        pp_vout = p_vout.toList ++ released) := by
  subst h
  constructor
  · intro hs
    simp [input_GetVout, hs]
  · intro hs
    cases pp_vout with
    | nil =>
      refine ⟨none, [], ?_, by simp, by simp, by simp, by simp, by simp⟩
      simp [input_GetVout, hs, release_loop]
    | cons x xs =>
      refine ⟨some x, xs, ?_, by simp, by simp, by simp, by simp, by simp⟩
      have hl := release_loop_eq (x :: xs) xs.length 1 [] (by simp; omega)
      simp at hl
      simp [input_GetVout, hs, hl]

/-- Witness for C9: three video outputs 7, 8, 9 and a zero status. -/
theorem input_GetVout_refs_witness :
    3 = [7, 8, 9].length ∧
    (((0 : Int) ≠ 0 → input_GetVout 0 [7, 8, 9] 3 = some (none, [])) ∧
    ((0 : Int) = 0 →
      ∃ p_vout released, input_GetVout 0 [7, 8, 9] 3 = some (p_vout, released) ∧
        released = [7, 8, 9].drop 1 ∧ p_vout = [7, 8, 9].head? ∧
        (1 ≤ 3 → p_vout = [7, 8, 9].get? 0 ∧ p_vout ≠ none) ∧
        (3 = 0 → p_vout = none ∧ released = []) ∧
        [7, 8, 9] = p_vout.toList ++ released)) :=
  ⟨rfl, input_GetVout_refs 0 [7, 8, 9] 3 rfl⟩


/-! ## C10: the resource slot -/

theorem poolRun_append (s : Slot) (ops : List PoolOp) (op : PoolOp) :
    poolRun s (ops ++ [op]) = (poolRun s ops).bind (fun s1 => poolStep s1 op) := by
  induction ops generalizing s with
  | nil =>
    simp only [List.nil_append, poolRun, Option.some_bind]
    cases poolStep s op <;> rfl
  | cons x xs ih =>
    simp only [List.cons_append, poolRun]
    cases poolStep s x with
    | none => rfl
    | some s1 => exact ih s1

theorem DestroyCause.snoc {ops : List PoolOp} (h : DestroyCause ops) (op : PoolOp) :
    DestroyCause (ops ++ [op]) := by
  rcases h with h | ⟨pre, post, s0, he, hr, hp⟩ | ⟨pre, mid, post, s1, he, hr, hz⟩
  · exact Or.inl (by simp [h])
  · exact Or.inr (Or.inl ⟨pre, post ++ [op], s0, by simp [he], hr, hp⟩)
  · exact Or.inr (Or.inr ⟨pre, mid, post ++ [op], s1, by simp [he], hr, hz⟩)

theorem SlotInv.step {ops : List PoolOp} {s s2 : Slot} {op : PoolOp} (hinv : SlotInv ops s)
    (hrun : poolRun Slot.init ops = some s) (hstep : poolStep s op = some s2) :
    SlotInv (ops ++ [op]) s2 := by
  obtain ⟨h0, hheld, hst, hdr, hdes⟩ := hinv
  have hrun2 : poolRun Slot.init (ops ++ [op]) = some s2 := by
    rw [poolRun_append, hrun]
    exact hstep
  obtain ⟨phase, rc, stale, draining, created⟩ := s
  simp only at h0 hheld hst hdr hdes
  have hst2 : stale = true → PoolOp.reset ∈ ops ++ [op] := fun h => by simp [hst h]
  have hdr2 : draining = true → PoolOp.terminate ∈ ops ++ [op] := fun h => by simp [hdr h]
  have hdes2 : phase = Phase.Destroyed → DestroyCause (ops ++ [op]) :=
    fun h => (hdes h).snoc op
  cases op with
  | hold ok =>
    simp only [poolStep, input_resource_GetAout, Option.some.injEq] at hstep
    subst hstep
    cases draining <;> cases phase <;> cases ok <;>
      simp only [SlotInv, Bool.false_eq_true, if_false, if_true] <;>
      refine ⟨?_, ?_, ?_, ?_, ?_⟩ <;>
      first
        | omega
        | exact hst2
        | exact hdr2
        | exact hdes2
        | (intro _; exact hdr2 rfl)
        | (intro _; exact hdes2 rfl)
        | (intro h; cases h)
        | (simp at hheld ⊢; omega)
        | (simp at hheld ⊢)
  | put =>
    simp only [poolStep, input_resource_PutAout] at hstep
    by_cases hh : phase = Phase.Held ∧ 0 < rc
    · simp only [hh, and_self, if_true] at hstep
      obtain ⟨hph, hrc⟩ := hh
      subst hph
      by_cases hz : rc - 1 = 0
      · simp only [hz, if_true] at hstep
        by_cases hsd : stale = true ∨ draining = true
        · simp only [hsd, if_true, Option.some.injEq] at hstep
          subst hstep
          refine ⟨by simp, by simp, by simp, hdr2, ?_⟩
          intro _
          rcases hsd with hs | hd
          · obtain ⟨pre, mid, hsplit⟩ := List.append_of_mem (hst hs)
            have hcat : pre ++ PoolOp.reset :: (mid ++ [PoolOp.put]) = ops ++ [PoolOp.put] := by
              simp [hsplit]
            exact Or.inr (Or.inr ⟨pre, mid, [], _, hcat.symm, hcat ▸ hrun2, rfl⟩)
          · exact Or.inl (hdr2 hd)
        · simp only [hsd, if_false, Option.some.injEq] at hstep
          subst hstep
          refine ⟨by simp, by simp, hst2, hdr2, ?_⟩
          intro h
          cases h
      · simp only [hz, if_false, Option.some.injEq] at hstep
        subst hstep
        refine ⟨by simp; omega, by simp; omega, hst2, hdr2, ?_⟩
        intro h
        cases h
    · simp [hh] at hstep
  | reset =>
    simp only [poolStep, input_resource_ResetAout, Option.some.injEq] at hstep
    subst hstep
    cases phase
    · exact ⟨h0, hheld, hst2, hdr2, hdes2⟩
    · exact ⟨h0, hheld, fun _ => by simp, hdr2, hdes2⟩
    · refine ⟨h0, ?_, hst2, hdr2, ?_⟩
      · simp at hheld ⊢
        exact hheld
      · intro _
        exact Or.inr (Or.inl ⟨ops, [], _, rfl, hrun, rfl⟩)
    · exact ⟨h0, hheld, hst2, hdr2, hdes2⟩
  | terminate =>
    simp only [poolStep, input_resource_Terminate, Option.some.injEq] at hstep
    subst hstep
    by_cases hph : phase = Phase.Held
    · simp only [hph, if_true, SlotInv]
      refine ⟨h0, ?_, hst2, fun _ => by simp, ?_⟩
      · simpa [hph] using hheld
      · intro h
        cases h
    · simp only [hph, if_false, SlotInv]
      refine ⟨h0, ?_, hst2, fun _ => by simp, fun _ => Or.inl (by simp)⟩
      constructor
      · intro h
        cases h
      · intro h
        exact absurd (hheld.2 h) hph


/-- Every slot reached from the empty slot satisfies the invariant. -/
theorem poolRun_inv (ops : List PoolOp) (s : Slot) (h : poolRun Slot.init ops = some s) :
    SlotInv ops s := by
  induction ops using List.reverseRecOn generalizing s with
  | nil =>
    simp only [poolRun, Option.some.injEq] at h
    subst h
    refine ⟨by decide, by decide, ?_, ?_, ?_⟩ <;> intro hc <;> cases hc
  | append_singleton ops op ih =>
    rw [poolRun_append] at h
    cases hr : poolRun Slot.init ops with
    | none => simp [hr] at h
    | some s1 =>
      rw [hr] at h
      exact (ih s1 hr).step hr h

/-- C10, as stated, fails on the pool as specified: after a hold, a put and a
reset the slot is Destroyed although the sequence contains no terminate and no
put that follows a reset. -/
theorem pool_reset_destroys_idle :
    ∃ s, poolRun Slot.init [PoolOp.hold true, PoolOp.put, PoolOp.reset] = some s ∧
      s.phase = Phase.Destroyed ∧
      PoolOp.terminate ∉ [PoolOp.hold true, PoolOp.put, PoolOp.reset] ∧
      ¬ PutAfterReset [PoolOp.hold true, PoolOp.put, PoolOp.reset] := by
  refine ⟨⟨Phase.Destroyed, 0, false, false, 1⟩, by decide, rfl, by decide, ?_⟩
  rintro ⟨pre, mid, post, s1, he, _, _⟩
  rcases pre with _ | ⟨_, _ | ⟨_, _ | ⟨_, _ | _⟩⟩⟩ <;> simp at he

/-- C10, amended: for every sequence of hold, put, reset and terminate on a
single slot, the reference count is always `>= 0`; the slot is never Destroyed
while the count is `> 0`; and it is Destroyed only after a terminate, after a
reset issued while the slot was Idle, or after a put that follows a reset and
brings the count to zero. -/
theorem pool_slot_safe (ops : List PoolOp) (s : Slot)
    (h : poolRun Slot.init ops = some s) :
    0 ≤ s.refcount ∧
    (s.phase = Phase.Destroyed →
      s.refcount = 0 ∧
      (PoolOp.terminate ∈ ops ∨ ResetWhileIdle ops ∨ PutAfterReset ops)) := by
  obtain ⟨h0, hheld, _, _, hdes⟩ := poolRun_inv ops s h
  refine ⟨h0, fun hd => ⟨?_, hdes hd⟩⟩
  have hnot : ¬ 0 < s.refcount := by
    intro hpos
    have := hheld.2 hpos
    rw [hd] at this
    cases this
  omega

/-- Witness for C10 amended: a hold, a reset deferred while the slot is held,
and the put that then destroys the slot. -/
theorem pool_slot_safe_witness :
    poolRun Slot.init [PoolOp.hold true, PoolOp.reset, PoolOp.put] =
      some ⟨Phase.Destroyed, 0, false, false, 1⟩ ∧
    (0 ≤ (⟨Phase.Destroyed, 0, false, false, 1⟩ : Slot).refcount ∧
    ((⟨Phase.Destroyed, 0, false, false, 1⟩ : Slot).phase = Phase.Destroyed →
      (⟨Phase.Destroyed, 0, false, false, 1⟩ : Slot).refcount = 0 ∧
      (PoolOp.terminate ∈ [PoolOp.hold true, PoolOp.reset, PoolOp.put] ∨
        ResetWhileIdle [PoolOp.hold true, PoolOp.reset, PoolOp.put] ∨
        PutAfterReset [PoolOp.hold true, PoolOp.reset, PoolOp.put]))) :=
  ⟨by decide,
    pool_slot_safe [PoolOp.hold true, PoolOp.reset, PoolOp.put]
      ⟨Phase.Destroyed, 0, false, false, 1⟩ (by decide)⟩


/-! ## Framing around one modified object -/

theorem ExtendsExcept.same (x : Nat) (l : List (Nat × Obj)) : ExtendsExcept x l l :=
  fun _ _ _ h => h

theorem ExtendsExcept.comp {x : Nat} {l1 l2 l3 : List (Nat × Obj)}
    (h1 : ExtendsExcept x l1 l2) (h2 : ExtendsExcept x l2 l3) : ExtendsExcept x l1 l3 :=
  fun a w ha h => h2 a w ha (h1 a w ha h)

theorem Extends.toExcept {l1 l2 : List (Nat × Obj)} (h : Extends l1 l2) (x : Nat) :
    ExtendsExcept x l1 l2 := fun a w _ hl => h a w hl

theorem extendsExcept_store (x : Nat) (v : Obj) (l : List (Nat × Obj)) :
    ExtendsExcept x l (store x v l) := by
  intro a w ha h
  rw [lookup_store_of_ne ha]
  exact h

theorem readStr_except {m m2 : Mem} {x : Nat} (hext : ExtendsExcept x m.objs m2.objs)
    (hx : ∀ s, lookup x m.objs ≠ some (Obj.str s)) {p : Ptr} {n : List Nat}
    (h : readStr m p = some n) : readStr m2 p = some n := by
  obtain ⟨q, rfl, hl⟩ := readStr_some h
  have hne : q ≠ x := by
    intro e
    subst e
    exact hx n hl
  simp [readStr, hext q _ hne hl]

theorem optStrAt_except {m m2 : Mem} {x : Nat} (hext : ExtendsExcept x m.objs m2.objs)
    (hx : ∀ s, lookup x m.objs ≠ some (Obj.str s)) {p : Ptr} {n : Option (List Nat)}
    (h : optStrAt m p = some n) : optStrAt m2 p = some n := by
  cases p with
  | none => simpa [optStrAt] using h
  | some q =>
    simp only [optStrAt] at h ⊢
    cases hr : readStr m (some q) with
    | none => simp [hr] at h
    | some s =>
      rw [readStr_except hext hx hr]
      rw [hr] at h
      exact h

theorem seekpointAt_except {m m2 : Mem} {x : Nat} (hext : ExtendsExcept x m.objs m2.objs)
    (hx : ∀ s, lookup x m.objs ≠ some (Obj.str s))
    (hx2 : ∀ r, lookup x m.objs ≠ some (Obj.seekpoint r)) {p : Ptr} {v : SeekpointVal}
    (h : seekpointAt m p = some v) : seekpointAt m2 p = some v := by
  obtain ⟨a, s, rfl, hl, ht, hn⟩ := seekpointAt_some h
  have hne : a ≠ x := by
    intro e
    subst e
    exact hx2 s hl
  simp [seekpointAt, readSeekpoint, hext a _ hne hl, optStrAt_except hext hx hn, ht]

theorem seekpointsAt_except {m m2 : Mem} {x : Nat} (hext : ExtendsExcept x m.objs m2.objs)
    (hx : ∀ s, lookup x m.objs ≠ some (Obj.str s))
    (hx2 : ∀ r, lookup x m.objs ≠ some (Obj.seekpoint r)) {cs : List Ptr}
    {vs : List SeekpointVal} (h : seekpointsAt m cs = some vs) :
    seekpointsAt m2 cs = some vs := by
  induction cs generalizing vs with
  | nil => simpa [seekpointsAt] using h
  | cons c cs ih =>
    simp only [seekpointsAt] at h ⊢
    cases hc : seekpointAt m c with
    | none => simp [hc] at h
    | some v =>
      cases hcs : seekpointsAt m cs with
      | none => simp [hc, hcs] at h
      | some vs2 =>
        rw [seekpointAt_except hext hx hx2 hc, ih hcs]
        rw [hc, hcs] at h
        exact h

theorem seekpointsAt_cons {m : Mem} {c : Ptr} {cs : List Ptr} {vs : List SeekpointVal}
    (h : seekpointsAt m (c :: cs) = some vs) :
    ∃ v vs2, vs = v :: vs2 ∧ seekpointAt m c = some v ∧ seekpointsAt m cs = some vs2 := by
  simp only [seekpointsAt] at h
  cases hc : seekpointAt m c with
  | none => simp [hc] at h
  | some v =>
    cases hcs : seekpointsAt m cs with
    | none => simp [hc, hcs] at h
    | some vs2 =>
      simp [hc, hcs] at h
      exact ⟨v, vs2, h.symm, rfl, rfl⟩

theorem readTitle_some {m : Mem} {p : Ptr} {r : input_title_t} (h : readTitle m p = some r) :
    ∃ q, p = some q ∧ lookup q m.objs = some (Obj.title r) := by
  cases p with
  | none => simp [readTitle] at h
  | some q =>
    simp only [readTitle] at h
    cases hl : lookup q m.objs with
    | none => simp [hl] at h
    | some ob =>
      cases ob <;> simp [hl] at h
      subst h
      exact ⟨q, rfl, hl⟩

theorem readPtrs_some {m : Mem} {p : Ptr} {c : List Ptr} (h : readPtrs m p = some c) :
    ∃ q, p = some q ∧ lookup q m.objs = some (Obj.ptrs c) := by
  cases p with
  | none => simp [readPtrs] at h
  | some q =>
    simp only [readPtrs] at h
    cases hl : lookup q m.objs with
    | none => simp [hl] at h
    | some ob =>
      cases ob <;> simp [hl] at h
      subst h
      exact ⟨q, rfl, hl⟩

theorem readTitle_except {m m2 : Mem} {x : Nat} (hext : ExtendsExcept x m.objs m2.objs)
    (hx : ∀ r, lookup x m.objs ≠ some (Obj.title r)) {p : Ptr} {r : input_title_t}
    (h : readTitle m p = some r) : readTitle m2 p = some r := by
  obtain ⟨q, rfl, hl⟩ := readTitle_some h
  have hne : q ≠ x := by
    intro e
    subst e
    exact hx r hl
  simp [readTitle, hext q _ hne hl]

theorem readPtrs_except {m m2 : Mem} {x : Nat} (hext : ExtendsExcept x m.objs m2.objs)
    {p : Ptr} (hp : p ≠ some x) {c : List Ptr}
    (h : readPtrs m p = some c) : readPtrs m2 p = some c := by
  obtain ⟨q, rfl, hl⟩ := readPtrs_some h
  have hne : q ≠ x := by
    intro e
    subst e
    exact hp rfl
  simp [readPtrs, hext q _ hne hl]

theorem PartialCopy.frame {m m2 : Mem} {x : Nat} (hext : ExtendsExcept x m.objs m2.objs)
    (hx : ∀ s, lookup x m.objs ≠ some (Obj.str s))
    (hx2 : ∀ r, lookup x m.objs ≠ some (Obj.seekpoint r)) {c : Ptr} {v : SeekpointVal}
    (h : PartialCopy m c v) : PartialCopy m2 c v := by
  rcases h with h | ⟨n, hn, hor⟩
  · exact Or.inl h
  · exact Or.inr ⟨n, seekpointAt_except hext hx hx2 hn, hor⟩

/-- The outcomes of `vlc_seekpoint_Duplicate` on a well-formed source. -/
theorem vlc_seekpoint_Duplicate_cases (o : Nat → Bool) (m : Mem) (src : Ptr)
    (v : SeekpointVal) (h : seekpointAt m src = some v) :
    ∃ r m1, vlc_seekpoint_Duplicate o src m = some (r, m1) ∧
      Extends m.objs m1.objs ∧
      (r = none ↔ o m.reqs = false) ∧
      (∀ p, r = some p → lookup p m.objs = none) ∧
      (∀ q, lookup q m1.objs ≠ none → lookup q m.objs = none → fresh m.objs ≤ q) ∧
      PartialCopy m1 r v ∧
      ((∀ n, o n = true) → seekpointAt m1 r = some v) := by
  rw [vlc_seekpoint_Duplicate_eq o m src v h]
  have hle : ∀ (l : List (Nat × Obj)) (q : Nat), lookup q l = none →
      ∀ (b : Nat) (w : Obj), fresh l ≤ b → lookup q ((b, w) :: l) ≠ none → fresh l ≤ q := by
    intro l q hq b w hb hne
    by_cases e : q = b
    · omega
    · simp [lookup, e, hq] at hne
  cases ho : o m.reqs
  · refine ⟨_, _, rfl, Extends.refl _, by simp, by simp, ?_, Or.inl (by simp), ?_⟩
    · intro q h1 h2
      simp at h1
      exact absurd h2 h1
    · intro hall
      rw [hall] at ho
      cases ho
  · cases hvn : v.name with
    | none =>
      refine ⟨_, _, rfl, ?_, by simp, ?_, ?_, ?_, ?_⟩
      · exact extends_cons_fresh _ _
      · intro p hp
        simp only [if_true, Option.some.injEq] at hp
        subst hp
        exact lookup_fresh _
      · intro q h1 h2
        simp only [if_true] at h1
        exact hle m.objs q h2 _ _ (Nat.le_refl _) h1
      · refine Or.inr ⟨none, ?_, Or.inr rfl⟩
        simp [seekpointAt, readSeekpoint, lookup, optStrAt]
      · intro _
        have : v = ⟨v.time_offset, none⟩ := by
          cases v
          simp only at hvn
          simp [hvn]
        rw [this]
        simp [seekpointAt, readSeekpoint, lookup, optStrAt]
    | some n =>
      cases ho2 : o (m.reqs + 1)
      · refine ⟨_, _, rfl, ?_, by simp, ?_, ?_, ?_, ?_⟩
        · exact extends_cons_fresh _ _
        · intro p hp
          simp only [if_true, Bool.false_eq_true, if_false, Option.some.injEq] at hp
          subst hp
          exact lookup_fresh _
        · intro q h1 h2
          simp only [if_true, Bool.false_eq_true, if_false] at h1
          exact hle m.objs q h2 _ _ (Nat.le_refl _) h1
        · refine Or.inr ⟨none, ?_, Or.inr rfl⟩
          simp [seekpointAt, readSeekpoint, lookup, optStrAt]
        · intro hall
          rw [hall] at ho2
          cases ho2
      · have hf := lookup_fresh
          ((fresh m.objs, Obj.seekpoint ⟨v.time_offset, some (fresh m.objs + 1)⟩) :: m.objs)
        rw [fresh_cons_fresh] at hf
        have hval : seekpointAt
            { objs := (fresh m.objs + 1, Obj.str n) ::
                (fresh m.objs, Obj.seekpoint ⟨v.time_offset, some (fresh m.objs + 1)⟩) ::
                m.objs,
              reqs := m.reqs + 2 } (some (fresh m.objs)) = some ⟨v.time_offset, some n⟩ := by
          simp [seekpointAt, readSeekpoint, lookup, optStrAt, readStr]
        refine ⟨_, _, rfl, ?_, by simp, ?_, ?_, ?_, ?_⟩
        · exact Extends.trans
            (extends_cons_fresh m.objs
              (Obj.seekpoint ⟨v.time_offset, some (fresh m.objs + 1)⟩))
            (extends_cons (Obj.str n) hf)
        · intro p hp
          simp only [if_true, Option.some.injEq] at hp
          subst hp
          exact lookup_fresh _
        · intro q h1 h2
          simp only [if_true] at h1
          by_cases e : q = fresh m.objs + 1
          · omega
          · by_cases e2 : q = fresh m.objs
            · omega
            · simp [lookup, e, e2, h2] at h1
        · exact Or.inr ⟨some n, hval, Or.inl hvn.symm⟩
        · intro _
          show seekpointAt _ (some (fresh m.objs)) = some v
          rw [hval]
          cases v
          simp only at hvn
          simp [hvn]


/-! ## The seekpoint loop of `vlc_input_title_Duplicate` -/

theorem setCell_eq {M : Mem} {arr : Nat} {cells : List Ptr}
    (h : lookup arr M.objs = some (Obj.ptrs cells)) {i : Nat} (hi : i < cells.length)
    (p : Ptr) :
    setCell arr i p M =
      some { objs := store arr (Obj.ptrs (cells.set i p)) M.objs, reqs := M.reqs } := by
  simp [setCell, modify, h, hi]

theorem title_dup_loop_spec (o : Nat → Bool) (t : Ptr) (dup arr : Nat)
    (tr dr : input_title_t) (tcells : List Ptr) (htarr : tr.seekpoint ≠ some arr)
    (hdarr : dr.seekpoint = some arr) :
    ∀ (k i : Nat) (M : Mem) (cells : List Ptr) (vs : List SeekpointVal),
      readTitle M t = some tr → readPtrs M tr.seekpoint = some tcells →
      readTitle M (some dup) = some dr →
      lookup arr M.objs = some (Obj.ptrs cells) →
      i + k ≤ cells.length → i + k ≤ tcells.length →
      seekpointsAt M ((tcells.drop i).take k) = some vs →
      ∃ M2 cells2, title_dup_loop o t dup k i M = some M2 ∧
        ExtendsExcept arr M.objs M2.objs ∧
        lookup arr M2.objs = some (Obj.ptrs cells2) ∧ cells2.length = cells.length ∧
        cells2.take i = cells.take i ∧
        List.Forall₂ (PartialCopy M2) ((cells2.drop i).take k) vs ∧
        (∀ c ∈ (cells2.drop i).take k, ∀ p, c = some p → lookup p M.objs = none) ∧
        ((∀ n, o n = true) → seekpointsAt M2 ((cells2.drop i).take k) = some vs) := by
  intro k
  induction k with
  | zero =>
    intro i M cells vs _ _ _ harr _ _ hvs
    simp only [List.take_zero, seekpointsAt, Option.some.injEq] at hvs
    subst hvs
    exact ⟨M, cells, rfl, ExtendsExcept.same _ _, harr, rfl, rfl, by simp,
      by simp, fun _ => by simp [seekpointsAt]⟩
  | succ k ih =>
    intro i M cells vs hT hP hD harr hlen htlen hvs
    have hi : i < cells.length := by omega
    have hti : i < tcells.length := by omega
    have hslice : (tcells.drop i).take (k + 1) = tcells[i] :: (tcells.drop (i + 1)).take k := by
      rw [List.drop_eq_getElem_cons hti, List.take_succ_cons]
    rw [hslice] at hvs
    obtain ⟨v, vs2, rfl, hv, hvs2⟩ := seekpointsAt_cons hvs
    obtain ⟨p, M1, hdupl, hext01, _, hfreshp, _, hpc, hfull⟩ :=
      vlc_seekpoint_Duplicate_cases o M tcells[i] v hv
    have harr1 : lookup arr M1.objs = some (Obj.ptrs cells) := hext01 _ _ harr
    have hk1s : ∀ s, lookup arr M1.objs ≠ some (Obj.str s) := by simp [harr1]
    have hk1p : ∀ r, lookup arr M1.objs ≠ some (Obj.seekpoint r) := by simp [harr1]
    have hk1t : ∀ r, lookup arr M1.objs ≠ some (Obj.title r) := by simp [harr1]
    have hD1 : readTitle M1 (some dup) = some dr :=
      readTitle_except (hext01.toExcept arr) (by simp [harr]) hD
    let M2 : Mem := { objs := store arr (Obj.ptrs (cells.set i p)) M1.objs, reqs := M1.reqs }
    have hset : setCell arr i p M1 = some M2 := setCell_eq harr1 hi p
    have hext12 : ExtendsExcept arr M1.objs M2.objs := extendsExcept_store _ _ _
    have hext02 : ExtendsExcept arr M.objs M2.objs := (hext01.toExcept arr).comp hext12
    have hk0s : ∀ s, lookup arr M.objs ≠ some (Obj.str s) := by simp [harr]
    have hk0p : ∀ r, lookup arr M.objs ≠ some (Obj.seekpoint r) := by simp [harr]
    have hk0t : ∀ r, lookup arr M.objs ≠ some (Obj.title r) := by simp [harr]
    have harr2 : lookup arr M2.objs = some (Obj.ptrs (cells.set i p)) :=
      lookup_store_self _ harr1
    obtain ⟨M3, cells3, hloop, hext23, harr3, hlen3, htake3, hfa3, hfr3, hfull3⟩ :=
      ih (i + 1) M2 (cells.set i p) vs2
        (readTitle_except hext02 hk0t hT)
        (readPtrs_except hext02 htarr hP)
        (readTitle_except hext02 hk0t hD)
        harr2 (by simp; omega) (by omega)
        (seekpointsAt_except hext02 hk0s hk0p hvs2)
    have hlen3b : cells3.length = cells.length := by simp [hlen3]
    have hi3 : i < cells3.length := by omega
    have hcell : cells3[i] = p := by
      have h1 : (cells3.take (i + 1))[i]? = ((cells.set i p).take (i + 1))[i]? := by
        rw [htake3]
      simp [List.getElem?_take, hi3, hi] at h1
      exact h1
    have hslice3 : (cells3.drop i).take (k + 1) = p :: (cells3.drop (i + 1)).take k := by
      rw [List.drop_eq_getElem_cons hi3, List.take_succ_cons, hcell]
    have hk2s : ∀ s, lookup arr M2.objs ≠ some (Obj.str s) := by simp [harr2]
    have hk2p : ∀ r, lookup arr M2.objs ≠ some (Obj.seekpoint r) := by simp [harr2]
    have hext13 : ExtendsExcept arr M1.objs M3.objs := hext12.comp hext23
    refine ⟨M3, cells3, ?_, hext02.comp hext23, harr3, hlen3b, ?_, ?_, ?_, ?_⟩
    · simp only [title_dup_loop, hT, hP, Option.bind_eq_bind, Option.some_bind,
        List.get?_eq_getElem?, List.getElem?_eq_getElem hti, hdupl, hD1, hdarr, hset]
      exact hloop
    · have h1 : (cells3.take (i + 1)).take i = ((cells.set i p).take (i + 1)).take i := by
        rw [htake3]
      simp only [List.take_take, Nat.min_eq_left (Nat.le_succ i)] at h1
      rw [h1, List.set_take, List.set_eq_of_length_le (by simp)]
    · rw [hslice3]
      exact List.Forall₂.cons (hpc.frame hext13 hk1s hk1p) hfa3
    · rw [hslice3]
      intro c hc q hq
      rcases List.mem_cons.1 hc with rfl | hc
      · exact hfreshp q hq
      · have h2 := hfr3 c hc q hq
        cases hl : lookup q M.objs with
        | none => rfl
        | some w =>
          by_cases e : q = arr
          · subst e
            rw [harr2] at h2
            cases h2
          · rw [hext02 q w e hl] at h2
            cases h2
    · intro hall
      rw [hslice3]
      simp only [seekpointsAt, seekpointAt_except hext13 hk1s hk1p (hfull hall), hfull3 hall,
        Option.bind_eq_bind, Option.some_bind]
      rfl


/-! ## Titles under duplication -/

theorem lookup_tshape_self {base : List (Nat × Obj)} {d : Nat} {top : List (Nat × Obj)}
    (R : input_title_t) (h : Desc d top) :
    lookup d (tshape base d top R) = some (Obj.title R) := by
  induction top with
  | nil => simp [tshape, lookup]
  | cons x top ih =>
    obtain ⟨b, w⟩ := x
    have hab : d ≠ b := Nat.ne_of_lt h.1
    have := ih h.2.2
    simp only [tshape] at this ⊢
    simp [lookup, hab, this]

theorem store_tshape {base : List (Nat × Obj)} {d : Nat} {top : List (Nat × Obj)}
    (R : input_title_t) (v : Obj) (h : Desc d top) :
    store d v (tshape base d top R) = top ++ (d, v) :: base := by
  induction top with
  | nil => simp [tshape, store]
  | cons x top ih =>
    obtain ⟨b, w⟩ := x
    have hab : d ≠ b := Nat.ne_of_lt h.1
    have := ih h.2.2
    simp only [tshape] at this ⊢
    simp [store, hab, this]

theorem lookup_tshape_lt {base : List (Nat × Obj)} {d q : Nat} {top : List (Nat × Obj)}
    (R : input_title_t) (h : Desc d top) (hq : q < d) :
    lookup q (tshape base d top R) = lookup q base := by
  induction top with
  | nil =>
    have : q ≠ d := Nat.ne_of_lt hq
    simp [tshape, lookup, this]
  | cons x top ih =>
    obtain ⟨b, w⟩ := x
    have hqb : q ≠ b := by have := h.1; omega
    have := ih h.2.2
    simp only [tshape] at this ⊢
    simp [lookup, hqb, this]

theorem extends_tshape (base : List (Nat × Obj)) {top : List (Nat × Obj)}
    (R : input_title_t) (h : Desc (fresh base) top) :
    Extends base (tshape base (fresh base) top R) := by
  intro q w hq
  rw [lookup_tshape_lt R h (lookup_lt_fresh hq)]
  exact hq

theorem malloc_tshape (o : Nat → Bool) (base : List (Nat × Obj)) (d : Nat)
    (top : List (Nat × Obj)) (R : input_title_t) (k : Nat) (x : Obj) (hd : Desc d top) :
    ∃ p, malloc o x { objs := tshape base d top R, reqs := k } =
        (p, { objs := tshape base d (pushOpt p x top) R, reqs := k + 1 }) ∧
      (p = none ↔ o k = false) ∧ Desc d (pushOpt p x top) := by
  cases h : o k
  · exact ⟨none, by simp [malloc, h, pushOpt], by simp, hd⟩
  · refine ⟨some (fresh (tshape base d top R)), by simp [malloc, h, pushOpt, tshape],
      by simp, ?_⟩
    refine ⟨?_, ?_, hd⟩
    · exact mem_lt_fresh (e := (d, Obj.title R)) (by simp [tshape])
    · intro e he
      exact mem_lt_fresh (by simp [tshape, he])

theorem setTitle_tshape {base : List (Nat × Obj)} {d : Nat} {top : List (Nat × Obj)}
    (R : input_title_t) (g : input_title_t → input_title_t) (k : Nat) (h : Desc d top) :
    setTitle d g { objs := tshape base d top R, reqs := k } =
      some { objs := tshape base d top (g R), reqs := k } := by
  simp only [setTitle, modify, lookup_tshape_self R h, store_tshape R _ h]
  rfl

theorem readTitle_tshape {base : List (Nat × Obj)} {d : Nat} {top : List (Nat × Obj)}
    (R : input_title_t) (k : Nat) (h : Desc d top) :
    readTitle { objs := tshape base d top R, reqs := k } (some d) = some R := by
  simp [readTitle, lookup_tshape_self R h]

theorem readTitle_mono {m m2 : Mem} (hext : Extends m.objs m2.objs) {p : Ptr}
    {r : input_title_t} (h : readTitle m p = some r) : readTitle m2 p = some r := by
  obtain ⟨q, rfl, hl⟩ := readTitle_some h
  simp [readTitle, hext q _ hl]

theorem readPtrs_mono {m m2 : Mem} (hext : Extends m.objs m2.objs) {p : Ptr}
    {c : List Ptr} (h : readPtrs m p = some c) : readPtrs m2 p = some c := by
  obtain ⟨q, rfl, hl⟩ := readPtrs_some h
  simp [readPtrs, hext q _ hl]

theorem seekpointsAt_mono {m m2 : Mem} (hext : Extends m.objs m2.objs) {cs : List Ptr}
    {vs : List SeekpointVal} (h : seekpointsAt m cs = some vs) :
    seekpointsAt m2 cs = some vs := by
  induction cs generalizing vs with
  | nil => simpa [seekpointsAt] using h
  | cons c cs ih =>
    obtain ⟨v, vs2, rfl, hc, hcs⟩ := seekpointsAt_cons h
    simp [seekpointsAt, seekpointAt_mono hext hc, ih hcs]

theorem vlc_input_title_New_eq (o : Nat → Bool) (m : Mem) :
    vlc_input_title_New o m =
      some (if o m.reqs then
          (some (fresh m.objs),
            { objs := tshape m.objs (fresh m.objs) [] ⟨none, 0, 0, 0, none⟩,
              reqs := m.reqs + 1 })
        else (none, { objs := m.objs, reqs := m.reqs + 1 })) := by
  cases h : o m.reqs <;>
    simp [vlc_input_title_New, malloc, h, setTitle, modify, lookup, store, tshape]


theorem vlc_input_title_Duplicate_unfold (o : Nat → Bool) (t : Ptr) (m : Mem) :
    vlc_input_title_Duplicate o t m =
      (vlc_input_title_New o m).bind (fun x =>
        match x.1 with
        | none => some (none, x.2)
        | some d =>
          (readTitle x.2 t).bind (fun tr =>
            (match tr.psz_name with
              | none => some x.2
              | some _ =>
                (readStr x.2 tr.psz_name).bind (fun name =>
                  setTitle d (fun r => { r with psz_name := (strdup o name x.2).1 })
                    (strdup o name x.2).2)).bind
              (fun m2 => title_dup_tail o t d m2))) := by
  simp only [vlc_input_title_Duplicate, title_dup_tail, Option.bind_eq_bind]
  cases vlc_input_title_New o m with
  | none => rfl
  | some x =>
    obtain ⟨dup, m1⟩ := x
    cases dup with
    | none => rfl
    | some d =>
      simp only [Option.some_bind]
      cases hrt : readTitle m1 t with
      | none => rfl
      | some tr =>
        obtain ⟨pn, len, fl, n, sp⟩ := tr
        cases pn with
        | none => simp only [Option.some_bind, hrt]
        | some q =>
          simp only [Option.some_bind]
          cases readStr m1 (some q) with
          | none => rfl
          | some name => rfl


theorem tshape_store_eq {base : List (Nat × Obj)} {d : Nat} {top : List (Nat × Obj)}
    (R R2 : input_title_t) (h : Desc d top) :
    tshape base d top R2 = store d (Obj.title R2) (tshape base d top R) := by
  rw [store_tshape R _ h]
  rfl

theorem extendsExcept_tshape {base : List (Nat × Obj)} {d : Nat} {top : List (Nat × Obj)}
    (R R2 : input_title_t) (h : Desc d top) :
    ExtendsExcept d (tshape base d top R) (tshape base d top R2) := by
  rw [tshape_store_eq R R2 h]
  exact extendsExcept_store _ _ _

theorem lookup_tshape_ne {base : List (Nat × Obj)} {d a : Nat} {top : List (Nat × Obj)}
    (R R2 : input_title_t) (h : Desc d top) (ha : a ≠ d) :
    lookup a (tshape base d top R2) = lookup a (tshape base d top R) := by
  rw [tshape_store_eq R R2 h, lookup_store_of_ne ha]

theorem lookup_tshape_above {base : List (Nat × Obj)} {arr : Nat} {x : Obj}
    {top : List (Nat × Obj)} (R : input_title_t)
    (h : Desc (fresh base) ((arr, x) :: top)) :
    lookup arr (tshape base (fresh base) top R) = none := by
  obtain ⟨h1, h2, h3⟩ := h
  have hb : lookup arr base = none := lookup_none_of_le (Nat.le_of_lt h1)
  have hne : arr ≠ fresh base := Nat.ne_of_gt h1
  clear h3
  induction top with
  | nil => simp [tshape, lookup, hne, hb]
  | cons e top ih =>
    obtain ⟨b, w⟩ := e
    have hb2 : arr ≠ b := by
      have := h2 (b, w) (by simp)
      simp only at this
      omega
    have := ih (fun e he => h2 e (List.mem_cons_of_mem _ he))
    simp only [tshape] at this ⊢
    simp [lookup, hb2, this]

theorem setTitle_eq {M : Mem} {d : Nat} {R : input_title_t}
    (h : lookup d M.objs = some (Obj.title R)) (g : input_title_t → input_title_t) :
    setTitle d g M = some { objs := store d (Obj.title (g R)) M.objs, reqs := M.reqs } := by
  simp [setTitle, modify, h]

/-- What the tail of `vlc_input_title_Duplicate` does to the new record. -/
theorem title_dup_tail_spec (o : Nat → Bool) (m : Mem) (t : Ptr) (tr : input_title_t)
    (vs : List SeekpointVal) (top1 : List (Nat × Obj)) (qn : Ptr) (k2 : Nat)
    (hT : readTitle m t = some tr) (hS : SourceSeekpoints m tr vs)
    (hd1 : Desc (fresh m.objs) top1) :
    ∃ m1 Rd,
      title_dup_tail o t (fresh m.objs)
        { objs := tshape m.objs (fresh m.objs) top1 ⟨qn, 0, 0, 0, none⟩, reqs := k2 } =
          some (some (fresh m.objs), m1) ∧
      ExtendsExcept (fresh m.objs)
        (tshape m.objs (fresh m.objs) top1 ⟨qn, 0, 0, 0, none⟩) m1.objs ∧
      readTitle m1 (some (fresh m.objs)) = some Rd ∧
      Rd.psz_name = qn ∧ Rd.i_length = tr.i_length ∧ Rd.i_flags = tr.i_flags ∧
      ((Rd.i_seekpoint = 0 ∧ Rd.seekpoint = none ∧ (¬ 0 < tr.i_seekpoint ∨ o k2 = false)) ∨
        (0 < tr.i_seekpoint ∧ o k2 = true ∧ Rd.i_seekpoint = tr.i_seekpoint ∧
          ∃ arr cells, Rd.seekpoint = some arr ∧
            lookup arr (tshape m.objs (fresh m.objs) top1 ⟨qn, 0, 0, 0, none⟩) = none ∧
            lookup arr m1.objs = some (Obj.ptrs cells) ∧
            cells.length = tr.i_seekpoint.toNat ∧
            List.Forall₂ (PartialCopy m1) cells vs ∧
            (∀ c ∈ cells, ∀ p, c = some p →
              lookup p (tshape m.objs (fresh m.objs) top1 ⟨qn, 0, 0, 0, none⟩) = none) ∧
            ((∀ n, o n = true) → seekpointsAt m1 cells = some vs))) := by
  have hread : ∀ (top : List (Nat × Obj)) (R : input_title_t) (k : Nat),
      Desc (fresh m.objs) top →
      readTitle { objs := tshape m.objs (fresh m.objs) top R, reqs := k } t = some tr :=
    fun top R k hd => readTitle_mono (m := m) (extends_tshape m.objs R hd) hT
  simp only [title_dup_tail, hread _ _ _ hd1, Option.bind_eq_bind, Option.some_bind,
    setTitle_tshape _ _ _ hd1]
  by_cases hpos : 0 < tr.i_seekpoint
  · obtain ⟨pa, ea, hpa, hd2⟩ := malloc_tshape o m.objs (fresh m.objs) top1
      ⟨qn, tr.i_length, tr.i_flags, 0, none⟩ k2
      (Obj.ptrs (List.replicate tr.i_seekpoint.toNat none)) hd1
    rw [if_pos hpos]
    simp only [vlc_alloc, ea, setTitle_tshape _ _ _ hd2, Option.some_bind]
    cases pa with
    | none =>
      exact ⟨_, _, rfl, extendsExcept_tshape _ _ hd1, readTitle_tshape _ _ hd1, rfl, rfl, rfl,
        Or.inl ⟨rfl, rfl, Or.inr (hpa.1 rfl)⟩⟩
    | some arr =>
      simp only [pushOpt] at hd2 ⊢
      have hoks : o k2 = true := by
        cases ho : o k2 with
        | true => rfl
        | false => exact absurd (hpa.2 ho) (by simp)
      simp only [SourceSeekpoints, if_pos hpos] at hS
      obtain ⟨tcells, hP, hle, hvs⟩ := hS
      have harrAbove := @lookup_tshape_above m.objs _ _ _
        (⟨qn, 0, 0, 0, none⟩ : input_title_t) hd2
      have hdlt : fresh m.objs < arr := hd2.1
      have hdne : fresh m.objs ≠ arr := Nat.ne_of_lt hdlt
      have htarr : tr.seekpoint ≠ some arr := by
        obtain ⟨ta, hta, hlta⟩ := readPtrs_some hP
        rw [hta]
        have := lookup_lt_fresh hlta
        simp only [ne_eq, Option.some.injEq]
        omega
      have hext06 := extends_tshape m.objs
        (⟨qn, tr.i_length, tr.i_flags, 0, some arr⟩ : input_title_t) hd2
      have harr6 : lookup arr
          (tshape m.objs (fresh m.objs)
            ((arr, Obj.ptrs (List.replicate tr.i_seekpoint.toNat none)) :: top1)
            ⟨qn, tr.i_length, tr.i_flags, 0, some arr⟩) =
          some (Obj.ptrs (List.replicate tr.i_seekpoint.toNat none)) := by
        simp [tshape, lookup]
      have hcons6 : tshape m.objs (fresh m.objs)
            ((arr, Obj.ptrs (List.replicate tr.i_seekpoint.toNat none)) :: top1)
            ⟨qn, tr.i_length, tr.i_flags, 0, some arr⟩ =
          (arr, Obj.ptrs (List.replicate tr.i_seekpoint.toNat none)) ::
            tshape m.objs (fresh m.objs) top1
              ⟨qn, tr.i_length, tr.i_flags, 0, some arr⟩ := rfl
      obtain ⟨M7, cells7, hloop, hext67, harr7, hlen7, _, hfa7, hfr7, hfull7⟩ :=
        title_dup_loop_spec o t (fresh m.objs) arr tr
          ⟨qn, tr.i_length, tr.i_flags, 0, some arr⟩ tcells htarr rfl
          tr.i_seekpoint.toNat 0
          { objs := tshape m.objs (fresh m.objs)
              ((arr, Obj.ptrs (List.replicate tr.i_seekpoint.toNat none)) :: top1)
              ⟨qn, tr.i_length, tr.i_flags, 0, some arr⟩,
            reqs := k2 + 1 }
          (List.replicate tr.i_seekpoint.toNat none) vs
          (hread _ _ _ hd2)
          (readPtrs_mono (m := m) hext06 hP)
          (readTitle_tshape _ _ hd2)
          harr6 (by simp) (by omega)
          (by
            simp only [List.drop_zero]
            exact seekpointsAt_mono (m := m) hext06 hvs)
      simp only [List.length_replicate] at hlen7
      have hsl : (cells7.drop 0).take tr.i_seekpoint.toNat = cells7 := by
        simp only [List.drop_zero]
        exact List.take_of_length_le (by omega)
      rw [hsl] at hfa7 hfr7 hfull7
      have hk6t : ∀ r, lookup arr
          (tshape m.objs (fresh m.objs)
              ((arr, Obj.ptrs (List.replicate tr.i_seekpoint.toNat none)) :: top1)
              ⟨qn, tr.i_length, tr.i_flags, 0, some arr⟩) ≠ some (Obj.title r) := by
        intro r
        rw [harr6]
        simp
      have hT7 : readTitle M7 t = some tr :=
        readTitle_except hext67 hk6t (hread _ _ _ hd2)
      have hd7 : lookup (fresh m.objs) M7.objs =
          some (Obj.title ⟨qn, tr.i_length, tr.i_flags, 0, some arr⟩) :=
        hext67 _ _ hdne (lookup_tshape_self _ hd2)
      simp only [hloop, Option.some_bind, hT7, setTitle_eq hd7]
      have hk7s : ∀ s, lookup (fresh m.objs) M7.objs ≠ some (Obj.str s) := by simp [hd7]
      have hk7p : ∀ r, lookup (fresh m.objs) M7.objs ≠ some (Obj.seekpoint r) := by
        simp [hd7]
      have hext78 : ExtendsExcept (fresh m.objs) M7.objs
          (store (fresh m.objs)
            (Obj.title ⟨qn, tr.i_length, tr.i_flags, tr.i_seekpoint, some arr⟩) M7.objs) :=
        extendsExcept_store _ _ _
      refine ⟨_, ⟨qn, tr.i_length, tr.i_flags, tr.i_seekpoint, some arr⟩, rfl, ?_, ?_,
        rfl, rfl, rfl, Or.inr ⟨hpos, hoks, rfl, arr, cells7, rfl, harrAbove, ?_, hlen7, ?_,
          ?_, ?_⟩⟩
      · intro a w ha hl
        have hane : a ≠ arr := by
          intro e
          rw [e, harrAbove] at hl
          cases hl
        have h6 : lookup a
            (tshape m.objs (fresh m.objs)
              ((arr, Obj.ptrs (List.replicate tr.i_seekpoint.toNat none)) :: top1)
              ⟨qn, tr.i_length, tr.i_flags, 0, some arr⟩) = some w := by
          rw [hcons6, lookup_cons, if_neg hane,
            lookup_tshape_ne ⟨qn, 0, 0, 0, none⟩ _ hd1 ha]
          exact hl
        show lookup a (store _ _ M7.objs) = _
        rw [lookup_store_of_ne ha]
        exact hext67 a w hane h6
      · simp [readTitle, lookup_store_self _ hd7]
      · show lookup arr (store _ _ M7.objs) = _
        rw [lookup_store_of_ne (Ne.symm hdne)]
        exact harr7
      · exact hfa7.imp (fun _ _ h => h.frame (m := M7) hext78 hk7s hk7p)
      · intro c hc p hp
        have h6 := hfr7 c hc p hp
        change lookup p (tshape _ _ _ _) = none at h6
        cases hl : lookup p (tshape m.objs (fresh m.objs) top1 ⟨qn, 0, 0, 0, none⟩) with
        | none => rfl
        | some w =>
          have hpne : p ≠ arr := by
            intro e
            rw [e, harrAbove] at hl
            cases hl
          by_cases hpd : p = fresh m.objs
          · rw [hpd, lookup_tshape_self _ hd2] at h6
            cases h6
          · rw [hcons6, lookup_cons, if_neg hpne,
              lookup_tshape_ne ⟨qn, 0, 0, 0, none⟩ _ hd1 hpd, hl] at h6
            cases h6
      · intro hall
        exact seekpointsAt_except (m := M7) hext78 hk7s hk7p (hfull7 hall)
  · rw [if_neg hpos]
    exact ⟨_, _, rfl, extendsExcept_tshape _ _ hd1, readTitle_tshape _ _ hd1, rfl, rfl, rfl,
      Or.inl ⟨rfl, rfl, Or.inl hpos⟩⟩


theorem title_dup_finish (o : Nat → Bool) (m : Mem) (t : Ptr) (tr : input_title_t)
    (nm : Option (List Nat)) (vs : List SeekpointVal) (top1 : List (Nat × Obj)) (qn : Ptr)
    (k2 : Nat) (hT : readTitle m t = some tr) (hS : SourceSeekpoints m tr vs)
    (hd1 : Desc (fresh m.objs) top1)
    (hq : ∀ q, qn = some q → fresh m.objs < q ∧ ∃ s, nm = some s ∧
      lookup q (tshape m.objs (fresh m.objs) top1 ⟨qn, 0, 0, 0, none⟩) = some (Obj.str s))
    (hallq : (∀ n, o n = true) → qn = none → nm = none)
    (hk2 : k2 = m.reqs + (if tr.psz_name = none then 1 else 2)) :
    ∃ m1 Rd,
      title_dup_tail o t (fresh m.objs)
        { objs := tshape m.objs (fresh m.objs) top1 ⟨qn, 0, 0, 0, none⟩, reqs := k2 } =
          some (some (fresh m.objs), m1) ∧
      Extends m.objs m1.objs ∧
      readTitle m1 (some (fresh m.objs)) = some Rd ∧
      DupRecord o m m1 tr nm vs Rd := by
  obtain ⟨m1, Rd, htail, hext, hRd, hname, hlen, hfl, hseek⟩ :=
    title_dup_tail_spec o m t tr vs top1 qn k2 hT hS hd1
  have hext0 := extends_tshape m.objs (⟨qn, 0, 0, 0, none⟩ : input_title_t) hd1
  have hExt : Extends m.objs m1.objs := by
    intro a w hl
    exact hext a w (ne_fresh_of_lookup hl) (hext0 a w hl)
  have hfreshOf : ∀ p, lookup p (tshape m.objs (fresh m.objs) top1 ⟨qn, 0, 0, 0, none⟩) = none →
      lookup p m.objs = none := by
    intro p hp
    cases hl : lookup p m.objs with
    | none => rfl
    | some w =>
      rw [hext0 p w hl] at hp
      cases hp
  refine ⟨m1, Rd, htail, hExt, hRd, hlen, hfl, ?_, ?_, ?_, ?_⟩
  · rw [hname]
    cases qn with
    | none => exact ⟨none, rfl, Or.inr rfl⟩
    | some q =>
      obtain ⟨hlt, s2, hnm, hlq⟩ := hq q rfl
      have := hext q _ (Nat.ne_of_gt hlt) hlq
      exact ⟨some s2, by simp [optStrAt, readStr, this], Or.inl hnm.symm⟩
  · intro q hqq
    rw [hname] at hqq
    obtain ⟨hlt, _⟩ := hq q hqq
    exact lookup_none_of_le (Nat.le_of_lt hlt)
  · rcases hseek with ⟨h1, h2, h3⟩ | ⟨h1, _, h3, arr, cells, h4, h5, h6, h7, h8, h9, h10⟩
    · left
      rw [← hk2]
      exact ⟨h1, h2, h3⟩
    · right
      exact ⟨h1, h3, arr, cells, h4, hfreshOf _ h5, h6, h7, h8,
        fun c hc p hp => hfreshOf _ (h9 c hc p hp), h10⟩
  · intro hall
    rw [hname]
    cases qn with
    | none =>
      rw [hallq hall rfl]
      rfl
    | some q =>
      obtain ⟨hlt, s2, hnm, hlq⟩ := hq q rfl
      have := hext q _ (Nat.ne_of_gt hlt) hlq
      simp [optStrAt, readStr, this, hnm]

/-- The outcomes of `vlc_input_title_Duplicate` on a readable source title. -/
theorem vlc_input_title_Duplicate_cases (o : Nat → Bool) (m : Mem) (t : Ptr)
    (tr : input_title_t) (nm : Option (List Nat)) (vs : List SeekpointVal)
    (hT : readTitle m t = some tr) (hN : optStrAt m tr.psz_name = some nm)
    (hS : SourceSeekpoints m tr vs) :
    ∃ r m1, vlc_input_title_Duplicate o t m = some (r, m1) ∧
      (r = none ↔ o m.reqs = false) ∧
      Extends m.objs m1.objs ∧
      (∀ d, r = some d → lookup d m.objs = none ∧
        ∃ Rd, readTitle m1 r = some Rd ∧ DupRecord o m m1 tr nm vs Rd) := by
  rw [vlc_input_title_Duplicate_unfold, vlc_input_title_New_eq]
  cases ho : o m.reqs
  · exact ⟨none, _, rfl, by simp, Extends.refl _, by simp⟩
  · have hd0 : Desc (fresh m.objs) [] := trivial
    have hread : readTitle
        { objs := tshape m.objs (fresh m.objs) [] ⟨none, 0, 0, 0, none⟩, reqs := m.reqs + 1 }
        t = some tr :=
      readTitle_mono (m := m) (extends_tshape m.objs _ hd0) hT
    simp only [if_true, Option.some_bind, hread]
    cases nm with
    | none =>
      have hpn := optStrAt_none hN
      rw [hpn]
      simp only [Option.some_bind]
      obtain ⟨m1, Rd, htail, hExt, hRd, hrec⟩ :=
        title_dup_finish o m t tr none vs [] none (m.reqs + 1) hT hS hd0
          (by intro q hq; cases hq) (fun _ _ => rfl) (by simp [hpn])
      exact ⟨some (fresh m.objs), m1, htail, by simp, hExt,
        fun d hd => ⟨by
          simp only [Option.some.injEq] at hd
          rw [← hd]
          exact lookup_fresh _, Rd, hRd, hrec⟩⟩
    | some s =>
      obtain ⟨q, hpq, hlq⟩ := optStrAt_some hN
      have hrs : readStr
          { objs := tshape m.objs (fresh m.objs) [] ⟨none, 0, 0, 0, none⟩,
            reqs := m.reqs + 1 } (some q) = some s := by
        have := extends_tshape m.objs (⟨none, 0, 0, 0, none⟩ : input_title_t) hd0 q _ hlq
        simp [readStr, this]
      obtain ⟨qn, eqn, hqn, hd1⟩ := malloc_tshape o m.objs (fresh m.objs) []
        ⟨none, 0, 0, 0, none⟩ (m.reqs + 1) (Obj.str s) hd0
      rw [hpq]
      simp only [hrs, Option.some_bind, strdup, eqn, setTitle_tshape _ _ _ hd1]
      obtain ⟨m1, Rd, htail, hExt, hRd, hrec⟩ :=
        title_dup_finish o m t tr (some s) vs (pushOpt qn (Obj.str s) []) qn (m.reqs + 1 + 1)
          hT hS hd1
          (by
            intro q2 hq2
            subst hq2
            refine ⟨hd1.1, s, rfl, ?_⟩
            simp [pushOpt, tshape, lookup])
          (by
            intro hall hnone
            have := hqn.1 hnone
            rw [hall] at this
            cases this)
          (by simp [hpq])
      exact ⟨some (fresh m.objs), m1, htail, by simp, hExt,
        fun d hd => ⟨by
          simp only [Option.some.injEq] at hd
          rw [← hd]
          exact lookup_fresh _, Rd, hRd, hrec⟩⟩


/-! ## C4 and C6: `vlc_input_title_Duplicate` -/

theorem titleAt_some {m : Mem} {p : Ptr} {v : TitleVal} (h : titleAt m p = some v) :
    ∃ r, readTitle m p = some r ∧ optStrAt m r.psz_name = some v.name ∧
      r.i_length = v.length ∧ r.i_flags = v.flags ∧ 0 ≤ r.i_seekpoint ∧
      SourceSeekpoints m r v.seekpoints := by
  simp only [titleAt] at h
  cases hR : readTitle m p with
  | none => simp [hR] at h
  | some r =>
    cases hn : optStrAt m r.psz_name with
    | none => simp [hR, hn] at h
    | some n =>
      simp only [hR, hn, Option.bind_eq_bind, Option.some_bind] at h
      by_cases hneg : r.i_seekpoint < 0
      · simp [hneg] at h
      · by_cases hz : r.i_seekpoint = 0
        · simp [hz] at h
          subst h
          exact ⟨r, rfl, hn, rfl, rfl, by omega, by simp [SourceSeekpoints, hz]⟩
        · simp only [hneg, hz, if_false] at h
          cases hc : readPtrs m r.seekpoint with
          | none => simp [hc] at h
          | some cells =>
            simp only [hc, Option.some_bind] at h
            by_cases hlt : cells.length < r.i_seekpoint.toNat
            · simp [hlt] at h
            · simp only [hlt, if_false] at h
              cases hs : seekpointsAt m (cells.take r.i_seekpoint.toNat) with
              | none => simp [hs] at h
              | some vs =>
                simp [hs] at h
                subst h
                have hpos : 0 < r.i_seekpoint := by omega
                exact ⟨r, rfl, hn, rfl, rfl, by omega,
                  by
                    simp only [SourceSeekpoints, if_pos hpos]
                    exact ⟨cells, hc, by omega, hs⟩⟩

theorem titleAt_of {m : Mem} {p : Ptr} {r : input_title_t} {n : Option (List Nat)}
    {vs : List SeekpointVal} (hR : readTitle m p = some r)
    (hn : optStrAt m r.psz_name = some n) (h0 : 0 ≤ r.i_seekpoint)
    (hS : SourceSeekpoints m r vs) :
    titleAt m p = some ⟨n, r.i_length, r.i_flags, vs⟩ := by
  have hneg : ¬ r.i_seekpoint < 0 := by omega
  simp only [titleAt, hR, hn, Option.bind_eq_bind, Option.some_bind, hneg, if_false]
  by_cases hz : r.i_seekpoint = 0
  · have : ¬ 0 < r.i_seekpoint := by omega
    simp only [SourceSeekpoints, this, if_false] at hS
    subst hS
    simp [hz]
  · have hpos : 0 < r.i_seekpoint := by omega
    simp only [SourceSeekpoints, if_pos hpos] at hS
    obtain ⟨cells, hc, hle, hs⟩ := hS
    have hlt : ¬ cells.length < r.i_seekpoint.toNat := by omega
    simp only [hz, if_false, hc, Option.some_bind, hlt, hs]
    rfl

theorem SourceSeekpoints.mono {m m2 : Mem} (hext : Extends m.objs m2.objs)
    {r : input_title_t} {vs : List SeekpointVal} (h : SourceSeekpoints m r vs) :
    SourceSeekpoints m2 r vs := by
  simp only [SourceSeekpoints] at h ⊢
  by_cases hpos : 0 < r.i_seekpoint
  · simp only [if_pos hpos] at h ⊢
    obtain ⟨cells, hc, hle, hs⟩ := h
    exact ⟨cells, readPtrs_mono hext hc, hle, seekpointsAt_mono hext hs⟩
  · simp only [if_neg hpos] at h ⊢
    exact h

theorem titleAt_mono {m m2 : Mem} (hext : Extends m.objs m2.objs) {p : Ptr} {v : TitleVal}
    (h : titleAt m p = some v) : titleAt m2 p = some v := by
  obtain ⟨r, hR, hn, hl, hf, h0, hS⟩ := titleAt_some h
  have := titleAt_of (readTitle_mono hext hR) (optStrAt_mono hext hn) h0 (hS.mono hext)
  rw [this, hl, hf]

/-- C6: for every well-formed title, when every allocation succeeds,
`vlc_input_title_Duplicate` returns a non-null title, not live before, with the
same name (unset iff the source name is unset), the same length, the same flags
and a seekpoint sequence of the same length whose elements have, in order, the
same names and time offsets.  The source keeps its value. -/
theorem vlc_input_title_Duplicate_copies (o : Nat → Bool) (m : Mem) (t : Ptr) (v : TitleVal)
    (hall : ∀ k, o k = true) (hv : titleAt m t = some v) :
    ∃ d m1, vlc_input_title_Duplicate o t m = some (some d, m1) ∧
      lookup d m.objs = none ∧
      titleAt m1 (some d) = some v ∧ titleAt m1 t = some v := by
  obtain ⟨tr, hT, hN, hl, hf, h0, hS⟩ := titleAt_some hv
  obtain ⟨r, m1, hdup, hiff, hext, hsome⟩ :=
    vlc_input_title_Duplicate_cases o m t tr v.name v.seekpoints hT hN hS
  have hr : r ≠ none := by
    intro hnone
    have := hiff.1 hnone
    rw [hall] at this
    cases this
  obtain ⟨d, rfl⟩ := Option.ne_none_iff_exists'.1 hr
  obtain ⟨hfresh, Rd, hRd, hlen, hfl, _, _, hseek, hname⟩ := hsome d rfl
  refine ⟨d, m1, hdup, hfresh, ?_, titleAt_mono hext hv⟩
  have hS2 : 0 ≤ Rd.i_seekpoint ∧ SourceSeekpoints m1 Rd v.seekpoints := by
    rcases hseek with ⟨h1, _, h3⟩ | ⟨h1, h2, arr, cells, h4, _, h6, h7, _, _, h10⟩
    · have hnp : ¬ 0 < tr.i_seekpoint := by
        rcases h3 with h3 | h3
        · exact h3
        · rw [hall] at h3
          cases h3
      simp only [SourceSeekpoints, if_neg hnp] at hS
      refine ⟨by omega, ?_⟩
      have : ¬ 0 < Rd.i_seekpoint := by omega
      simp only [SourceSeekpoints, if_neg this]
      exact hS
    · refine ⟨by omega, ?_⟩
      have hpos : 0 < Rd.i_seekpoint := by omega
      simp only [SourceSeekpoints, if_pos hpos]
      refine ⟨cells, by simp [readPtrs, h4, h6], by rw [h2]; omega, ?_⟩
      rw [h2, List.take_of_length_le (by omega)]
      exact h10 hall
  have := titleAt_of hRd (hname hall) hS2.1 hS2.2
  rw [this, hlen, hfl, hl, hf]

/-- Witness for C6: the example title, duplicated while every allocation
succeeds. -/
theorem vlc_input_title_Duplicate_copies_witness :
    titleAt exTitleMem (some 1) = some exTitleVal ∧
    ∃ d m1, vlc_input_title_Duplicate allOk (some 1) exTitleMem = some (some d, m1) ∧
      lookup d exTitleMem.objs = none ∧
      titleAt m1 (some d) = some exTitleVal ∧ titleAt m1 (some 1) = some exTitleVal :=
  ⟨by decide,
    vlc_input_title_Duplicate_copies allOk exTitleMem (some 1) exTitleVal (fun _ => rfl)
      (by decide)⟩

/-- C4, as stated, fails: duplicating the example title while only the record
allocation succeeds returns a non-null title without the name and without the
seekpoint list; and while only the first three allocations succeed it returns a
non-null title whose single seekpoint entry is `NULL`. -/
theorem vlc_input_title_Duplicate_incomplete :
    titleAt exTitleMem (some 1) = some exTitleVal ∧
    (vlc_input_title_Duplicate onlyFirst (some 1) exTitleMem = some (some 6, exTitleDupMem1) ∧
      titleAt exTitleDupMem1 (some 6) = some ⟨none, 100, 1, []⟩ ∧
      titleAt exTitleDupMem1 (some 6) ≠ some exTitleVal) ∧
    (vlc_input_title_Duplicate firstThree (some 1) exTitleMem =
        some (some 6, exTitleDupMem3) ∧
      readTitle exTitleDupMem3 (some 6) = some ⟨some 7, 100, 1, 1, some 8⟩ ∧
      readPtrs exTitleDupMem3 (some 8) = some [none] ∧
      titleAt exTitleDupMem3 (some 6) ≠ some exTitleVal) := by
  refine ⟨by decide, ⟨by decide, by decide, by decide⟩, ⟨by decide, by decide, by decide,
    by decide⟩⟩

/-- C4, amended: for every well-formed title and every pattern of allocation
success and failure, `vlc_input_title_Duplicate` always returns; it returns NULL
exactly when the record allocation fails; otherwise it returns a title, not live
before, with the same length and flags, whose name is the source name or unset,
and whose seekpoint list is either dropped (count 0 and no array) or has the
source count, each non-NULL entry being a seekpoint with the source time offset
and the source name or no name (`DupRecord`).  The source keeps its value. -/
theorem vlc_input_title_Duplicate_result (o : Nat → Bool) (m : Mem) (t : Ptr) (v : TitleVal)
    (hv : titleAt m t = some v) :
    ∃ r m1 tr, vlc_input_title_Duplicate o t m = some (r, m1) ∧
      readTitle m t = some tr ∧
      (r = none ↔ o m.reqs = false) ∧
      (∀ d, r = some d → lookup d m.objs = none ∧
        ∃ Rd, readTitle m1 r = some Rd ∧ DupRecord o m m1 tr v.name v.seekpoints Rd) ∧
      titleAt m1 t = some v := by
  obtain ⟨tr, hT, hN, _, _, _, hS⟩ := titleAt_some hv
  obtain ⟨r, m1, hdup, hiff, hext, hsome⟩ :=
    vlc_input_title_Duplicate_cases o m t tr v.name v.seekpoints hT hN hS
  exact ⟨r, m1, tr, hdup, hT, hiff, hsome, titleAt_mono hext hv⟩

/-- Witness for C4 amended: the example title, duplicated while only the first
three allocations succeed. -/
theorem vlc_input_title_Duplicate_result_witness :
    titleAt exTitleMem (some 1) = some exTitleVal ∧
    ∃ r m1 tr, vlc_input_title_Duplicate firstThree (some 1) exTitleMem = some (r, m1) ∧
      readTitle exTitleMem (some 1) = some tr ∧
      (r = none ↔ firstThree exTitleMem.reqs = false) ∧
      (∀ d, r = some d → lookup d exTitleMem.objs = none ∧
        ∃ Rd, readTitle m1 r = some Rd ∧
          DupRecord firstThree exTitleMem m1 tr exTitleVal.name exTitleVal.seekpoints Rd) ∧
      titleAt m1 (some 1) = some exTitleVal :=
  ⟨by decide,
    vlc_input_title_Duplicate_result firstThree exTitleMem (some 1) exTitleVal (by decide)⟩

/-! ## C11: recycling and deferred reset of the audio slot -/

/-- C11: in every state of the audio slot reached by a sequence of get, put and
reset operations in which the output is Held by exactly one holder, so that the
next put brings the count to zero: (1) when no reset is pending, that put leaves
the slot Idle with the same output, and the next get succeeds whether or not a
device could be created, returns the slot to Held with count 1 and constructs
nothing (`created` is unchanged); (2) a reset issued now is deferred, the slot
staying Held with the same count and output, and the put that follows it
destroys the slot, after which a get that returns a handle has constructed a new
output; (3) the same holds when a reset is already pending. -/
theorem pool_put_recycles (ops : List PoolOp) (s : Slot)
    (hrun : poolRun Slot.init ops = some s) (hnt : PoolOp.terminate ∉ ops)
    (hheld : s.phase = Phase.Held) (hone : s.refcount = 1) :
    (s.stale = false → ∃ s1, input_resource_PutAout s = some s1 ∧
      s1.phase = Phase.Idle ∧ s1.refcount = 0 ∧ s1.created = s.created ∧
      ∀ ok, (input_resource_GetAout ok s1).1 = true ∧
        (input_resource_GetAout ok s1).2.phase = Phase.Held ∧
        (input_resource_GetAout ok s1).2.refcount = 1 ∧
        (input_resource_GetAout ok s1).2.created = s.created) ∧
    ((input_resource_ResetAout s).phase = Phase.Held ∧
      (input_resource_ResetAout s).refcount = 1 ∧
      (input_resource_ResetAout s).created = s.created ∧
      ∃ s2, input_resource_PutAout (input_resource_ResetAout s) = some s2 ∧
        s2.phase = Phase.Destroyed ∧ s2.refcount = 0 ∧
        ∀ ok, (input_resource_GetAout ok s2).1 = true →
          (input_resource_GetAout ok s2).2.created = s.created + 1) ∧
    (s.stale = true → ∃ s2, input_resource_PutAout s = some s2 ∧
      s2.phase = Phase.Destroyed ∧ s2.refcount = 0 ∧
      ∀ ok, (input_resource_GetAout ok s2).1 = true →
        (input_resource_GetAout ok s2).2.created = s.created + 1) := by
  obtain ⟨_, _, _, hdr, _⟩ := poolRun_inv ops s hrun
  have hd : s.draining = false := by
    cases h : s.draining with
    | false => rfl
    | true => exact absurd (hdr h) hnt
  obtain ⟨ph, rc, st, dr, cr⟩ := s
  simp only at hheld hone hd
  subst hheld hone hd
  refine ⟨?_, ?_, ?_⟩
  · intro hst
    simp only at hst
    subst hst
    refine ⟨⟨Phase.Idle, 0, false, false, cr⟩, by simp [input_resource_PutAout], rfl, rfl,
      rfl, ?_⟩
    intro ok
    simp [input_resource_GetAout]
  · refine ⟨rfl, rfl, rfl, ⟨Phase.Destroyed, 0, false, false, cr⟩,
      by simp [input_resource_PutAout, input_resource_ResetAout], rfl, rfl, ?_⟩
    intro ok
    cases ok <;> simp [input_resource_GetAout]
  · intro hst
    simp only at hst
    subst hst
    refine ⟨⟨Phase.Destroyed, 0, false, false, cr⟩, by simp [input_resource_PutAout], rfl,
      rfl, ?_⟩
    intro ok
    cases ok <;> simp [input_resource_GetAout]

/-- Witness for C11: the slot after one successful get. -/
theorem pool_put_recycles_witness :
    poolRun Slot.init [PoolOp.hold true] = some exHeldSlot ∧
    PoolOp.terminate ∉ [PoolOp.hold true] ∧
    exHeldSlot.phase = Phase.Held ∧ exHeldSlot.refcount = 1 ∧
    (exHeldSlot.stale = false → ∃ s1, input_resource_PutAout exHeldSlot = some s1 ∧
      s1.phase = Phase.Idle ∧ s1.refcount = 0 ∧ s1.created = exHeldSlot.created ∧
      ∀ ok, (input_resource_GetAout ok s1).1 = true ∧
        (input_resource_GetAout ok s1).2.phase = Phase.Held ∧
        (input_resource_GetAout ok s1).2.refcount = 1 ∧
        (input_resource_GetAout ok s1).2.created = exHeldSlot.created) ∧
    ((input_resource_ResetAout exHeldSlot).phase = Phase.Held ∧
      (input_resource_ResetAout exHeldSlot).refcount = 1 ∧
      (input_resource_ResetAout exHeldSlot).created = exHeldSlot.created ∧
      ∃ s2, input_resource_PutAout (input_resource_ResetAout exHeldSlot) = some s2 ∧
        s2.phase = Phase.Destroyed ∧ s2.refcount = 0 ∧
        ∀ ok, (input_resource_GetAout ok s2).1 = true →
          (input_resource_GetAout ok s2).2.created = exHeldSlot.created + 1) ∧
    (exHeldSlot.stale = true → ∃ s2, input_resource_PutAout exHeldSlot = some s2 ∧
      s2.phase = Phase.Destroyed ∧ s2.refcount = 0 ∧
      ∀ ok, (input_resource_GetAout ok s2).1 = true →
        (input_resource_GetAout ok s2).2.created = exHeldSlot.created + 1) :=
  ⟨by decide, by decide, by decide, by decide,
    pool_put_recycles [PoolOp.hold true] exHeldSlot (by decide) (by decide) (by decide)
      (by decide)⟩

/-! ## C13: NULL strings handed to `vlc_input_attachment_New` -/

theorem strArg_of_optStrAt {m : Mem} {p : Ptr} {n : Option (List Nat)}
    (h : optStrAt m p = some n) : strArg m p = some (n.getD []) := by
  cases p with
  | none =>
    simp only [optStrAt, Option.some.injEq] at h
    subst h
    rfl
  | some q =>
    simp only [optStrAt] at h
    cases hs : readStr m (some q) with
    | none => simp [hs] at h
    | some s =>
      simp only [hs, Option.map_some', Option.some.injEq] at h
      subst h
      simpa [strArg] using hs

/-- C13: for all arguments of `vlc_input_attachment_New` whose name, mime and
description are each `NULL` or a readable string (`optStrAt`), a successful
construction returns a record whose three string fields are non-null and hold
the empty string for a `NULL` argument and the argument's string otherwise
(`Option.getD s []`).  `vlc_input_attachment_Duplicate` of a record holding the
same fields returns the same result, so its strings are non-null as well. -/
theorem vlc_input_attachment_New_null_strings (o : Nat → Bool) (m : Mem)
    (psz_name psz_mime psz_description p_data : Ptr) (i_data : Nat)
    (n mi de : Option (List Nat)) (pl : List Nat)
    (hn : optStrAt m psz_name = some n) (hm : optStrAt m psz_mime = some mi)
    (hd : optStrAt m psz_description = some de)
    (hp : payloadAt m ⟨psz_name, psz_mime, psz_description, i_data, p_data⟩ = some pl) :
    ∃ r m1, vlc_input_attachment_New o psz_name psz_mime psz_description p_data i_data m =
        some (r, m1) ∧
      (∀ src, readAttachment m src =
          some ⟨psz_name, psz_mime, psz_description, i_data, p_data⟩ →
        vlc_input_attachment_Duplicate o src m = some (r, m1)) ∧
      (∀ a, r = some a → ∃ R qn qm qd, readAttachment m1 (some a) = some R ∧
        R.psz_name = some qn ∧ R.psz_mime = some qm ∧ R.psz_description = some qd ∧
        readStr m1 (some qn) = some (n.getD []) ∧
        readStr m1 (some qm) = some (mi.getD []) ∧
        readStr m1 (some qd) = some (de.getD [])) := by
  obtain ⟨r, m1, heq, _, _, hsome⟩ :=
    vlc_input_attachment_New_cases o m psz_name psz_mime psz_description p_data i_data
      (n.getD []) (mi.getD []) (de.getD []) pl
      (strArg_of_optStrAt hn) (strArg_of_optStrAt hm) (strArg_of_optStrAt hd) hp
  refine ⟨r, m1, heq, ?_, ?_⟩
  · intro src hsrc
    simp only [vlc_input_attachment_Duplicate, hsrc, Option.bind_eq_bind, Option.some_bind]
    exact heq
  · intro a ha
    obtain ⟨rfl, qn, qm, qd, pd, hpd, hdesc, rfl⟩ := hsome a ha
    have hval := attachmentAt_shape m.objs (fresh m.objs) (m.reqs + 5) i_data qn qm qd pd
      (n.getD []) (mi.getD []) (de.getD []) pl hdesc hpd (payloadAt_length hp)
    obtain ⟨R, hR, h1, h2, h3, _⟩ := attachmentAt_some hval
    have hR2 := @readAttachment_shape m.objs _ _
      ⟨some qn, some qm, some qd, i_data, pd⟩ (m.reqs + 5) hdesc
    rw [hR2] at hR
    cases hR
    exact ⟨_, qn, qm, qd, hR2, rfl, rfl, rfl, h1, h2, h3⟩

/-- Witness for C13: construction with a `NULL` name, the mime string "m" of
the example memory, a `NULL` description and no payload. -/
theorem vlc_input_attachment_New_null_strings_witness :
    optStrAt exAttMem none = some none ∧
    optStrAt exAttMem (some 3) = some (some [109]) ∧
    payloadAt exAttMem ⟨none, some 3, none, 0, none⟩ = some [] ∧
    ∃ r m1, vlc_input_attachment_New allOk none (some 3) none none 0 exAttMem =
        some (r, m1) ∧
      (∀ src, readAttachment exAttMem src = some ⟨none, some 3, none, 0, none⟩ →
        vlc_input_attachment_Duplicate allOk src exAttMem = some (r, m1)) ∧
      (∀ a, r = some a → ∃ R qn qm qd, readAttachment m1 (some a) = some R ∧
        R.psz_name = some qn ∧ R.psz_mime = some qm ∧ R.psz_description = some qd ∧
        readStr m1 (some qn) = some [] ∧
        readStr m1 (some qm) = some [109] ∧
        readStr m1 (some qd) = some []) :=
  ⟨by decide, by decide, by decide,
    vlc_input_attachment_New_null_strings allOk exAttMem none (some 3) none none 0
      none (some [109]) none [] (by decide) (by decide) (by decide) (by decide)⟩

/-! ## C14: `vlc_input_title_Duplicate` on a title without seekpoints -/

/-- C14: `vlc_input_title_Duplicate` returns for every title record with a
readable name whose seekpoint array is required to be readable only when the
seekpoint count is positive: with a count `<= 0` nothing is assumed of the
`seekpoint` field, which may dangle, so the array is not read.  A non-null
result has seekpoint count 0 or the source count, and when the source count is
`<= 0` it has count exactly 0 and no seekpoint array. -/
theorem vlc_input_title_Duplicate_count (o : Nat → Bool) (m : Mem) (t : Ptr)
    (tr : input_title_t) (nm : Option (List Nat))
    (hT : readTitle m t = some tr) (hN : optStrAt m tr.psz_name = some nm)
    (hS : 0 < tr.i_seekpoint → ∃ tcells vs, readPtrs m tr.seekpoint = some tcells ∧
      tr.i_seekpoint.toNat ≤ tcells.length ∧
      seekpointsAt m (tcells.take tr.i_seekpoint.toNat) = some vs) :
    ∃ r m1, vlc_input_title_Duplicate o t m = some (r, m1) ∧
      (r = none ↔ o m.reqs = false) ∧
      (∀ d, r = some d → ∃ Rd, readTitle m1 (some d) = some Rd ∧
        (Rd.i_seekpoint = 0 ∨ Rd.i_seekpoint = tr.i_seekpoint) ∧
        (tr.i_seekpoint ≤ 0 → Rd.i_seekpoint = 0 ∧ Rd.seekpoint = none)) := by
  have hex : ∃ vs, SourceSeekpoints m tr vs := by
    by_cases hpos : 0 < tr.i_seekpoint
    · obtain ⟨tcells, vs, h1, h2, h3⟩ := hS hpos
      refine ⟨vs, ?_⟩
      unfold SourceSeekpoints
      rw [if_pos hpos]
      exact ⟨tcells, h1, h2, h3⟩
    · refine ⟨[], ?_⟩
      unfold SourceSeekpoints
      rw [if_neg hpos]
  obtain ⟨vs, hvs⟩ := hex
  obtain ⟨r, m1, hdup, hiff, _, hsome⟩ :=
    vlc_input_title_Duplicate_cases o m t tr nm vs hT hN hvs
  refine ⟨r, m1, hdup, hiff, ?_⟩
  intro d hd
  obtain ⟨_, Rd, hRd, _, _, _, _, hcnt, _⟩ := hsome d hd
  subst hd
  refine ⟨Rd, hRd, ?_, ?_⟩
  · rcases hcnt with ⟨h0, _, _⟩ | ⟨_, heq, _⟩
    · exact Or.inl h0
    · exact Or.inr heq
  · intro hle
    rcases hcnt with ⟨h0, h1, _⟩ | ⟨hpos, _, _⟩
    · exact ⟨h0, h1⟩
    · omega

/-- Witness for C14: the title of `exTitleNegMem`, with count -3 and a
dangling seekpoint array, duplicated while every allocation succeeds. -/
theorem vlc_input_title_Duplicate_count_witness :
    readTitle exTitleNegMem (some 1) = some ⟨some 2, 100, 1, -3, some 99⟩ ∧
    optStrAt exTitleNegMem (some 2) = some (some [116]) ∧
    readPtrs exTitleNegMem (some 99) = none ∧
    ∃ r m1, vlc_input_title_Duplicate allOk (some 1) exTitleNegMem = some (r, m1) ∧
      (r = none ↔ allOk exTitleNegMem.reqs = false) ∧
      (∀ d, r = some d → ∃ Rd, readTitle m1 (some d) = some Rd ∧
        (Rd.i_seekpoint = 0 ∨ Rd.i_seekpoint = -3) ∧
        ((-3 : Int) ≤ 0 → Rd.i_seekpoint = 0 ∧ Rd.seekpoint = none)) :=
  ⟨by decide, by decide, by decide,
    vlc_input_title_Duplicate_count allOk exTitleNegMem (some 1)
      ⟨some 2, 100, 1, -3, some 99⟩ (some [116]) (by decide) (by decide)
      (fun h => absurd h (by decide))⟩

/-! ## Allocation accounting: lemmas -/

theorem lookup_remove_of_ne {a k : Nat} (h : a ≠ k) (l : List (Nat × Obj)) :
    lookup a (remove k l) = lookup a l := by
  induction l with
  | nil => rfl
  | cons e l ih =>
    obtain ⟨b, w⟩ := e
    by_cases hk : k = b
    · subst hk
      simp [remove, lookup, h]
    · by_cases hab : a = b
      · simp [remove, lookup, hk, hab]
      · simp [remove, lookup, hk, hab, ih]

theorem length_remove {k : Nat} {l : List (Nat × Obj)} (h : lookup k l ≠ none) :
    (remove k l).length + 1 = l.length := by
  induction l with
  | nil => simp [lookup] at h
  | cons e l ih =>
    obtain ⟨b, w⟩ := e
    by_cases hk : k = b
    · simp [remove, hk]
    · simp only [lookup, if_neg hk] at h
      simp [remove, hk, ih h]

theorem length_store (k : Nat) (v : Obj) (l : List (Nat × Obj)) :
    (store k v l).length = l.length := by
  induction l with
  | nil => rfl
  | cons e l ih =>
    obtain ⟨b, w⟩ := e
    by_cases hk : k = b
    · simp [store, hk]
    · simp [store, hk, ih]

theorem below_cons {f k : Nat} (h : f ≤ k) (v : Obj) (l : List (Nat × Obj)) :
    below f ((k, v) :: l) = below f l := by
  have : ¬ k < f := by omega
  simp [below, List.filter_cons, this]

theorem below_remove {f k : Nat} (h : f ≤ k) (l : List (Nat × Obj)) :
    below f (remove k l) = below f l := by
  induction l with
  | nil => rfl
  | cons e l ih =>
    obtain ⟨b, w⟩ := e
    by_cases hk : k = b
    · subst hk
      simp only [remove, if_true]
      rw [below_cons h]
    · simp only [remove, if_neg hk]
      simp only [below, List.filter_cons] at ih ⊢
      rw [ih]

theorem below_store {f k : Nat} (h : f ≤ k) (v : Obj) (l : List (Nat × Obj)) :
    below f (store k v l) = below f l := by
  induction l with
  | nil => rfl
  | cons e l ih =>
    obtain ⟨b, w⟩ := e
    by_cases hk : k = b
    · subst hk
      simp only [store, if_true]
      rw [below_cons h, below_cons h]
    · simp only [store, if_neg hk]
      simp only [below, List.filter_cons] at ih ⊢
      rw [ih]

theorem below_fresh (l : List (Nat × Obj)) : below (fresh l) l = l := by
  simp only [below, List.filter_eq_self]
  intro e he
  simpa using mem_lt_fresh he

theorem eq_of_below_of_length {f : Nat} {l base : List (Nat × Obj)}
    (h : below f l = base) (hlen : l.length = base.length) : l = base := by
  have hsub : List.Sublist (below f l) l := List.filter_sublist l
  rw [← h]
  exact (hsub.eq_of_length (by rw [h, hlen])).symm

theorem OwnedCell.transport {m m2 : Mem} {lo hi n : Nat} {c : Ptr}
    (hl : ∀ a, lo ≤ a → a < hi → lookup a m2.objs = lookup a m.objs)
    (h : OwnedCell m lo c hi n) : OwnedCell m2 lo c hi n := by
  cases c with
  | none => exact h
  | some p =>
    obtain ⟨h1, h2, r, h3, h4, h5⟩ := h
    refine ⟨h1, h2, r, ?_, ?_, h5⟩
    · rw [hl p h1 h2]
      exact h3
    · intro q hq
      obtain ⟨g1, g2, g3⟩ := h4 q hq
      refine ⟨g1, g2, ?_⟩
      rw [hl q (by omega) g2]
      exact g3

theorem Owned.carry {m m2 : Mem} {cs : List Ptr} :
    ∀ {lo n : Nat}, (∀ a, lo ≤ a → lookup a m2.objs = lookup a m.objs) →
      Owned m lo cs n → Owned m2 lo cs n := by
  induction cs with
  | nil => exact fun _ h => h
  | cons c cs ih =>
    intro lo n hl h
    obtain ⟨hi, n1, n2, h1, h2, h3, h4⟩ := h
    exact ⟨hi, n1, n2, h1, h2.transport (fun a ha _ => hl a ha), h3,
      ih (fun a ha => hl a (by omega)) h4⟩

/-- The call `vlc_seekpoint_Delete` on a cell that owns its allocations frees
exactly these. -/
theorem vlc_seekpoint_Delete_owned {M : Mem} {lo hi n : Nat} {c : Ptr}
    (h : OwnedCell M lo c hi n) :
    ∃ M1, vlc_seekpoint_Delete c M = some M1 ∧ M1.reqs = M.reqs ∧
      M1.objs.length + n = M.objs.length ∧
      (∀ f, f ≤ lo → below f M1.objs = below f M.objs) ∧
      (∀ a, a < lo ∨ hi ≤ a → lookup a M1.objs = lookup a M.objs) := by
  cases c with
  | none =>
    simp only [OwnedCell] at h
    subst h
    exact ⟨M, rfl, rfl, rfl, fun _ _ => rfl, fun _ _ => rfl⟩
  | some p =>
    obtain ⟨h1, h2, r, h3, h4, h5⟩ := h
    obtain ⟨t0, pn⟩ := r
    cases pn with
    | none =>
      simp only [if_true] at h5
      subst h5
      refine ⟨{ objs := remove p M.objs, reqs := M.reqs }, ?_, rfl, ?_, ?_, ?_⟩
      · simp [vlc_seekpoint_Delete, readSeekpoint, h3, free]
      · exact length_remove (by simp [h3])
      · intro f hf
        exact below_remove (by omega) _
      · intro a ha
        exact lookup_remove_of_ne (by omega) _
    | some q =>
      obtain ⟨g1, g2, g3⟩ := h4 q rfl
      simp only [reduceCtorEq, if_false] at h5
      subst h5
      obtain ⟨w, hw⟩ := Option.ne_none_iff_exists'.1 g3
      have hpq : p ≠ q := by omega
      have hp1 : lookup p (remove q M.objs) = some (Obj.seekpoint ⟨t0, some q⟩) := by
        rw [lookup_remove_of_ne hpq]
        exact h3
      refine ⟨{ objs := remove p (remove q M.objs), reqs := M.reqs }, ?_, rfl, ?_, ?_, ?_⟩
      · simp [vlc_seekpoint_Delete, readSeekpoint, h3, free, hw, hp1]
      · have e1 := length_remove (k := q) (l := M.objs) g3
        have e2 := length_remove (k := p) (l := remove q M.objs) (by simp [hp1])
        show (remove p (remove q M.objs)).length + 2 = M.objs.length
        omega
      · intro f hf
        show below f (remove p (remove q M.objs)) = _
        rw [below_remove (by omega), below_remove (by omega)]
      · intro a ha
        show lookup a (remove p (remove q M.objs)) = _
        rw [lookup_remove_of_ne (by omega), lookup_remove_of_ne (by omega)]

/-- The loop of `vlc_input_title_Delete` over cells that own their allocations
frees exactly these. -/
theorem title_delete_loop_owned (d arr : Nat) (Rd : input_title_t) (cells : List Ptr)
    (hseek : Rd.seekpoint = some arr) (f : Nat) :
    ∀ (k i : Nat) (M : Mem) (lo n : Nat),
      lookup d M.objs = some (Obj.title Rd) →
      lookup arr M.objs = some (Obj.ptrs cells) →
      d < lo → arr < lo → f ≤ lo → i + k ≤ cells.length →
      Owned M lo ((cells.drop i).take k) n →
      ∃ M2, title_delete_loop d k i M = some M2 ∧ M2.reqs = M.reqs ∧
        M2.objs.length + n = M.objs.length ∧
        below f M2.objs = below f M.objs ∧
        (∀ a, a < lo → lookup a M2.objs = lookup a M.objs) := by
  intro k
  induction k with
  | zero =>
    intro i M lo n _ _ _ _ _ _ hown
    simp only [List.take_zero, Owned] at hown
    subst hown
    exact ⟨M, rfl, rfl, rfl, rfl, fun _ _ => rfl⟩
  | succ k ih =>
    intro i M lo n hd harr hdlo halo hflo hlen hown
    have hi : i < cells.length := by omega
    have hslice : (cells.drop i).take (k + 1) = cells[i] :: (cells.drop (i + 1)).take k := by
      rw [List.drop_eq_getElem_cons hi, List.take_succ_cons]
    rw [hslice] at hown
    obtain ⟨hi2, n1, n2, hle, hcell, rfl, hrest⟩ := hown
    obtain ⟨M1, hdel, hreq1, hlen1, hbel1, hfr1⟩ := vlc_seekpoint_Delete_owned hcell
    have hd1 : lookup d M1.objs = some (Obj.title Rd) := by
      rw [hfr1 d (Or.inl hdlo)]
      exact hd
    have harr1 : lookup arr M1.objs = some (Obj.ptrs cells) := by
      rw [hfr1 arr (Or.inl halo)]
      exact harr
    obtain ⟨M2, hloop, hreq2, hlen2, hbel2, hfr2⟩ :=
      ih (i + 1) M1 hi2 n2 hd1 harr1 (by omega) (by omega) (by omega) (by omega)
        (hrest.carry (fun a ha => hfr1 a (Or.inr ha)))
    refine ⟨M2, ?_, by rw [hreq2, hreq1], by omega, ?_, ?_⟩
    · simp only [title_delete_loop, readTitle, hd, readPtrs, hseek, harr,
        Option.bind_eq_bind, Option.some_bind, List.get?_eq_getElem?,
        List.getElem?_eq_getElem hi, hdel]
      exact hloop
    · rw [hbel2, hbel1 f hflo]
    · intro a ha
      rw [hfr2 a (by omega), hfr1 a (Or.inl ha)]

theorem free_owned {M : Mem} {p : Ptr} (h : ∀ q, p = some q → lookup q M.objs ≠ none) :
    ∃ M1, free p M = some M1 ∧ M1.reqs = M.reqs ∧
      M1.objs.length + (if p = none then 0 else 1) = M.objs.length ∧
      (∀ f, (∀ q, p = some q → f ≤ q) → below f M1.objs = below f M.objs) ∧
      (∀ a, p ≠ some a → lookup a M1.objs = lookup a M.objs) := by
  cases p with
  | none => exact ⟨M, rfl, rfl, rfl, fun _ _ => rfl, fun _ _ => rfl⟩
  | some q =>
    have hq := h q rfl
    obtain ⟨w, hw⟩ := Option.ne_none_iff_exists'.1 hq
    refine ⟨{ objs := remove q M.objs, reqs := M.reqs }, by simp [free, hw], rfl, ?_, ?_, ?_⟩
    · simp only [reduceCtorEq, if_false]
      exact length_remove hq
    · intro f hf
      exact below_remove (hf q rfl) _
    · intro a ha
      exact lookup_remove_of_ne (fun e => ha (by rw [e])) _

/-- The call `vlc_input_title_Delete` on a title that owns its allocations (its
name, its seekpoint array and the allocations of the cells) frees exactly these
and the record. -/
theorem vlc_input_title_Delete_owned {M : Mem} {d : Nat} {Rd : input_title_t} {n : Nat}
    (hd : lookup d M.objs = some (Obj.title Rd))
    (hname : ∀ q, Rd.psz_name = some q → d < q ∧ lookup q M.objs ≠ none)
    (hseekp : (Rd.i_seekpoint ≤ 0 ∧ Rd.seekpoint = none ∧ n = 0) ∨
      (∃ arr cells lo n1, Rd.seekpoint = some arr ∧ Rd.i_seekpoint.toNat = cells.length ∧
        lookup arr M.objs = some (Obj.ptrs cells) ∧ d < arr ∧ arr < lo ∧
        (∀ q, Rd.psz_name = some q → q < lo ∧ q ≠ arr) ∧
        Owned M lo cells n1 ∧ n = n1 + 1)) :
    ∃ M2, vlc_input_title_Delete (some d) M = some M2 ∧
      below d M2.objs = below d M.objs ∧
      M2.objs.length + (n + 1 + (if Rd.psz_name = none then 0 else 1)) = M.objs.length := by
  obtain ⟨Ma, hfa, _, hlena, hbela, hfra⟩ :=
    free_owned (M := M) (p := Rd.psz_name) (fun q hq => (hname q hq).2)
  have hbela2 : below d Ma.objs = below d M.objs :=
    hbela d (fun q hq => Nat.le_of_lt (hname q hq).1)
  have hda : lookup d Ma.objs = some (Obj.title Rd) := by
    rw [hfra d (fun e => by have := (hname d e).1; omega)]
    exact hd
  rcases hseekp with ⟨hcnt, hnone, rfl⟩ | ⟨arr, cells, lo, n1, hsome, hcnt, harr, hdarr, halo,
      hq, hown, rfl⟩
  · have hz : Rd.i_seekpoint.toNat = 0 := by omega
    refine ⟨{ objs := remove d Ma.objs, reqs := Ma.reqs }, ?_, ?_, ?_⟩
    · simp only [vlc_input_title_Delete, readTitle, hd, Option.bind_eq_bind, Option.some_bind,
        hfa, hda, hz, title_delete_loop, hnone]
      simp [free, hda]
    · show below d (remove d Ma.objs) = _
      rw [below_remove (Nat.le_refl d), hbela2]
    · have := length_remove (k := d) (l := Ma.objs) (by simp [hda])
      show (remove d Ma.objs).length + _ = _
      omega
  · have harra : lookup arr Ma.objs = some (Obj.ptrs cells) := by
      rw [hfra arr (fun e => (hq arr e).2 rfl)]
      exact harr
    have howna : Owned Ma lo cells n1 :=
      hown.carry (fun a ha => hfra a (fun e => by have := (hq a e).1; omega))
    have hsl : (cells.drop 0).take cells.length = cells := by simp
    obtain ⟨Mb, hloop, _, hlenb, hbelb, hfrb⟩ :=
      title_delete_loop_owned d arr Rd cells hsome d cells.length 0 Ma lo n1 hda harra
        (by omega) halo (by omega) (by omega) (by rw [hsl]; exact howna)
    have hdb : lookup d Mb.objs = some (Obj.title Rd) := by
      rw [hfrb d (by omega)]
      exact hda
    have harrb : lookup arr Mb.objs = some (Obj.ptrs cells) := by
      rw [hfrb arr halo]
      exact harra
    have hdc : lookup d (remove arr Mb.objs) = some (Obj.title Rd) := by
      rw [lookup_remove_of_ne (by omega)]
      exact hdb
    refine ⟨{ objs := remove d (remove arr Mb.objs), reqs := Mb.reqs }, ?_, ?_, ?_⟩
    · simp only [vlc_input_title_Delete, readTitle, hd, Option.bind_eq_bind, Option.some_bind,
        hfa, hda, hcnt, hloop, hdb, hsome]
      simp [free, harrb, hdc]
    · show below d (remove d (remove arr Mb.objs)) = _
      rw [below_remove (Nat.le_refl d), below_remove (by omega), hbelb, hbela2]
    · have e1 := length_remove (k := arr) (l := Mb.objs) (by simp [harrb])
      have e2 := length_remove (k := d) (l := remove arr Mb.objs) (by simp [hdc])
      show (remove d (remove arr Mb.objs)).length + _ = _
      omega

/-- The allocations of `vlc_seekpoint_Duplicate` on a well-formed source are
owned by the cell it returns. -/
theorem vlc_seekpoint_Duplicate_owned (o : Nat → Bool) (M : Mem) (src : Ptr)
    (v : SeekpointVal) (h : seekpointAt M src = some v) :
    ∃ p M1 n, vlc_seekpoint_Duplicate o src M = some (p, M1) ∧
      fresh M.objs ≤ fresh M1.objs ∧
      OwnedCell M1 (fresh M.objs) p (fresh M1.objs) n ∧
      M1.objs.length = M.objs.length + n ∧
      (∀ f, f ≤ fresh M.objs → below f M1.objs = below f M.objs) ∧
      (∀ a, a < fresh M.objs → lookup a M1.objs = lookup a M.objs) := by
  rw [vlc_seekpoint_Duplicate_eq o M src v h]
  have hone : ∀ t0 : Int, ∀ k : Nat,
      ∃ p M1 n, (some (fresh M.objs),
          ({ objs := (fresh M.objs, Obj.seekpoint ⟨t0, none⟩) :: M.objs, reqs := k } : Mem)) =
          (p, M1) ∧
        fresh M.objs ≤ fresh M1.objs ∧
        OwnedCell M1 (fresh M.objs) p (fresh M1.objs) n ∧
        M1.objs.length = M.objs.length + n ∧
        (∀ f, f ≤ fresh M.objs → below f M1.objs = below f M.objs) ∧
        (∀ a, a < fresh M.objs → lookup a M1.objs = lookup a M.objs) := by
    intro t0 k
    refine ⟨_, _, 1, rfl, ?_, ?_, rfl, ?_, ?_⟩
    · simp [fresh]
    · refine ⟨Nat.le_refl _, by simp [fresh], ⟨t0, none⟩, by simp [lookup], ?_, rfl⟩
      intro q hq
      cases hq
    · intro f hf
      exact below_cons hf _ _
    · intro a ha
      simp [lookup, Nat.ne_of_lt ha]
  cases ho : o M.reqs
  · refine ⟨none, _, 0, rfl, Nat.le_refl _, rfl, rfl, fun _ _ => rfl, fun _ _ => rfl⟩
  · simp only [if_true]
    cases hvn : v.name with
    | none =>
      obtain ⟨p, M1, n, heq, hrest⟩ := hone v.time_offset (M.reqs + 1)
      exact ⟨p, M1, n, by rw [← heq], hrest⟩
    | some s =>
      cases ho2 : o (M.reqs + 1)
      · obtain ⟨p, M1, n, heq, hrest⟩ := hone v.time_offset (M.reqs + 2)
        refine ⟨p, M1, n, ?_, hrest⟩
        simp only [Bool.false_eq_true, if_false]
        rw [← heq]
      · simp only [if_true]
        refine ⟨_, _, 2, rfl, ?_, ?_, rfl, ?_, ?_⟩
        · simp only [fresh]
          omega
        · refine ⟨Nat.le_refl _, ?_, ⟨v.time_offset, some (fresh M.objs + 1)⟩, ?_, ?_, rfl⟩
          · simp only [fresh]
            omega
          · simp [lookup]
          · intro q hq
            simp only [Option.some.injEq] at hq
            subst hq
            refine ⟨by omega, ?_, by simp [lookup]⟩
            simp only [fresh]
            omega
        · intro f hf
          show below f (_ :: _ :: M.objs) = _
          rw [below_cons (by omega), below_cons hf]
        · intro a ha
          have h1 : a ≠ fresh M.objs + 1 := by omega
          have h2 : a ≠ fresh M.objs := by omega
          simp [lookup, h1, h2]

/-- The allocations of the seekpoint loop of `vlc_input_title_Duplicate` are
owned by the cells it fills. -/
theorem title_dup_loop_owned (o : Nat → Bool) (t : Ptr) (dup arr : Nat)
    (tr dr : input_title_t) (tcells : List Ptr) (htarr : tr.seekpoint ≠ some arr)
    (hdarr : dr.seekpoint = some arr) (f : Nat) (hfarr : f ≤ arr) :
    ∀ (k i : Nat) (M : Mem) (cells : List Ptr) (vs : List SeekpointVal),
      readTitle M t = some tr → readPtrs M tr.seekpoint = some tcells →
      readTitle M (some dup) = some dr →
      lookup arr M.objs = some (Obj.ptrs cells) →
      i + k ≤ cells.length → i + k ≤ tcells.length →
      seekpointsAt M ((tcells.drop i).take k) = some vs →
      f ≤ fresh M.objs →
      ∃ M2 cells2 n, title_dup_loop o t dup k i M = some M2 ∧
        lookup arr M2.objs = some (Obj.ptrs cells2) ∧ cells2.length = cells.length ∧
        cells2.take i = cells.take i ∧
        Owned M2 (fresh M.objs) ((cells2.drop i).take k) n ∧
        M2.objs.length = M.objs.length + n ∧
        below f M2.objs = below f M.objs ∧
        (∀ a, a < fresh M.objs → a ≠ arr → lookup a M2.objs = lookup a M.objs) := by
  intro k
  induction k with
  | zero =>
    intro i M cells vs _ _ _ harr _ _ _ _
    exact ⟨M, cells, 0, rfl, harr, rfl, rfl, by simp [Owned], rfl, rfl, fun _ _ _ => rfl⟩
  | succ k ih =>
    intro i M cells vs hT hP hD harr hlen htlen hvs hfM
    have hi : i < cells.length := by omega
    have hti : i < tcells.length := by omega
    have hslice : (tcells.drop i).take (k + 1) = tcells[i] :: (tcells.drop (i + 1)).take k := by
      rw [List.drop_eq_getElem_cons hti, List.take_succ_cons]
    rw [hslice] at hvs
    obtain ⟨v, vs2, rfl, hv, hvs2⟩ := seekpointsAt_cons hvs
    obtain ⟨p, M1, n1, hdupl, hfr01, hcell, hlen1, hbel1, hlk1⟩ :=
      vlc_seekpoint_Duplicate_owned o M tcells[i] v hv
    have hext01 : Extends M.objs M1.objs := by
      intro a w hl
      rw [hlk1 a (lookup_lt_fresh hl)]
      exact hl
    have harrlt : arr < fresh M.objs := lookup_lt_fresh harr
    have harr1 : lookup arr M1.objs = some (Obj.ptrs cells) := hext01 _ _ harr
    have hD1 : readTitle M1 (some dup) = some dr :=
      readTitle_except (hext01.toExcept arr) (by simp [harr]) hD
    let M2 : Mem := { objs := store arr (Obj.ptrs (cells.set i p)) M1.objs, reqs := M1.reqs }
    have hset : setCell arr i p M1 = some M2 := setCell_eq harr1 hi p
    have hext12 : ExtendsExcept arr M1.objs M2.objs := extendsExcept_store _ _ _
    have hext02 : ExtendsExcept arr M.objs M2.objs := (hext01.toExcept arr).comp hext12
    have hk0s : ∀ s, lookup arr M.objs ≠ some (Obj.str s) := by simp [harr]
    have hk0p : ∀ r, lookup arr M.objs ≠ some (Obj.seekpoint r) := by simp [harr]
    have hk0t : ∀ r, lookup arr M.objs ≠ some (Obj.title r) := by simp [harr]
    have harr2 : lookup arr M2.objs = some (Obj.ptrs (cells.set i p)) :=
      lookup_store_self _ harr1
    have hfr2 : fresh M2.objs = fresh M1.objs := fresh_store _ _ _
    obtain ⟨M3, cells3, n2, hloop, harr3, hlen3, htake3, hown3, hlenM3, hbel3, hlk3⟩ :=
      ih (i + 1) M2 (cells.set i p) vs2
        (readTitle_except hext02 hk0t hT)
        (readPtrs_except hext02 htarr hP)
        (readTitle_except hext02 hk0t hD)
        harr2 (by simp; omega) (by omega)
        (seekpointsAt_except hext02 hk0s hk0p hvs2)
        (by rw [hfr2]; omega)
    have hlen3b : cells3.length = cells.length := by simp [hlen3]
    have hi3 : i < cells3.length := by omega
    have hcellp : cells3[i] = p := by
      have h1 : (cells3.take (i + 1))[i]? = ((cells.set i p).take (i + 1))[i]? := by
        rw [htake3]
      simp [List.getElem?_take, hi3, hi] at h1
      exact h1
    have hslice3 : (cells3.drop i).take (k + 1) = p :: (cells3.drop (i + 1)).take k := by
      rw [List.drop_eq_getElem_cons hi3, List.take_succ_cons, hcellp]
    have hlk13 : ∀ a, a < fresh M1.objs → a ≠ arr → lookup a M3.objs = lookup a M1.objs := by
      intro a ha hne
      rw [hlk3 a (by rw [hfr2]; exact ha) hne]
      exact lookup_store_of_ne hne _ _
    refine ⟨M3, cells3, n1 + n2, ?_, harr3, hlen3b, ?_, ?_, ?_, ?_, ?_⟩
    · simp only [title_dup_loop, hT, hP, Option.bind_eq_bind, Option.some_bind,
        List.get?_eq_getElem?, List.getElem?_eq_getElem hti, hdupl, hD1, hdarr, hset]
      exact hloop
    · have h1 : (cells3.take (i + 1)).take i = ((cells.set i p).take (i + 1)).take i := by
        rw [htake3]
      simp only [List.take_take, Nat.min_eq_left (Nat.le_succ i)] at h1
      rw [h1, List.set_take, List.set_eq_of_length_le (by simp)]
    · rw [hslice3]
      refine ⟨fresh M1.objs, n1, n2, hfr01, ?_, rfl, ?_⟩
      · exact hcell.transport (fun a ha1 ha2 => hlk13 a ha2 (by omega))
      · rw [← hfr2]
        exact hown3
    · rw [hlenM3]
      show (store _ _ M1.objs).length + n2 = _
      rw [length_store, hlen1]
      omega
    · rw [hbel3]
      show below f (store _ _ M1.objs) = _
      rw [below_store hfarr, hbel1 f hfM]
    · intro a ha hne
      rw [hlk13 a (by omega) hne, hlk1 a ha]

theorem below_tshape (base : List (Nat × Obj)) {top : List (Nat × Obj)} (R : input_title_t)
    (h : Desc (fresh base) top) : below (fresh base) (tshape base (fresh base) top R) = base := by
  induction top with
  | nil =>
    show below _ ((fresh base, _) :: base) = base
    rw [below_cons (Nat.le_refl _), below_fresh]
  | cons x top ih =>
    obtain ⟨b, w⟩ := x
    show below _ ((b, w) :: tshape base (fresh base) top R) = base
    rw [below_cons (Nat.le_of_lt h.1), ih h.2.2]

theorem length_tshape (base : List (Nat × Obj)) (d : Nat) (top : List (Nat × Obj))
    (R : input_title_t) : (tshape base d top R).length = base.length + top.length + 1 := by
  simp only [tshape, List.length_append, List.length_cons]
  omega

/-- The allocations made by the tail of `vlc_input_title_Duplicate` are owned by
the new record. -/
theorem title_dup_tail_owned (o : Nat → Bool) (m : Mem) (t : Ptr) (tr : input_title_t)
    (vs : List SeekpointVal) (top1 : List (Nat × Obj)) (qn : Ptr) (k2 : Nat)
    (hT : readTitle m t = some tr) (hS : SourceSeekpoints m tr vs)
    (hd1 : Desc (fresh m.objs) top1) :
    ∃ m1 Rd n,
      title_dup_tail o t (fresh m.objs)
        { objs := tshape m.objs (fresh m.objs) top1 ⟨qn, 0, 0, 0, none⟩, reqs := k2 } =
          some (some (fresh m.objs), m1) ∧
      lookup (fresh m.objs) m1.objs = some (Obj.title Rd) ∧ Rd.psz_name = qn ∧
      below (fresh m.objs) m1.objs = m.objs ∧
      m1.objs.length = m.objs.length + top1.length + 1 + n ∧
      (∀ a, a ≠ fresh m.objs →
        lookup a (tshape m.objs (fresh m.objs) top1 ⟨qn, 0, 0, 0, none⟩) ≠ none →
        lookup a m1.objs = lookup a (tshape m.objs (fresh m.objs) top1 ⟨qn, 0, 0, 0, none⟩)) ∧
      ((Rd.i_seekpoint = 0 ∧ Rd.seekpoint = none ∧ n = 0) ∨
        (∃ arr cells lo n1, Rd.seekpoint = some arr ∧ 0 < Rd.i_seekpoint ∧
          Rd.i_seekpoint.toNat = cells.length ∧
          lookup arr m1.objs = some (Obj.ptrs cells) ∧ fresh m.objs < arr ∧ arr < lo ∧
          (∀ e ∈ top1, e.1 < arr) ∧ Owned m1 lo cells n1 ∧ n = n1 + 1)) := by
  have hread : ∀ (top : List (Nat × Obj)) (R : input_title_t) (k : Nat),
      Desc (fresh m.objs) top →
      readTitle { objs := tshape m.objs (fresh m.objs) top R, reqs := k } t = some tr :=
    fun top R k hd => readTitle_mono (m := m) (extends_tshape m.objs R hd) hT
  simp only [title_dup_tail, hread _ _ _ hd1, Option.bind_eq_bind, Option.some_bind,
    setTitle_tshape _ _ _ hd1]
  by_cases hpos : 0 < tr.i_seekpoint
  · obtain ⟨pa, ea, hpa, hd2⟩ := malloc_tshape o m.objs (fresh m.objs) top1
      ⟨qn, tr.i_length, tr.i_flags, 0, none⟩ k2
      (Obj.ptrs (List.replicate tr.i_seekpoint.toNat none)) hd1
    rw [if_pos hpos]
    simp only [vlc_alloc, ea, setTitle_tshape _ _ _ hd2, Option.some_bind]
    cases pa with
    | none =>
      refine ⟨_, _, 0, rfl, lookup_tshape_self _ hd1, rfl, below_tshape _ _ hd1, ?_, ?_,
        Or.inl ⟨rfl, rfl, rfl⟩⟩
      · exact length_tshape _ _ _ _
      · intro a ha _
        exact lookup_tshape_ne _ _ hd1 ha
    | some arr =>
      simp only [pushOpt] at hd2 ⊢
      simp only [SourceSeekpoints, if_pos hpos] at hS
      obtain ⟨tcells, hP, hle, hvs⟩ := hS
      have harrAbove := @lookup_tshape_above m.objs _ _ _
        (⟨qn, 0, 0, 0, none⟩ : input_title_t) hd2
      have hdlt : fresh m.objs < arr := hd2.1
      have hdne : fresh m.objs ≠ arr := Nat.ne_of_lt hdlt
      have htarr : tr.seekpoint ≠ some arr := by
        obtain ⟨ta, hta, hlta⟩ := readPtrs_some hP
        rw [hta]
        have := lookup_lt_fresh hlta
        simp only [ne_eq, Option.some.injEq]
        omega
      have hext06 := extends_tshape m.objs
        (⟨qn, tr.i_length, tr.i_flags, 0, some arr⟩ : input_title_t) hd2
      have harr6 : lookup arr
          (tshape m.objs (fresh m.objs)
            ((arr, Obj.ptrs (List.replicate tr.i_seekpoint.toNat none)) :: top1)
            ⟨qn, tr.i_length, tr.i_flags, 0, some arr⟩) =
          some (Obj.ptrs (List.replicate tr.i_seekpoint.toNat none)) := by
        simp [tshape, lookup]
      have hcons6 : tshape m.objs (fresh m.objs)
            ((arr, Obj.ptrs (List.replicate tr.i_seekpoint.toNat none)) :: top1)
            ⟨qn, tr.i_length, tr.i_flags, 0, some arr⟩ =
          (arr, Obj.ptrs (List.replicate tr.i_seekpoint.toNat none)) ::
            tshape m.objs (fresh m.objs) top1
              ⟨qn, tr.i_length, tr.i_flags, 0, some arr⟩ := rfl
      have hfr6 : arr < fresh (tshape m.objs (fresh m.objs)
            ((arr, Obj.ptrs (List.replicate tr.i_seekpoint.toNat none)) :: top1)
            ⟨qn, tr.i_length, tr.i_flags, 0, some arr⟩) := lookup_lt_fresh harr6
      obtain ⟨M7, cells7, n7, hloop, harr7, hlen7, _, hown7, hlenM7, hbel7, hlk7⟩ :=
        title_dup_loop_owned o t (fresh m.objs) arr tr
          ⟨qn, tr.i_length, tr.i_flags, 0, some arr⟩ tcells htarr rfl (fresh m.objs)
          (Nat.le_of_lt hdlt)
          tr.i_seekpoint.toNat 0
          { objs := tshape m.objs (fresh m.objs)
              ((arr, Obj.ptrs (List.replicate tr.i_seekpoint.toNat none)) :: top1)
              ⟨qn, tr.i_length, tr.i_flags, 0, some arr⟩,
            reqs := k2 + 1 }
          (List.replicate tr.i_seekpoint.toNat none) vs
          (hread _ _ _ hd2)
          (readPtrs_mono (m := m) hext06 hP)
          (readTitle_tshape _ _ hd2)
          harr6 (by simp) (by omega)
          (by
            simp only [List.drop_zero]
            exact seekpointsAt_mono (m := m) hext06 hvs)
          (by
            show fresh m.objs ≤ fresh (tshape _ _ _ _)
            omega)
      dsimp only at hown7 hlenM7 hbel7 hlk7
      simp only [List.length_replicate] at hlen7
      have hsl : (cells7.drop 0).take tr.i_seekpoint.toNat = cells7 := by
        simp only [List.drop_zero]
        exact List.take_of_length_le (by omega)
      rw [hsl] at hown7
      have hd7 : lookup (fresh m.objs) M7.objs =
          some (Obj.title ⟨qn, tr.i_length, tr.i_flags, 0, some arr⟩) := by
        rw [hlk7 _ (by omega) hdne]
        exact lookup_tshape_self _ hd2
      have hT7 : readTitle M7 t = some tr := by
        obtain ⟨ta, rfl, hlta⟩ := readTitle_some hT
        have hta := lookup_lt_fresh hlta
        have : lookup ta M7.objs = some (Obj.title tr) := by
          rw [hlk7 ta (by omega) (by omega)]
          exact hext06 _ _ hlta
        simp [readTitle, this]
      simp only [hloop, Option.some_bind, hT7, setTitle_eq hd7]
      refine ⟨_, ⟨qn, tr.i_length, tr.i_flags, tr.i_seekpoint, some arr⟩, n7 + 1, rfl, ?_, rfl,
        ?_, ?_, ?_, Or.inr ⟨arr, cells7, _, n7, rfl, hpos, by simp only; omega, ?_, hdlt, hfr6,
          hd2.2.1, ?_, rfl⟩⟩
      · exact lookup_store_self _ hd7
      · show below _ (store _ _ M7.objs) = _
        rw [below_store (Nat.le_refl _), hbel7, hcons6, below_cons (Nat.le_of_lt hdlt),
          below_tshape _ _ hd1]
      · show (store _ _ M7.objs).length = _
        rw [length_store, hlenM7, hcons6, List.length_cons, length_tshape]
        omega
      · intro a ha hl
        have hane : a ≠ arr := by
          intro e
          rw [e, harrAbove] at hl
          exact hl rfl
        obtain ⟨w, hw⟩ := Option.ne_none_iff_exists'.1 hl
        have h6 : lookup a
            (tshape m.objs (fresh m.objs)
              ((arr, Obj.ptrs (List.replicate tr.i_seekpoint.toNat none)) :: top1)
              ⟨qn, tr.i_length, tr.i_flags, 0, some arr⟩) = some w := by
          rw [hcons6, lookup_cons, if_neg hane,
            lookup_tshape_ne ⟨qn, 0, 0, 0, none⟩ _ hd1 ha]
          exact hw
        show lookup a (store _ _ M7.objs) = _
        rw [lookup_store_of_ne ha, hlk7 a (lookup_lt_fresh h6) hane, h6, hw]
      · show lookup arr (store _ _ M7.objs) = _
        rw [lookup_store_of_ne (Ne.symm hdne)]
        exact harr7
      · refine hown7.carry ?_
        intro a ha
        show lookup a (store _ _ M7.objs) = _
        exact lookup_store_of_ne (by omega) _ _
  · rw [if_neg hpos]
    refine ⟨_, _, 0, rfl, lookup_tshape_self _ hd1, rfl, below_tshape _ _ hd1, ?_, ?_,
      Or.inl ⟨rfl, rfl, rfl⟩⟩
    · exact length_tshape _ _ _ _
    · intro a ha _
      exact lookup_tshape_ne _ _ hd1 ha

/-- After the tail of `vlc_input_title_Duplicate`, `vlc_input_title_Delete` of
the new record frees every allocation made for it. -/
theorem title_dup_tail_delete (o : Nat → Bool) (m : Mem) (t : Ptr) (tr : input_title_t)
    (vs : List SeekpointVal) (qn : Ptr) (s : List Nat) (k2 : Nat)
    (hT : readTitle m t = some tr) (hS : SourceSeekpoints m tr vs)
    (hd1 : Desc (fresh m.objs) (pushOpt qn (Obj.str s) [])) :
    ∃ m1 Rd m2,
      title_dup_tail o t (fresh m.objs)
        { objs := tshape m.objs (fresh m.objs) (pushOpt qn (Obj.str s) []) ⟨qn, 0, 0, 0, none⟩,
          reqs := k2 } = some (some (fresh m.objs), m1) ∧
      readTitle m1 (some (fresh m.objs)) = some Rd ∧
      (0 < Rd.i_seekpoint → ∃ cells, readPtrs m1 Rd.seekpoint = some cells ∧
        Rd.i_seekpoint.toNat ≤ cells.length) ∧
      vlc_input_title_Delete (some (fresh m.objs)) m1 = some m2 ∧ m2.objs = m.objs := by
  obtain ⟨m1, Rd, n, htail, hd, hname, hbel, hlen, hfr, hseek⟩ :=
    title_dup_tail_owned o m t tr vs (pushOpt qn (Obj.str s) []) qn k2 hT hS hd1
  have hnm : ∀ q, Rd.psz_name = some q → fresh m.objs < q ∧ lookup q m1.objs ≠ none := by
    intro q hq
    rw [hname] at hq
    subst hq
    have hlt : fresh m.objs < q := hd1.1
    have hl0 : lookup q (tshape m.objs (fresh m.objs) (pushOpt (some q) (Obj.str s) [])
        ⟨some q, 0, 0, 0, none⟩) = some (Obj.str s) := by
      simp [pushOpt, tshape, lookup]
    refine ⟨hlt, ?_⟩
    rw [hfr q (by omega) (by rw [hl0]; simp), hl0]
    simp
  have hseek2 : (Rd.i_seekpoint ≤ 0 ∧ Rd.seekpoint = none ∧ n = 0) ∨
      (∃ arr cells lo n1, Rd.seekpoint = some arr ∧ Rd.i_seekpoint.toNat = cells.length ∧
        lookup arr m1.objs = some (Obj.ptrs cells) ∧ fresh m.objs < arr ∧ arr < lo ∧
        (∀ q, Rd.psz_name = some q → q < lo ∧ q ≠ arr) ∧
        Owned m1 lo cells n1 ∧ n = n1 + 1) := by
    rcases hseek with ⟨h1, h2, h3⟩ | ⟨arr, cells, lo, n1, h1, _, h3, h4, h5, h6, h7, h8, h9⟩
    · exact Or.inl ⟨by omega, h2, h3⟩
    · refine Or.inr ⟨arr, cells, lo, n1, h1, h3, h4, h5, h6, ?_, h8, h9⟩
      intro q hq
      rw [hname] at hq
      subst hq
      have := h7 (q, Obj.str s) (by simp [pushOpt])
      simp only at this
      omega
  obtain ⟨m2, hdel, hbel2, hlen2⟩ := vlc_input_title_Delete_owned hd hnm hseek2
  have htop : (pushOpt qn (Obj.str s) []).length = (if Rd.psz_name = none then 0 else 1) := by
    rw [hname]
    cases qn <;> simp [pushOpt]
  refine ⟨m1, Rd, m2, htail, by simp [readTitle, hd], ?_, hdel, ?_⟩
  · intro hpos
    rcases hseek with ⟨h1, _, _⟩ | ⟨arr, cells, lo, n1, h1, _, h3, h4, _⟩
    · omega
    · exact ⟨cells, by simp [readPtrs, h1, h4], by omega⟩
  · refine eq_of_below_of_length (f := fresh m.objs) (by rw [hbel2, hbel]) ?_
    omega

/-- What `vlc_input_title_Duplicate` allocates on a readable source title,
`vlc_input_title_Delete` of its result frees. -/
theorem vlc_input_title_Duplicate_Delete (o : Nat → Bool) (m : Mem) (t : Ptr)
    (tr : input_title_t) (nm : Option (List Nat)) (vs : List SeekpointVal)
    (hT : readTitle m t = some tr) (hN : optStrAt m tr.psz_name = some nm)
    (hS : SourceSeekpoints m tr vs) :
    ∃ r m1, vlc_input_title_Duplicate o t m = some (r, m1) ∧
      (r = none → m1.objs = m.objs) ∧
      (∀ d, r = some d → ∃ Rd m2, readTitle m1 (some d) = some Rd ∧
        (0 < Rd.i_seekpoint → ∃ cells, readPtrs m1 Rd.seekpoint = some cells ∧
          Rd.i_seekpoint.toNat ≤ cells.length) ∧
        vlc_input_title_Delete (some d) m1 = some m2 ∧ m2.objs = m.objs) := by
  rw [vlc_input_title_Duplicate_unfold, vlc_input_title_New_eq]
  cases ho : o m.reqs
  · exact ⟨none, _, rfl, fun _ => rfl, by simp⟩
  · have hd0 : Desc (fresh m.objs) [] := trivial
    have hread : readTitle
        { objs := tshape m.objs (fresh m.objs) [] ⟨none, 0, 0, 0, none⟩, reqs := m.reqs + 1 }
        t = some tr :=
      readTitle_mono (m := m) (extends_tshape m.objs _ hd0) hT
    simp only [if_true, Option.some_bind, hread]
    cases nm with
    | none =>
      have hpn := optStrAt_none hN
      rw [hpn]
      simp only [Option.some_bind]
      obtain ⟨m1, Rd, m2, htail, hRd, hsafe, hdel, hobjs⟩ :=
        title_dup_tail_delete o m t tr vs none [] (m.reqs + 1) hT hS hd0
      refine ⟨some (fresh m.objs), m1, htail, by simp, ?_⟩
      intro d hd
      simp only [Option.some.injEq] at hd
      subst hd
      exact ⟨Rd, m2, hRd, hsafe, hdel, hobjs⟩
    | some s =>
      obtain ⟨q, hpq, hlq⟩ := optStrAt_some hN
      have hrs : readStr
          { objs := tshape m.objs (fresh m.objs) [] ⟨none, 0, 0, 0, none⟩,
            reqs := m.reqs + 1 } (some q) = some s := by
        have := extends_tshape m.objs (⟨none, 0, 0, 0, none⟩ : input_title_t) hd0 q _ hlq
        simp [readStr, this]
      obtain ⟨qn, eqn, hqn, hd1⟩ := malloc_tshape o m.objs (fresh m.objs) []
        ⟨none, 0, 0, 0, none⟩ (m.reqs + 1) (Obj.str s) hd0
      rw [hpq]
      simp only [hrs, Option.some_bind, strdup, eqn, setTitle_tshape _ _ _ hd1]
      obtain ⟨m1, Rd, m2, htail, hRd, hsafe, hdel, hobjs⟩ :=
        title_dup_tail_delete o m t tr vs qn s (m.reqs + 1 + 1) hT hS hd1
      refine ⟨some (fresh m.objs), m1, htail, by simp, ?_⟩
      intro d hd
      simp only [Option.some.injEq] at hd
      subst hd
      exact ⟨Rd, m2, hRd, hsafe, hdel, hobjs⟩

/-! ## C12: deleting a duplicated title -/

/-- C12: for every well-formed title (`titleAt`) and every pattern of
allocation success and failure (every oracle `o`), `vlc_input_title_Duplicate`
returns.  When the result is `NULL` the live allocations are those of before
the call.  When it is a title `d`, the record of `d` is safe to delete: if its
seekpoint count is positive its seekpoint array is non-null and live and has at
least that many cells; and `vlc_input_title_Delete(d)` returns and leaves
exactly the allocations that were live before the duplication, unchanged. -/
theorem vlc_input_title_Duplicate_deletable (o : Nat → Bool) (m : Mem) (t : Ptr)
    (v : TitleVal) (hv : titleAt m t = some v) :
    ∃ r m1, vlc_input_title_Duplicate o t m = some (r, m1) ∧
      (r = none → m1.objs = m.objs) ∧
      (∀ d, r = some d → ∃ Rd m2, readTitle m1 (some d) = some Rd ∧
        (0 < Rd.i_seekpoint → Rd.seekpoint ≠ none ∧
          ∃ cells, readPtrs m1 Rd.seekpoint = some cells ∧
            Rd.i_seekpoint.toNat ≤ cells.length) ∧
        vlc_input_title_Delete (some d) m1 = some m2 ∧ m2.objs = m.objs) := by
  obtain ⟨tr, hT, hN, _, _, _, hS⟩ := titleAt_some hv
  obtain ⟨r, m1, hdup, hnone, hsome⟩ :=
    vlc_input_title_Duplicate_Delete o m t tr v.name v.seekpoints hT hN hS
  refine ⟨r, m1, hdup, hnone, ?_⟩
  intro d hd
  obtain ⟨Rd, m2, hRd, hsafe, hdel, hobjs⟩ := hsome d hd
  refine ⟨Rd, m2, hRd, ?_, hdel, hobjs⟩
  intro hpos
  obtain ⟨cells, hc, hle⟩ := hsafe hpos
  obtain ⟨q, hq, _⟩ := readPtrs_some hc
  exact ⟨by simp [hq], cells, hc, hle⟩

/-- Witness for C12: the example title, duplicated while every allocation
succeeds. -/
theorem vlc_input_title_Duplicate_deletable_witness :
    titleAt exTitleMem (some 1) = some exTitleVal ∧
    ∃ r m1, vlc_input_title_Duplicate allOk (some 1) exTitleMem = some (r, m1) ∧
      (r = none → m1.objs = exTitleMem.objs) ∧
      (∀ d, r = some d → ∃ Rd m2, readTitle m1 (some d) = some Rd ∧
        (0 < Rd.i_seekpoint → Rd.seekpoint ≠ none ∧
          ∃ cells, readPtrs m1 Rd.seekpoint = some cells ∧
            Rd.i_seekpoint.toNat ≤ cells.length) ∧
        vlc_input_title_Delete (some d) m1 = some m2 ∧ m2.objs = exTitleMem.objs) :=
  ⟨by decide,
    vlc_input_title_Duplicate_deletable allOk exTitleMem (some 1) exTitleVal (by decide)⟩

end VlcInput
